import Mathlib

/-!
# MoarVM spesh: deoptimization (src/spesh/deopt.c) and planning (src/spesh/plan.c)

A shallow embedding of the two C files and theorems about them.

Conventions of the embedding

* Pointers to frames are indices into the list of frames of the thread context
  (field frames, the heap); a pointer that is not a live index is a fault.
* Register files (work, env) and the deopt table are memory read by index:
  total functions from the index to the cell.
* Byte addresses (bytecode pointers, return addresses) are integers; a pointer
  plus an offset is integer addition.
* Field widths are declared in headers that are not part of the two files, so
  a field that is copied into a local is taken to have the width of that local.
  Conversions that are visible in the two files (MVMuint32 to MVMint32 at a
  call, the MVMint32 locals of the deopt table lookup, the MVMuint16 cast of a
  register index, 32-bit arithmetic on the hit counters and on the MVMuint32
  local last_return_deopt_idx) are modelled with explicit wrap-around. The
  depth max_depth of the statistics and of a planned specialization is a
  32-bit unsigned field like the hit counters, so max_depth + 1 wraps at 2^32.
* Memory management (MVM_malloc, MVM_free, MVM_realloc, GC rooting macros),
  logging and the profiler hooks do not change the modelled state.
* A function that can halt the VM (MVM_panic, MVM_oops) or dereference a bad
  pointer returns an Except value. The walk of MVM_spesh_deopt_all along the
  caller links and the loops of sort_plan take a bound on the number of steps
  as an argument; reaching the bound, reading outside an array and wrapping an
  unsigned index are failures, and the theorems show that they do not occur.
-/

namespace MoarVM

/-! ## Machine integers -/

/-- Conversion of an integer value to MVMuint32 (reduction modulo 2^32). -/
def toUInt32 (x : Int) : Nat := (x % 4294967296).toNat

/-- Conversion of an integer value to MVMint32 (two's complement wrap). -/
def toInt32 (x : Int) : Int := (x + 2147483648) % 4294967296 - 2147483648

/-- Conversion of an integer value to MVMuint16 (reduction modulo 2^16). -/
def toUInt16 (x : Int) : Nat := (x % 65536).toNat

/-! ## Data model shared by both files -/

/-- Modelled from the spec: the REPR id of an object. The numeric ids are
declared in headers outside the two files; uninline only tests whether the id
is that of a code object, so only that id is distinguished. -/
inductive REPRId
  | MVM_REPR_ID_MVMCode
  | other (id : Nat)
deriving DecidableEq, Repr

/-- An object: its address and the id of its REPR. -/
structure MVMObject where
  addr : Nat
  repr_id : REPRId
deriving DecidableEq, Repr

/-- A register is a union; the model distinguishes a register that holds an
object pointer from one that holds anything else. -/
inductive MVMRegister
  | o (obj : MVMObject)
  | i64 (v : Int)
deriving DecidableEq, Repr

/-- Modelled from the spec: the return types VOID, OBJ, INT, NUM, STR (the enum
MVMReturnType is declared outside the two files). -/
inductive MVMReturnType
  | MVM_RETURN_VOID
  | MVM_RETURN_OBJ
  | MVM_RETURN_INT
  | MVM_RETURN_NUM
  | MVM_RETURN_STR
deriving DecidableEq, Repr

/-- A callsite: its address, the number of argument flags and the flags. -/
structure MVMCallsite where
  addr : Nat
  flag_count : Nat
  arg_flags : List Nat
deriving DecidableEq, Repr

/-- One position of an argument type tuple. -/
structure MVMSpeshStatsType where
  type : Nat
  decont_type : Nat
deriving DecidableEq, Repr

/-- One invoke recorded at a bytecode offset: the address of the invoked
static frame. -/
structure MVMSpeshStatsInvoke where
  sf : Nat
deriving DecidableEq, Repr

/-- Statistics at one bytecode offset; num_invokes is the length of invokes. -/
structure MVMSpeshStatsByOffset where
  invokes : List MVMSpeshStatsInvoke
deriving DecidableEq, Repr

/-- Statistics of one argument type tuple of a callsite; num_by_offset is the
length of by_offset. The hit counters are MVMuint32. -/
structure MVMSpeshStatsByType where
  arg_types : List MVMSpeshStatsType
  hits : Nat
  osr_hits : Nat
  by_offset : List MVMSpeshStatsByOffset
  max_depth : Nat
deriving DecidableEq, Repr

/-- Statistics of one callsite of a static frame; cs is none for a NULL
callsite pointer; num_by_type is the length of by_type. -/
structure MVMSpeshStatsByCallsite where
  cs : Option MVMCallsite
  hits : Nat
  osr_hits : Nat
  by_type : List MVMSpeshStatsByType
  max_depth : Nat
deriving DecidableEq, Repr

/-- Statistics of a static frame; num_by_callsite is the length of
by_callsite. -/
structure MVMSpeshStats where
  hits : Nat
  osr_hits : Nat
  by_callsite : List MVMSpeshStatsByCallsite
deriving DecidableEq, Repr

/-- The fields of a static frame (sf->body and sf->body.spesh->body) that the
two files read. addr is the address of the static frame object: two static
frame pointers are equal when the addresses are. bytecode is the address of the
generic bytecode. spesh_arg_guard is the pointer to the arg-guard tree. -/
structure MVMStaticFrame where
  addr : Nat
  bytecode : Int
  bytecode_size : Nat
  num_locals : Nat
  num_lexicals : Nat
  cu : Nat
  specializable : Bool
  spesh_stats : MVMSpeshStats
  spesh_arg_guard : Nat
deriving DecidableEq, Repr

/-! ## Data model of deopt.c -/

/-- An entry of the inline table of a candidate. -/
structure MVMSpeshInline where
  start : Int
  «end» : Int
  sf : MVMStaticFrame
  code_ref_reg : Nat
  locals_start : Nat
  lexicals_start : Nat
  res_reg : Nat
  res_type : MVMReturnType
  return_deopt_idx : Nat
  deopt_named_used_bit_field : Nat
deriving DecidableEq, Repr

/-- JIT code of a candidate: deopts k is jitcode->deopts[k].idx. -/
structure MVMJitCode where
  num_deopts : Nat
  deopts : Nat → Int

/-- One entry of cand->deopt_pea.deopt_point. -/
structure MVMSpeshPEADeoptPoint where
  deopt_point_idx : Int
  materialize_info_idx : Nat
deriving DecidableEq, Repr

/-- A specialization candidate. bytecode is the address of the specialized
bytecode; deopts is the flat deopt table (entry 2i is the generic offset and
entry 2i+1 the specialized offset of deopt index i); inlines is none for a
NULL inline table, and num_inlines is the length of the table. -/
structure MVMSpeshCandidate where
  bytecode : Int
  num_deopts : Nat
  deopts : Nat → Int
  inlines : Option (List MVMSpeshInline)
  jitcode : Option MVMJitCode
  deopt_pea_deopt_point : List MVMSpeshPEADeoptPoint
  deopt_named_used_bit_field : Nat

/-- The dynlex cache kept in f->extra. -/
structure MVMFrameExtra where
  dynlex_cache_name : Option Nat
  dynlex_cache_reg : Option Nat
deriving DecidableEq, Repr

/-- A frame. A pointer to a frame (caller, and the frame pointers of the thread
context) is the index of the frame in the heap of the thread context.
return_address is a byte address; return_value is the index of the register of
the own work array that the pointer points at, none for NULL. -/
structure MVMFrame where
  static_info : MVMStaticFrame
  code_ref : Option MVMObject
  work : Nat → MVMRegister
  env : Nat → MVMRegister
  caller : Option Nat
  return_address : Int
  return_type : MVMReturnType
  return_value : Option Nat
  spesh_cand : Option MVMSpeshCandidate
  effective_spesh_slots : Option Nat
  jit_entry_label : Option Nat
  params_named_used_bit_field : Nat
  extra : Option MVMFrameExtra
  sequence_nr : Nat

/-- The thread context: the interpreter slots that deopt.c writes and the heap
of frames. interp_reg_base names the frame whose work array the register base
points at. -/
structure MVMThreadContext where
  cur_frame : Nat
  current_frame_nr : Nat
  interp_cur_op : Int
  interp_bytecode_start : Int
  interp_reg_base : Nat
  interp_cu : Nat
  frames : List MVMFrame

/-- The ways in which the deoptimizer does not return. The oops of
MVM_spesh_deopt_one carries the state of the thread at the call of MVM_oops,
which is the state in which the VM halts. -/
inductive DeoptError
  | panic_no_code_object
  | panic_materialize_NYI
  | oops_deopt_one_failed (tc : MVMThreadContext)
  | fault
  | out_of_fuel

/-- Dereference of a frame pointer. -/
def getFrame (tc : MVMThreadContext) (p : Nat) : Except DeoptError MVMFrame :=
  match tc.frames[p]? with
  | some fr => .ok fr
  | none => .error .fault

/-- Assignment to fields of the frame a pointer points at. -/
def modifyFrame (tc : MVMThreadContext) (p : Nat) (g : MVMFrame → MVMFrame) :
    MVMThreadContext :=
  match tc.frames[p]? with
  | some fr => { tc with frames := tc.frames.set p (g fr) }
  | none => tc

/-- Modelled from the spec: the frame allocator create_for_deopt
(MVM_frame_create_for_deopt is not in the two files). It gives a new heap frame
for the static frame with the given code object; every other field is zero or
NULL, in particular the new frame has no candidate and no spesh slots. -/
def MVM_frame_create_for_deopt (static_frame : MVMStaticFrame) (code_ref : MVMObject) :
    MVMFrame :=
  { static_info := static_frame
    code_ref := some code_ref
    work := fun _ => .i64 0
    env := fun _ => .i64 0
    caller := none
    return_address := 0
    return_type := .MVM_RETURN_VOID
    return_value := none
    spesh_cand := none
    effective_spesh_slots := none
    jit_entry_label := none
    params_named_used_bit_field := 0
    extra := none
    sequence_nr := 0 }

/-- The memcpy of n registers from src + start to dst. -/
def memcpy_regs (dst src : Nat → MVMRegister) (start n : Nat) : Nat → MVMRegister :=
  fun k => if k < n then src (start + k) else dst k

/-! ## deopt.c -/

/-- The function clear_dynlex_cache. -/
def clear_dynlex_cache (tc : MVMThreadContext) (f : Nat) : MVMThreadContext :=
  modifyFrame tc f fun fr =>
    { fr with
      extra :=
        match fr.extra with
        | some _ => some { dynlex_cache_name := none, dynlex_cache_reg := none }
        | none => none }

/-- The tracking variables of uninline, set once a frame has been uninlined;
last_return_deopt_idx is an MVMuint32. -/
structure UninlineLast where
  last_uninlined : Nat
  last_res_reg : Nat
  last_res_type : MVMReturnType
  last_return_deopt_idx : Nat
deriving DecidableEq, Repr

/-- The range test of the loop of uninline. -/
def inline_matches (offset : Int) (inl : MVMSpeshInline) : Bool :=
  decide (offset > inl.start) && decide (offset ≤ inl.«end»)

/-- One iteration of the loop of uninline, for inline table entry inl. The
frame f is read once, when the entry matches: none of the assignments of the
iteration changes the fields of f that are read (work, env, return_type,
return_value). -/
def uninline_iter (f : Nat) (cand : MVMSpeshCandidate) (offset deopt_offset : Int)
    (callee : Option Nat) (st : MVMThreadContext × Option UninlineLast)
    (inl : MVMSpeshInline) : Except DeoptError (MVMThreadContext × Option UninlineLast) :=
  if inline_matches offset inl then
    match getFrame st.1 f with
    | .error e => .error e
    | .ok fr =>
      match fr.work inl.code_ref_reg with
      | .i64 _ => .error .fault
      | .o ucode =>
        if ucode.repr_id ≠ REPRId.MVM_REPR_ID_MVMCode then .error .panic_no_code_object
        else
          let usf := inl.sf
          -- uf = MVM_frame_create_for_deopt(tc, usf, ucode)
          let uf : Nat := st.1.frames.length
          let tc0 : MVMThreadContext :=
            { st.1 with frames := st.1.frames ++ [MVM_frame_create_for_deopt usf ucode] }
          -- copy the locals and lexicals into place
          let tc1 := modifyFrame tc0 uf fun u =>
            { u with
              work :=
                if usf.num_locals ≠ 0 then
                  memcpy_regs u.work fr.work inl.locals_start usf.num_locals
                else u.work }
          let tc2 := modifyFrame tc1 uf fun u =>
            { u with
              env :=
                if usf.num_lexicals ≠ 0 then
                  memcpy_regs u.env fr.env inl.lexicals_start usf.num_lexicals
                else u.env }
          -- store the named argument used bit field
          let tc3 := modifyFrame tc2 uf fun u =>
            { u with
              params_named_used_bit_field :=
                if inl.deopt_named_used_bit_field ≠ 0 then inl.deopt_named_used_bit_field
                else u.params_named_used_bit_field }
          let tracking : Option UninlineLast := some
            { last_uninlined := uf
              last_res_reg := inl.res_reg
              last_res_type := inl.res_type
              last_return_deopt_idx := inl.return_deopt_idx }
          match st.2 with
          | some last =>
            -- multi-level un-inline
            let tc4 := modifyFrame tc3 uf fun u =>
              { u with
                effective_spesh_slots := none
                spesh_cand := none
                return_address := usf.bytecode +
                  cand.deopts (toUInt32 (2 * (last.last_return_deopt_idx : Int)))
                return_type := last.last_res_type
                return_value :=
                  if last.last_res_type = MVMReturnType.MVM_RETURN_VOID then none
                  else some last.last_res_reg }
            -- last_uninlined->caller = uf
            let tc5 := modifyFrame tc4 last.last_uninlined fun lu => { lu with caller := some uf }
            .ok (tc5, tracking)
          | none =>
            match callee with
            | some c =>
              -- callee->caller = uf
              let tc4 := modifyFrame tc3 c fun cf => { cf with caller := some uf }
              if fr.return_type = MVMReturnType.MVM_RETURN_VOID then
                let tc5 := modifyFrame tc4 uf fun u =>
                  { u with
                    return_address := usf.bytecode + deopt_offset
                    return_type := fr.return_type
                    return_value := none }
                .ok (tc5, tracking)
              else
                match fr.return_value with
                | none => .error .fault
                | some r =>
                  let orig_reg := toUInt16 r
                  let ret_reg := toUInt16 ((orig_reg : Int) - inl.locals_start)
                  let tc5 := modifyFrame tc4 uf fun u =>
                    { u with
                      return_address := usf.bytecode + deopt_offset
                      return_type := fr.return_type
                      return_value := some ret_reg }
                  .ok (tc5, tracking)
            | none =>
              -- the deopt_one case: point the interpreter at the new frame
              match getFrame tc3 uf with
              | .error e => .error e
              | .ok u =>
                .ok ({ tc3 with
                        cur_frame := uf
                        current_frame_nr := u.sequence_nr
                        interp_cur_op := usf.bytecode + deopt_offset
                        interp_bytecode_start := usf.bytecode
                        interp_reg_base := uf
                        interp_cu := usf.cu }, tracking)
  else .ok st

/-- The loop of uninline over the inline table, in table order. -/
def uninline_loop (f : Nat) (cand : MVMSpeshCandidate) (offset deopt_offset : Int)
    (callee : Option Nat) :
    List MVMSpeshInline → MVMThreadContext × Option UninlineLast →
      Except DeoptError (MVMThreadContext × Option UninlineLast)
  | [], st => .ok st
  | inl :: rest, st =>
    match uninline_iter f cand offset deopt_offset callee st inl with
    | .error e => .error e
    | .ok st1 => uninline_loop f cand offset deopt_offset callee rest st1

/-- The part of uninline after the loop. -/
def uninline_finish (f : Nat) (cand : MVMSpeshCandidate) (deopt_offset : Int)
    (callee : Option Nat) (st : MVMThreadContext × Option UninlineLast) :
    Except DeoptError MVMThreadContext :=
  match st.2 with
  | some last =>
    let tc1 := modifyFrame st.1 f fun fr =>
      { fr with
        return_address := fr.static_info.bytecode +
          cand.deopts (toUInt32 (2 * (last.last_return_deopt_idx : Int)))
        return_type := last.last_res_type
        return_value :=
          if last.last_res_type = MVMReturnType.MVM_RETURN_VOID then none
          else some last.last_res_reg }
    .ok (modifyFrame tc1 last.last_uninlined fun lu => { lu with caller := some f })
  | none =>
    match callee with
    | some _ =>
      .ok (modifyFrame st.1 f fun fr =>
        { fr with return_address := fr.static_info.bytecode + deopt_offset })
    | none =>
      match getFrame st.1 f with
      | .error e => .error e
      | .ok fr =>
        .ok { st.1 with
              interp_cur_op := fr.static_info.bytecode + deopt_offset
              interp_bytecode_start := fr.static_info.bytecode }

/-- The function uninline. A candidate whose inline table pointer is NULL has
num_inlines = 0. -/
def uninline (tc : MVMThreadContext) (f : Nat) (cand : MVMSpeshCandidate)
    (offset deopt_offset : Int) (callee : Option Nat) :
    Except DeoptError MVMThreadContext :=
  match uninline_loop f cand offset deopt_offset callee (cand.inlines.getD []) (tc, none) with
  | .error e => .error e
  | .ok st => uninline_finish f cand deopt_offset callee st

/-- The function deopt_named_args_used, for a frame with candidate cand. -/
def deopt_named_args_used (tc : MVMThreadContext) (f : Nat) (cand : MVMSpeshCandidate) :
    MVMThreadContext :=
  modifyFrame tc f fun fr =>
    { fr with
      params_named_used_bit_field :=
        if cand.deopt_named_used_bit_field ≠ 0 then cand.deopt_named_used_bit_field
        else fr.params_named_used_bit_field }

/-- The function materialize_replaced_objects: materialize_object panics, so
the function returns only when no PEA deopt point has index deopt_offset. -/
def materialize_replaced_objects (cand : MVMSpeshCandidate) (deopt_offset : Int) :
    Except DeoptError Unit :=
  if cand.deopt_pea_deopt_point.any (fun dp => decide (dp.deopt_point_idx = deopt_offset)) then
    .error .panic_materialize_NYI
  else .ok ()

/-- The function deopt_frame. MVM_frame_force_to_heap keeps the frame pointer
valid for the same frame (the heap of the model holds every frame). A frame
without candidate is a NULL dereference. -/
def deopt_frame (tc : MVMThreadContext) (f : Nat) (deopt_offset deopt_target : Int) :
    Except DeoptError MVMThreadContext :=
  match getFrame tc f with
  | .error e => .error e
  | .ok fr =>
    match fr.spesh_cand with
    | none => .error .fault
    | some cand =>
      let tc1 := deopt_named_args_used tc f cand
      match materialize_replaced_objects cand deopt_offset with
      | .error e => .error e
      | .ok _ =>
        if cand.inlines.isSome then
          match uninline tc1 f cand deopt_offset deopt_target none with
          | .error e => .error e
          | .ok tc2 =>
            .ok (modifyFrame tc2 f fun g =>
              { g with effective_spesh_slots := none, spesh_cand := none })
        else
          .ok (modifyFrame
            { tc1 with
              interp_cur_op := fr.static_info.bytecode + deopt_target
              interp_bytecode_start := fr.static_info.bytecode }
            f fun g => { g with effective_spesh_slots := none, spesh_cand := none })

/-- The function MVM_spesh_deopt_one; deopt_target is an MVMuint32. -/
def MVM_spesh_deopt_one (tc : MVMThreadContext) (deopt_target : Nat) :
    Except DeoptError MVMThreadContext :=
  let f := tc.cur_frame
  let tc1 := clear_dynlex_cache tc f
  match getFrame tc1 f with
  | .error e => .error e
  | .ok fr =>
    match fr.spesh_cand with
    | some cand =>
      let deopt_offset : Nat := toUInt32 (tc1.interp_cur_op - cand.bytecode)
      deopt_frame tc1 tc1.cur_frame (toInt32 deopt_offset) (toInt32 deopt_target)
    | none => .error (.oops_deopt_one_failed tc1)

/-- The function MVM_spesh_deopt_one_direct; both arguments are MVMuint32. -/
def MVM_spesh_deopt_one_direct (tc : MVMThreadContext) (deopt_offset deopt_target : Nat) :
    Except DeoptError MVMThreadContext :=
  let f := tc.cur_frame
  let tc1 := clear_dynlex_cache tc f
  deopt_frame tc1 tc1.cur_frame (toInt32 deopt_offset) (toInt32 deopt_target)

/-- The loop of the interpreter branch of
MVM_spesh_deopt_find_inactive_frame_deopt_idx over the first pairs entries of
the deopt table: with the loop variable i = 2 * k, it returns i / 2 = k at the
first k with deopts[i + 1] = ret_offset, and -1 is returned after the loop. -/
def find_deopt_idx_loop (cand : MVMSpeshCandidate) (ret_offset : Int) (pairs : Nat) : Int :=
  match (List.range pairs).find? (fun k => decide (cand.deopts (2 * k + 1) = ret_offset)) with
  | some k => (k : Int)
  | none => -1

/-- The interpreter branch of MVM_spesh_deopt_find_inactive_frame_deopt_idx:
n is num_deopts * 2 as an MVMint32, and the loop over i = 0, 2, 4, ... below n
visits (n + 1) / 2 pairs, none when n is not positive. -/
def find_deopt_idx (cand : MVMSpeshCandidate) (ret_offset : Int) : Int :=
  let n : Int := toInt32 ((cand.num_deopts : Int) * 2)
  find_deopt_idx_loop cand ret_offset ((n.toNat + 1) / 2)

/-- The function MVM_spesh_deopt_find_inactive_frame_deopt_idx for a frame fr
with candidate cand. The hook MVM_jit_code_get_active_deopt_idx of the JIT is
the parameter jit_idx. -/
def MVM_spesh_deopt_find_inactive_frame_deopt_idx (jit_idx : MVMJitCode → MVMFrame → Nat)
    (fr : MVMFrame) (cand : MVMSpeshCandidate) : Int :=
  match cand.jitcode with
  | some jitcode =>
    let idx := jit_idx jitcode fr
    if idx < jitcode.num_deopts then jitcode.deopts idx else -1
  | none => find_deopt_idx cand (toInt32 (fr.return_address - cand.bytecode))

/-- What one iteration of the loop of MVM_spesh_deopt_all does next. -/
inductive WalkNext
  | continue_walk
  | break_walk
deriving DecidableEq, Repr

/-- The body of the loop of MVM_spesh_deopt_all for frame f with callee l,
up to the break or the end of the body. -/
def deopt_all_body (jit_idx : MVMJitCode → MVMFrame → Nat) (tc : MVMThreadContext)
    (l f : Nat) : Except DeoptError (MVMThreadContext × WalkNext) :=
  let tc1 := clear_dynlex_cache tc f
  match getFrame tc1 f with
  | .error e => .error e
  | .ok fr =>
    match fr.spesh_cand with
    | none => .ok (tc1, .continue_walk)
    | some cand =>
      let deopt_idx := MVM_spesh_deopt_find_inactive_frame_deopt_idx jit_idx fr cand
      if deopt_idx ≥ 0 then
        let deopt_offset := cand.deopts (2 * deopt_idx.toNat + 1)
        let deopt_target := cand.deopts (2 * deopt_idx.toNat)
        let r : Except DeoptError MVMThreadContext :=
          if cand.inlines.isSome then uninline tc1 f cand deopt_offset deopt_target (some l)
          else .ok (modifyFrame tc1 f fun g =>
            { g with return_address := g.static_info.bytecode + deopt_target })
        match r with
        | .error e => .error e
        | .ok tc2 =>
          let tc3 := deopt_named_args_used tc2 f cand
          let tc4 := modifyFrame tc3 f fun g => { g with effective_spesh_slots := none }
          if cand.jitcode.isSome then
            .ok (modifyFrame tc4 f fun g => { g with spesh_cand := none, jit_entry_label := none },
              .break_walk)
          else
            .ok (modifyFrame tc4 f fun g => { g with spesh_cand := none }, .continue_walk)
      else .ok (tc1, .continue_walk)

/-- The loop of MVM_spesh_deopt_all; the first argument bounds the number of
iterations. -/
def deopt_all_loop (jit_idx : MVMJitCode → MVMFrame → Nat) :
    Nat → MVMThreadContext → Nat → Option Nat → Except DeoptError MVMThreadContext
  | _, tc, _, none => .ok tc
  | 0, _, _, some _ => .error .out_of_fuel
  | fuel + 1, tc, l, some f =>
    match deopt_all_body jit_idx tc l f with
    | .error e => .error e
    | .ok (tc1, .break_walk) => .ok tc1
    | .ok (tc1, .continue_walk) =>
      match getFrame tc1 f with
      | .error e => .error e
      | .ok fr => deopt_all_loop jit_idx fuel tc1 f fr.caller

/-- The function MVM_spesh_deopt_all, with a bound on the length of the walk. -/
def MVM_spesh_deopt_all (jit_idx : MVMJitCode → MVMFrame → Nat) (fuel : Nat)
    (tc : MVMThreadContext) : Except DeoptError MVMThreadContext :=
  match getFrame tc tc.cur_frame with
  | .error e => .error e
  | .ok cur => deopt_all_loop jit_idx fuel tc tc.cur_frame cur.caller

/-! ## Data model of plan.c -/

/-- The constants and functions that plan.c uses and that are declared outside
the two files: the tunable thresholds, the hot threshold of a static frame
(MVM_spesh_threshold) and the lookup in an arg-guard tree
(MVM_spesh_arg_guard_exists, given the pointer to the tree, the callsite and
the type tuple). -/
structure SpeshConfig where
  MVM_SPESH_MAX_BYTECODE_SIZE : Nat
  MVM_SPESH_PLAN_TT_OBS_PERCENT : Nat
  MVM_SPESH_PLAN_TT_OBS_PERCENT_OSR : Nat
  MVM_SPESH_PLAN_CS_MIN_OSR : Nat
  MVM_SPESH_PLAN_SF_MIN_OSR : Nat
  MVM_spesh_threshold : MVMStaticFrame → Nat
  MVM_spesh_arg_guard_exists : Nat → Option MVMCallsite → Option (List MVMSpeshStatsType) → Bool

/-- The kinds of planned specialization that plan.c issues. -/
inductive MVMSpeshPlannedKind
  | MVM_SPESH_PLANNED_CERTAIN
  | MVM_SPESH_PLANNED_OBSERVED_TYPES
deriving DecidableEq, Repr

/-- A planned specialization. The pointers sf, cs_stats and type_stats[j] point
at statistics that planning does not change, so the record holds the values;
type_tuple is none for NULL; type_stats is the evidence array, of length
num_type_stats (empty for NULL). -/
structure MVMSpeshPlanned where
  kind : MVMSpeshPlannedKind
  sf : MVMStaticFrame
  cs_stats : MVMSpeshStatsByCallsite
  type_tuple : Option (List MVMSpeshStatsType)
  type_stats : List MVMSpeshStatsByType
  max_depth : Nat
deriving DecidableEq, Repr

/-- A specialization plan: the array planned, of length num_planned. -/
structure MVMSpeshPlan where
  planned : List MVMSpeshPlanned
deriving DecidableEq, Repr

/-- The number of planned specializations. -/
def MVMSpeshPlan.num_planned (plan : MVMSpeshPlan) : Nat := plan.planned.length

/-- The three output cells of planning; a cell is none when the pointer to it
is NULL and otherwise holds the MVMuint64 it points at. -/
structure SpecializationCounters where
  in_certain_specialization : Option Nat
  in_observed_specialization : Option Nat
  in_osr_specialization : Option Nat
deriving DecidableEq, Repr

/-! ## plan.c -/

/-- The max_depth that add_planned gives a record: the maximum over the
evidence, or the depth of the callsite when there is no evidence. -/
def planned_max_depth (cs_stats : MVMSpeshStatsByCallsite) :
    List MVMSpeshStatsByType → Nat
  | [] => cs_stats.max_depth
  | first :: rest =>
    rest.foldl (fun d ts => if ts.max_depth > d then ts.max_depth else d) first.max_depth

/-- The function add_planned. -/
def add_planned (cfg : SpeshConfig) (plan : MVMSpeshPlan) (kind : MVMSpeshPlannedKind)
    (sf : MVMStaticFrame) (cs_stats : MVMSpeshStatsByCallsite)
    (type_tuple : Option (List MVMSpeshStatsType)) (type_stats : List MVMSpeshStatsByType) :
    MVMSpeshPlan :=
  if sf.bytecode_size > cfg.MVM_SPESH_MAX_BYTECODE_SIZE ∨
      cfg.MVM_spesh_arg_guard_exists sf.spesh_arg_guard cs_stats.cs type_tuple = true then
    plan
  else
    { planned := plan.planned ++
        [{ kind := kind
           sf := sf
           cs_stats := cs_stats
           type_tuple := type_tuple
           type_stats := type_stats
           max_depth := planned_max_depth cs_stats type_stats }] }

/-- The function copy_type_tuple: the first cs->flag_count entries. -/
def copy_type_tuple (cs : MVMCallsite) (to_copy : List MVMSpeshStatsType) :
    List MVMSpeshStatsType :=
  to_copy.take cs.flag_count

/-- The local variables of plan_for_cs that its loop over the type tuples
changes, and the plan. -/
structure PlanForCs where
  plan : MVMSpeshPlan
  unaccounted_hits : Nat
  unaccounted_osr_hits : Nat
  observed_specialization : Nat
  osr_specialization : Nat
deriving DecidableEq, Repr

/-- The local hit_percent of plan_for_cs (32-bit unsigned arithmetic). -/
def hit_percent (by_cs : MVMSpeshStatsByCallsite) (by_type : MVMSpeshStatsByType) : Nat :=
  if by_cs.hits ≠ 0 then toUInt32 (100 * by_type.hits) / by_cs.hits else 0

/-- The local osr_hit_percent of plan_for_cs (32-bit unsigned arithmetic). -/
def osr_hit_percent (by_cs : MVMSpeshStatsByCallsite) (by_type : MVMSpeshStatsByType) : Nat :=
  if by_cs.osr_hits ≠ 0 then toUInt32 (100 * by_type.osr_hits) / by_cs.osr_hits else 0

/-- The condition under which plan_for_cs plans an observed-types
specialization for a type tuple. -/
def tt_hot (cfg : SpeshConfig) (by_cs : MVMSpeshStatsByCallsite)
    (by_type : MVMSpeshStatsByType) : Bool :=
  by_cs.cs.isSome &&
    (decide (hit_percent by_cs by_type ≥ cfg.MVM_SPESH_PLAN_TT_OBS_PERCENT) ||
      decide (osr_hit_percent by_cs by_type ≥ cfg.MVM_SPESH_PLAN_TT_OBS_PERCENT_OSR))

/-- One iteration of the loop of plan_for_cs over the type tuples. -/
def plan_for_cs_iter (cfg : SpeshConfig) (sf : MVMStaticFrame)
    (by_cs : MVMSpeshStatsByCallsite) (st : PlanForCs) (by_type : MVMSpeshStatsByType) :
    PlanForCs :=
  match by_cs.cs with
  | some cs =>
    if hit_percent by_cs by_type ≥ cfg.MVM_SPESH_PLAN_TT_OBS_PERCENT ∨
        osr_hit_percent by_cs by_type ≥ cfg.MVM_SPESH_PLAN_TT_OBS_PERCENT_OSR then
      { plan := add_planned cfg st.plan .MVM_SPESH_PLANNED_OBSERVED_TYPES sf by_cs
          (some (copy_type_tuple cs by_type.arg_types)) [by_type]
        observed_specialization := st.observed_specialization + 1
        osr_specialization :=
          if hit_percent by_cs by_type < cfg.MVM_SPESH_PLAN_TT_OBS_PERCENT then
            st.osr_specialization + 1
          else st.osr_specialization
        unaccounted_hits := toUInt32 ((st.unaccounted_hits : Int) - by_type.hits)
        unaccounted_osr_hits := toUInt32 ((st.unaccounted_osr_hits : Int) - by_type.osr_hits) }
    else st
  | none => st

/-- The state of plan_for_cs after the loop over the type tuples. -/
def plan_for_cs_types (cfg : SpeshConfig) (plan : MVMSpeshPlan) (sf : MVMStaticFrame)
    (by_cs : MVMSpeshStatsByCallsite) : PlanForCs :=
  let init : PlanForCs :=
    { plan := plan
      unaccounted_hits := by_cs.hits
      unaccounted_osr_hits := by_cs.osr_hits
      observed_specialization := 0
      osr_specialization := 0 }
  if sf.specializable then by_cs.by_type.foldl (plan_for_cs_iter cfg sf by_cs) init else init

/-- Assignment through an output pointer that may be NULL. -/
def store_counter (cell : Option Nat) (v : Nat) : Option Nat :=
  match cell with
  | some _ => some v
  | none => none

/-- The function plan_for_cs. -/
def plan_for_cs (cfg : SpeshConfig) (plan : MVMSpeshPlan) (sf : MVMStaticFrame)
    (by_cs : MVMSpeshStatsByCallsite) (out : SpecializationCounters) :
    MVMSpeshPlan × SpecializationCounters :=
  let st := plan_for_cs_types cfg plan sf by_cs
  let fin : MVMSpeshPlan × Nat × Nat :=
    if (st.unaccounted_hits ≠ 0 ∧ st.unaccounted_hits ≥ cfg.MVM_spesh_threshold sf) ∨
        st.unaccounted_osr_hits ≥ cfg.MVM_SPESH_PLAN_CS_MIN_OSR then
      (add_planned cfg st.plan .MVM_SPESH_PLANNED_CERTAIN sf by_cs none [],
        1,
        if st.unaccounted_hits = 0 ∨ st.unaccounted_hits < cfg.MVM_spesh_threshold sf then
          st.osr_specialization + 1
        else st.osr_specialization)
    else (st.plan, 0, st.osr_specialization)
  (fin.1,
    { in_certain_specialization := store_counter out.in_certain_specialization fin.2.1
      in_observed_specialization :=
        store_counter out.in_observed_specialization st.observed_specialization
      in_osr_specialization := store_counter out.in_osr_specialization fin.2.2 })

/-- The function plan_for_sf. -/
def plan_for_sf (cfg : SpeshConfig) (plan : MVMSpeshPlan) (sf : MVMStaticFrame)
    (out : SpecializationCounters) : MVMSpeshPlan × SpecializationCounters :=
  let ss := sf.spesh_stats
  let threshold := cfg.MVM_spesh_threshold sf
  if ss.hits ≥ threshold ∨ ss.osr_hits ≥ cfg.MVM_SPESH_PLAN_SF_MIN_OSR then
    ss.by_callsite.foldl
      (fun acc by_cs =>
        if by_cs.hits ≥ threshold ∨ by_cs.osr_hits ≥ cfg.MVM_SPESH_PLAN_CS_MIN_OSR then
          plan_for_cs cfg acc.1 sf by_cs acc.2
        else acc)
      (plan, out)
  else (plan, out)

/-- The innermost loop of twiddle_stack_depths, over m: planned[i] is read
through the pointer p at every assignment, and p->max_depth + 1 is stored in
the 32-bit unsigned field max_depth. -/
def twiddle_invoke (i : Nat) (invoked_sf : Nat) (planned : List MVMSpeshPlanned) :
    List MVMSpeshPlanned :=
  (List.range planned.length).foldl
    (fun pl m =>
      match pl[m]?, pl[i]? with
      | some q, some p =>
        if q.sf.addr = invoked_sf then
          pl.set m { q with max_depth := toUInt32 ((p.max_depth : Int) + 1) }
        else pl
      | _, _ => pl)
    planned

/-- The body of the outer loop of twiddle_stack_depths for index i: the loops
over the evidence of planned[i], its offsets and their invokes. The evidence
is not changed by the assignments, so it is read once. -/
def twiddle_planned (planned : List MVMSpeshPlanned) (i : Nat) : List MVMSpeshPlanned :=
  match planned[i]? with
  | none => planned
  | some p =>
    p.type_stats.foldl
      (fun pl sbt =>
        sbt.by_offset.foldl
          (fun pl1 sbo => sbo.invokes.foldl (fun pl2 inv => twiddle_invoke i inv.sf pl2) pl1)
          pl)
      planned

/-- The function twiddle_stack_depths. -/
def twiddle_stack_depths (planned : List MVMSpeshPlanned) : List MVMSpeshPlanned :=
  if planned.length < 2 then planned
  else (List.range planned.length).foldl twiddle_planned planned

/-- The first inner loop of sort_plan: advance i while planned[i].max_depth is
above the pivot. The first argument is the number of records from index i to
the end of the array; reading past the end gives none. -/
def sort_scan_up (planned : List MVMSpeshPlanned) (pivot : Nat) : Nat → Nat → Option Nat
  | 0, _ => none
  | left + 1, i =>
    match planned[i]? with
    | none => none
    | some p => if p.max_depth > pivot then sort_scan_up planned pivot left (i + 1) else some i

/-- The second inner loop of sort_plan: lower j while planned[j].max_depth is
below the pivot. Lowering the unsigned j below 0 wraps to an index past the end
of the array, and reading there gives none. -/
def sort_scan_down (planned : List MVMSpeshPlanned) (pivot : Nat) : Nat → Option Nat
  | 0 =>
    match planned[0]? with
    | none => none
    | some p => if p.max_depth < pivot then none else some 0
  | j + 1 =>
    match planned[j + 1]? with
    | none => none
    | some p => if p.max_depth < pivot then sort_scan_down planned pivot j else some (j + 1)

/-- The partition loop of sort_plan from the loop variables i and j; the result
is the array and the value of i at the break. The first argument bounds the
number of iterations. -/
def sort_partition (pivot : Nat) :
    Nat → List MVMSpeshPlanned → Nat → Nat → Option (List MVMSpeshPlanned × Nat)
  | 0, _, _, _ => none
  | fuel + 1, planned, i, j =>
    match sort_scan_up planned pivot (planned.length - i) i with
    | none => none
    | some i1 =>
      match sort_scan_down planned pivot j with
      | none => none
      | some j1 =>
        if i1 ≥ j1 then some (planned, i1)
        else
          match planned[i1]?, planned[j1]? with
          | some pi, some pj =>
            sort_partition pivot fuel ((planned.set i1 pj).set j1 pi) (i1 + 1) (j1 - 1)
          | _, _ => none

/-- The function sort_plan on the array planned of length n; the first argument
bounds the depth of the recursion. -/
def sort_plan_rec : Nat → List MVMSpeshPlanned → Option (List MVMSpeshPlanned)
  | 0, _ => none
  | fuel + 1, planned =>
    if planned.length ≥ 2 then
      match planned[planned.length / 2]? with
      | none => none
      | some pivot =>
        match sort_partition pivot.max_depth planned.length planned 0 (planned.length - 1) with
        | none => none
        | some (parted, i) =>
          match sort_plan_rec fuel (parted.take i), sort_plan_rec fuel (parted.drop i) with
          | some front, some back => some (front ++ back)
          | _, _ => none
    else some planned

/-- The function sort_plan, with recursion depth bounded by the length of the
array plus one. -/
def sort_plan (planned : List MVMSpeshPlanned) : Option (List MVMSpeshPlanned) :=
  sort_plan_rec (planned.length + 1) planned

/-- The loop of MVM_spesh_plan over the updated static frames. -/
def plan_frames (cfg : SpeshConfig) (updated_static_frames : List MVMStaticFrame)
    (out : SpecializationCounters) : MVMSpeshPlan × SpecializationCounters :=
  updated_static_frames.foldl (fun acc sf => plan_for_sf cfg acc.1 sf acc.2) ({ planned := [] }, out)

/-- The function MVM_spesh_plan: the plan and the output cells. -/
def MVM_spesh_plan (cfg : SpeshConfig) (updated_static_frames : List MVMStaticFrame)
    (out : SpecializationCounters) : Option (MVMSpeshPlan × SpecializationCounters) :=
  let r := plan_frames cfg updated_static_frames out
  match sort_plan (twiddle_stack_depths r.1.planned) with
  | some sorted => some ({ planned := sorted }, r.2)
  | none => none

/-! ## Specification of uninline -/

/-- The frame that uninline leaves on the heap for a matching entry d. -/
def uninlined_frame (fr : MVMFrame) (cand : MVMSpeshCandidate) (deopt_offset : Int)
    (callee : Option Nat) (prev : Option MVMSpeshInline) (d : MVMSpeshInline)
    (ucode : MVMObject) (caller : Option Nat) : MVMFrame :=
  { static_info := d.sf
    code_ref := some ucode
    work :=
      if d.sf.num_locals ≠ 0 then
        memcpy_regs (fun _ => .i64 0) fr.work d.locals_start d.sf.num_locals
      else fun _ => .i64 0
    env :=
      if d.sf.num_lexicals ≠ 0 then
        memcpy_regs (fun _ => .i64 0) fr.env d.lexicals_start d.sf.num_lexicals
      else fun _ => .i64 0
    caller := caller
    return_address :=
      match prev with
      | some p => d.sf.bytecode + cand.deopts (toUInt32 (2 * (p.return_deopt_idx : Int)))
      | none => if callee.isSome then d.sf.bytecode + deopt_offset else 0
    return_type :=
      match prev with
      | some p => p.res_type
      | none => if callee.isSome then fr.return_type else .MVM_RETURN_VOID
    return_value :=
      match prev with
      | some p => if p.res_type = MVMReturnType.MVM_RETURN_VOID then none else some p.res_reg
      | none =>
        if callee.isSome then
          if fr.return_type = MVMReturnType.MVM_RETURN_VOID then none
          else fr.return_value.map fun r => toUInt16 ((toUInt16 r : Int) - d.locals_start)
        else none
    spesh_cand := none
    effective_spesh_slots := none
    jit_entry_label := none
    params_named_used_bit_field :=
      if d.deopt_named_used_bit_field ≠ 0 then d.deopt_named_used_bit_field else 0
    extra := none
    sequence_nr := 0 }

/-- The tracking variables after the matching entry d was handled and gave
the frame at uf. -/
def tracking_of (uf : Nat) (d : MVMSpeshInline) : UninlineLast :=
  { last_uninlined := uf
    last_res_reg := d.res_reg
    last_res_type := d.res_type
    last_return_deopt_idx := d.return_deopt_idx }

/-- The state of the loop of uninline after the matching entries ms. -/
structure UninlineInv (tc0 : MVMThreadContext) (fr : MVMFrame) (cand : MVMSpeshCandidate)
    (deopt_offset : Int) (callee : Option Nat) (ms : List MVMSpeshInline)
    (st : MVMThreadContext × Option UninlineLast) : Prop where
  len : st.1.frames.length = tc0.frames.length + ms.length
  old : ∀ i, i < tc0.frames.length →
    st.1.frames[i]? = tc0.frames[i]?.map fun g =>
      if ms ≠ [] ∧ callee = some i then { g with caller := some tc0.frames.length } else g
  new : ∀ j d, ms[j]? = some d → ∃ ucode, fr.work d.code_ref_reg = .o ucode ∧
    st.1.frames[tc0.frames.length + j]? = some
      (uninlined_frame fr cand deopt_offset callee (if j = 0 then none else ms[j - 1]?) d ucode
        (if j + 1 < ms.length then some (tc0.frames.length + j + 1) else none))
  last : st.2 = ms.getLast?.map (tracking_of (tc0.frames.length + ms.length - 1))
  interp : st.1.cur_frame = (if ms ≠ [] ∧ callee = none then tc0.frames.length else tc0.cur_frame) ∧
    st.1.interp_cur_op = (match ms.head?, callee with
      | some d, none => d.sf.bytecode + deopt_offset
      | _, _ => tc0.interp_cur_op) ∧
    st.1.interp_bytecode_start = (match ms.head?, callee with
      | some d, none => d.sf.bytecode
      | _, _ => tc0.interp_bytecode_start) ∧
    st.1.interp_reg_base = (if ms ≠ [] ∧ callee = none then tc0.frames.length else tc0.interp_reg_base) ∧
    st.1.interp_cu = (match ms.head?, callee with
      | some d, none => d.sf.cu
      | _, _ => tc0.interp_cu) ∧
    st.1.current_frame_nr = (if ms ≠ [] ∧ callee = none then 0 else tc0.current_frame_nr)

/-- The precondition under which uninline returns: every matching entry names a
register of f that holds a code object, and on the deopt_all path, when there
is a matching entry, a frame with a non-void return type has a return value
pointer. -/
def UninlinePre (fr : MVMFrame) (offset : Int) (callee : Option Nat)
    (tbl : List MVMSpeshInline) : Prop :=
  (∀ d ∈ tbl, inline_matches offset d = true →
    ∃ ucode, fr.work d.code_ref_reg = .o ucode ∧ ucode.repr_id = REPRId.MVM_REPR_ID_MVMCode) ∧
  (callee.isSome = true → (∃ d ∈ tbl, inline_matches offset d = true) →
    fr.return_type ≠ MVMReturnType.MVM_RETURN_VOID → fr.return_value.isSome = true)

/-- What uninline assigns to the fields of the frame f itself, after the loop,
when ms are the matching entries. -/
def outer_after (cand : MVMSpeshCandidate) (deopt_offset : Int) (callee : Option Nat)
    (ms : List MVMSpeshInline) (g : MVMFrame) : MVMFrame :=
  match ms.getLast? with
  | some dl =>
    { g with
      return_address := g.static_info.bytecode +
        cand.deopts (toUInt32 (2 * (dl.return_deopt_idx : Int)))
      return_type := dl.res_type
      return_value :=
        if dl.res_type = MVMReturnType.MVM_RETURN_VOID then none else some dl.res_reg }
  | none =>
    match callee with
    | some _ => { g with return_address := g.static_info.bytecode + deopt_offset }
    | none => g

/-- The thread context in which uninline returns, when ms are the matching
entries of the inline table in table order. -/
structure UninlineSpec (tc : MVMThreadContext) (f : Nat) (fr : MVMFrame)
    (cand : MVMSpeshCandidate) (deopt_offset : Int) (callee : Option Nat)
    (ms : List MVMSpeshInline) (tc1 : MVMThreadContext) : Prop where
  len : tc1.frames.length = tc.frames.length + ms.length
  old : ∀ i, i < tc.frames.length →
    tc1.frames[i]? = tc.frames[i]?.map fun g =>
      if i = f then
        outer_after cand deopt_offset callee ms
          (if ms ≠ [] ∧ callee = some i then { g with caller := some tc.frames.length } else g)
      else if ms ≠ [] ∧ callee = some i then { g with caller := some tc.frames.length } else g
  new : ∀ j d, ms[j]? = some d → ∃ ucode, fr.work d.code_ref_reg = .o ucode ∧
    tc1.frames[tc.frames.length + j]? = some
      (uninlined_frame fr cand deopt_offset callee (if j = 0 then none else ms[j - 1]?) d ucode
        (if j + 1 < ms.length then some (tc.frames.length + j + 1) else some f))
  cur_frame : tc1.cur_frame =
    (if ms ≠ [] ∧ callee = none then tc.frames.length else tc.cur_frame)
  interp_cur_op : tc1.interp_cur_op =
    (match callee, ms.head? with
      | some _, _ => tc.interp_cur_op
      | none, some d => d.sf.bytecode + deopt_offset
      | none, none => fr.static_info.bytecode + deopt_offset)
  interp_bytecode_start : tc1.interp_bytecode_start =
    (match callee, ms.head? with
      | some _, _ => tc.interp_bytecode_start
      | none, some d => d.sf.bytecode
      | none, none => fr.static_info.bytecode)
  interp_reg_base : tc1.interp_reg_base =
    (if ms ≠ [] ∧ callee = none then tc.frames.length else tc.interp_reg_base)
  interp_cu : tc1.interp_cu =
    (match callee, ms.head? with
      | none, some d => d.sf.cu
      | _, _ => tc.interp_cu)

/-! ## Example data for deopt.c: the two-level inline scenario -/

/-- A code object. -/
def ex_code : MVMObject := { addr := 500, repr_id := .MVM_REPR_ID_MVMCode }

/-- A static frame with the given address and number of locals; its generic
bytecode is at 1000 times its address. -/
def ex_sf (a num_locals : Nat) : MVMStaticFrame :=
  { addr := a
    bytecode := 1000 * a
    bytecode_size := 300
    num_locals := num_locals
    num_lexicals := 1
    cu := 70 + a
    specializable := true
    spesh_stats := { hits := 0, osr_hits := 0, by_callsite := [] }
    spesh_arg_guard := 0 }

/-- Inline entry D0: offsets 100 to 200, four locals from register 0. -/
def ex_D0 : MVMSpeshInline :=
  { start := 100
    «end» := 200
    sf := ex_sf 2 4
    code_ref_reg := 4
    locals_start := 0
    lexicals_start := 0
    res_reg := 1
    res_type := .MVM_RETURN_OBJ
    return_deopt_idx := 0
    deopt_named_used_bit_field := 0 }

/-- Inline entry D1: offsets 110 to 150, two locals from register 2. -/
def ex_D1 : MVMSpeshInline :=
  { start := 110
    «end» := 150
    sf := ex_sf 3 2
    code_ref_reg := 5
    locals_start := 2
    lexicals_start := 1
    res_reg := 3
    res_type := .MVM_RETURN_INT
    return_deopt_idx := 1
    deopt_named_used_bit_field := 0 }

/-- A candidate with deopt table (10, 40), (30, 80) and the inline table D0, D1;
its specialized bytecode is at address 5000. -/
def ex_cand : MVMSpeshCandidate :=
  { bytecode := 5000
    num_deopts := 2
    deopts := fun i => [10, 40, 30, 80].getD i 0
    inlines := some [ex_D0, ex_D1]
    jitcode := none
    deopt_pea_deopt_point := []
    deopt_named_used_bit_field := 0 }

/-- A frame running ex_cand: registers 4 and 5 hold code objects, register k
otherwise holds the integer 100 + k; lexical k holds 200 + k. -/
def ex_outer : MVMFrame :=
  { static_info := ex_sf 1 6
    code_ref := none
    work := fun k => if k = 4 ∨ k = 5 then .o ex_code else .i64 (100 + k)
    env := fun k => .i64 (200 + k)
    caller := none
    return_address := 0
    return_type := .MVM_RETURN_VOID
    return_value := none
    spesh_cand := some ex_cand
    effective_spesh_slots := some 1
    jit_entry_label := none
    params_named_used_bit_field := 0
    extra := none
    sequence_nr := 1 }

/-- A thread context whose only frame is ex_outer, executing at specialized
offset 120. -/
def ex_tc : MVMThreadContext :=
  { cur_frame := 0
    current_frame_nr := 1
    interp_cur_op := 5120
    interp_bytecode_start := 5000
    interp_reg_base := 0
    interp_cu := 71
    frames := [ex_outer] }

/-- A candidate with deopt table (10, 40), (30, 80), without inline table and
without JIT code; its specialized bytecode is at address 5000. -/
def ex_cand_plain : MVMSpeshCandidate :=
  { bytecode := 5000
    num_deopts := 2
    deopts := fun i => [10, 40, 30, 80].getD i 0
    inlines := none
    jitcode := none
    deopt_pea_deopt_point := []
    deopt_named_used_bit_field := 0 }

/-- A frame with the given caller pointer, candidate and return address. -/
def ex_frame (caller : Option Nat) (cand : Option MVMSpeshCandidate) (return_address : Int) :
    MVMFrame :=
  { static_info := ex_sf 1 6
    code_ref := none
    work := fun k => .i64 (100 + k)
    env := fun k => .i64 (200 + k)
    caller := caller
    return_address := return_address
    return_type := .MVM_RETURN_VOID
    return_value := none
    spesh_cand := cand
    effective_spesh_slots := cand.map fun _ => 1
    jit_entry_label := none
    params_named_used_bit_field := 0
    extra := none
    sequence_nr := 1 }

/-- A call stack of three frames: the current frame 0 was called by frame 1,
which was called by frame 2. Frames 1 and 2 run ex_cand_plain and will return
to the specialized offsets 50 and 60, which are not in the deopt table. -/
def ex_tc_stack : MVMThreadContext :=
  { cur_frame := 0
    current_frame_nr := 1
    interp_cur_op := 1000
    interp_bytecode_start := 1000
    interp_reg_base := 0
    interp_cu := 71
    frames :=
      [ex_frame (some 1) none 0,
       ex_frame (some 2) (some ex_cand_plain) 5050,
       ex_frame none (some ex_cand_plain) 5060] }

/-- A call stack of two frames: the current frame 1 was called by frame 0, which
is ex_outer and will return to specialized offset 120. -/
def ex_tc_callee : MVMThreadContext :=
  { cur_frame := 1
    current_frame_nr := 1
    interp_cur_op := 1000
    interp_bytecode_start := 1000
    interp_reg_base := 1
    interp_cu := 71
    frames := [ex_outer, ex_frame (some 0) none 0] }

/-! ## Specification of sort_plan -/

/-- The order that sort_plan establishes: no record has a smaller max_depth than
a later one. -/
def DepthSorted (planned : List MVMSpeshPlanned) : Prop :=
  planned.Pairwise fun p q => p.max_depth ≥ q.max_depth

/-! ## Specification of plan_for_cs -/

/-- The type tuples of a callsite for which plan_for_cs plans an observed-types
specialization, in bucket order. -/
def hot_types (cfg : SpeshConfig) (sf : MVMStaticFrame) (by_cs : MVMSpeshStatsByCallsite) :
    List MVMSpeshStatsByType :=
  if sf.specializable = true ∧ by_cs.cs.isSome = true then
    by_cs.by_type.filter fun bt =>
      decide (hit_percent by_cs bt ≥ cfg.MVM_SPESH_PLAN_TT_OBS_PERCENT) ||
        decide (osr_hit_percent by_cs bt ≥ cfg.MVM_SPESH_PLAN_TT_OBS_PERCENT_OSR)
  else []

/-- The call of add_planned for an observed-types specialization of bucket bt. -/
def submit_observed (cfg : SpeshConfig) (sf : MVMStaticFrame)
    (by_cs : MVMSpeshStatsByCallsite) (plan : MVMSpeshPlan) (bt : MVMSpeshStatsByType) :
    MVMSpeshPlan :=
  add_planned cfg plan .MVM_SPESH_PLANNED_OBSERVED_TYPES sf by_cs
    (by_cs.cs.map fun cs => copy_type_tuple cs bt.arg_types) [bt]

/-- Repeated 32-bit unsigned subtraction of the hits of the given buckets. -/
def unaccounted_after (total : Nat) (hits : List Nat) : Nat :=
  hits.foldl (fun u h => toUInt32 ((u : Int) - h)) total

/-! ## Specification of twiddle_stack_depths -/

/-- The addresses of the static frames recorded as invokes in the evidence of a
planned specialization, in the order in which twiddle_stack_depths visits
them. -/
def invoked_sfs (p : MVMSpeshPlanned) : List Nat :=
  p.type_stats.flatMap fun sbt => sbt.by_offset.flatMap fun sbo => sbo.invokes.map (·.sf)

/-- A planned specialization without its max_depth. -/
def planned_shape (p : MVMSpeshPlanned) : MVMSpeshPlanned := { p with max_depth := 0 }

/-! ## Example data for plan.c -/

/-- Thresholds of the planner scenario: an observed-types specialization needs
75 percent of the hits, a certain specialization 500 unaccounted hits; no arg
guard exists yet. -/
def ex_cfg : SpeshConfig :=
  { MVM_SPESH_MAX_BYTECODE_SIZE := 65535
    MVM_SPESH_PLAN_TT_OBS_PERCENT := 75
    MVM_SPESH_PLAN_TT_OBS_PERCENT_OSR := 75
    MVM_SPESH_PLAN_CS_MIN_OSR := 100
    MVM_SPESH_PLAN_SF_MIN_OSR := 200
    MVM_spesh_threshold := fun _ => 500
    MVM_spesh_arg_guard_exists := fun _ _ _ => false }

/-- The thresholds of ex_cfg with a hot threshold of 0 for every frame. -/
def ex_cfg_zero : SpeshConfig :=
  { ex_cfg with MVM_spesh_threshold := fun _ => 0 }

/-- A callsite with one argument. -/
def ex_cs : MVMCallsite := { addr := 900, flag_count := 1, arg_flags := [1] }

/-- A type tuple bucket with the given hits, depth and invoked static frames. -/
def ex_bucket (hits max_depth : Nat) (invoked : List Nat) : MVMSpeshStatsByType :=
  { arg_types := [{ type := 11, decont_type := 0 }]
    hits := hits
    osr_hits := 0
    by_offset := [{ invokes := invoked.map fun a => { sf := a } }]
    max_depth := max_depth }

/-- Callsite statistics with the given callsite pointer, hits and buckets. -/
def ex_by_cs (cs : Option MVMCallsite) (hits : Nat) (by_type : List MVMSpeshStatsByType) :
    MVMSpeshStatsByCallsite :=
  { cs := cs, hits := hits, osr_hits := 0, by_type := by_type, max_depth := 3 }

/-- A specializable static frame at the given address with the given callsite
statistics. -/
def ex_plan_sf (a : Nat) (by_callsite : List MVMSpeshStatsByCallsite) : MVMStaticFrame :=
  { addr := a
    bytecode := 1000 * a
    bytecode_size := 300
    num_locals := 4
    num_lexicals := 1
    cu := 70
    specializable := true
    spesh_stats := { hits := 1000, osr_hits := 0, by_callsite := by_callsite }
    spesh_arg_guard := 0 }

/-- Output cells that all exist and hold 0. -/
def ex_out : SpecializationCounters :=
  { in_certain_specialization := some 0
    in_observed_specialization := some 0
    in_osr_specialization := some 0 }

/-- A planned specialization of the static frame at address a with the given
max_depth, whose one evidence bucket records invokes of the given static
frames. -/
def ex_planned (a max_depth : Nat) (invoked : List Nat) : MVMSpeshPlanned :=
  { kind := .MVM_SPESH_PLANNED_OBSERVED_TYPES
    sf := ex_plan_sf a []
    cs_stats := ex_by_cs (some ex_cs) 1000 []
    type_tuple := some [{ type := 11, decont_type := 0 }]
    type_stats := [ex_bucket 900 max_depth invoked]
    max_depth := max_depth }

/-- A hot static frame at address a whose one hot type tuple has the given
max_depth and records invokes of the given static frames. -/
def ex_hot_sf (a max_depth : Nat) (invoked : List Nat) : MVMStaticFrame :=
  ex_plan_sf a [ex_by_cs (some ex_cs) 1000 [ex_bucket 900 max_depth invoked]]

/-- The observed-types record that planning makes for ex_hot_sf a max_depth
invoked. -/
def ex_hot_record (a max_depth : Nat) (invoked : List Nat) : MVMSpeshPlanned :=
  { kind := .MVM_SPESH_PLANNED_OBSERVED_TYPES
    sf := ex_hot_sf a max_depth invoked
    cs_stats := ex_by_cs (some ex_cs) 1000 [ex_bucket 900 max_depth invoked]
    type_tuple := some [{ type := 11, decont_type := 0 }]
    type_stats := [ex_bucket 900 max_depth invoked]
    max_depth := max_depth }

/-! ## Specification of MVM_spesh_deopt_all -/

/-- The list chain is the caller chain from the frame pointer start: it starts
at start, every frame has the next one as caller, and the last one has no
caller. -/
def is_caller_chain (frames : List MVMFrame) : Option Nat → List Nat → Bool
  | none, [] => true
  | some f, g :: rest =>
    decide (f = g) &&
      (match frames[g]? with
        | some fr => is_caller_chain frames fr.caller rest
        | none => false)
  | _, _ => false

/-- A frame after clear_dynlex_cache. -/
def dynlex_cleared (fr : MVMFrame) : MVMFrame :=
  { fr with
    extra :=
      match fr.extra with
      | some _ => some { dynlex_cache_name := none, dynlex_cache_reg := none }
      | none => none }

/-- The deopt index of an inactive frame resolves: the frame has a candidate and
MVM_spesh_deopt_find_inactive_frame_deopt_idx, called as MVM_spesh_deopt_all
calls it, is not negative. -/
def deopt_idx_resolves (jit_idx : MVMJitCode → MVMFrame → Nat) (fr : MVMFrame) : Bool :=
  match fr.spesh_cand with
  | some cand =>
    decide (MVM_spesh_deopt_find_inactive_frame_deopt_idx jit_idx (dynlex_cleared fr) cand ≥ 0)
  | none => false

/-- The walk of MVM_spesh_deopt_all stops at a frame: its deopt index resolves
and its candidate has JIT code. -/
def walk_stops_at (jit_idx : MVMJitCode → MVMFrame → Nat) (fr : MVMFrame) : Bool :=
  match fr.spesh_cand with
  | some cand => deopt_idx_resolves jit_idx fr && cand.jitcode.isSome
  | none => false

/-- The precondition under which the body of the loop of MVM_spesh_deopt_all
returns for a frame: when the deopt index resolves and the candidate has an
inline table, uninline returns (UninlinePre). -/
def DeoptAllPre (jit_idx : MVMJitCode → MVMFrame → Nat) (fr : MVMFrame) : Prop :=
  ∀ cand, fr.spesh_cand = some cand →
    MVM_spesh_deopt_find_inactive_frame_deopt_idx jit_idx (dynlex_cleared fr) cand ≥ 0 →
    cand.inlines.isSome = true →
    UninlinePre (dynlex_cleared fr)
      (cand.deopts (2 * (MVM_spesh_deopt_find_inactive_frame_deopt_idx jit_idx
        (dynlex_cleared fr) cand).toNat + 1))
      (some 0) (cand.inlines.getD [])

/-- A frame without its caller pointer. -/
def erase_caller (fr : MVMFrame) : MVMFrame := { fr with caller := none }

/-! ## Example data for deopt.c: frames without inline table -/

/-- A thread context whose only frame runs ex_cand_plain (deopt table (10, 40),
(30, 80), no inline table) and executes at specialized offset 80. -/
def ex_tc_plain : MVMThreadContext :=
  { cur_frame := 0
    current_frame_nr := 1
    interp_cur_op := 5080
    interp_bytecode_start := 5000
    interp_reg_base := 0
    interp_cu := 71
    frames := [ex_frame none (some ex_cand_plain) 77] }

/-- A call stack of four frames: the current frame 0 runs ex_cand_plain and was
called by frame 1, which was called by frame 2, which was called by frame 3.
Frame 1 runs ex_cand_plain and will return to specialized offset 80, which is
the second entry of the deopt table; frame 2 has no candidate; frame 3 runs
ex_cand_plain and will return to specialized offset 60, which is not in the
table. -/
def ex_tc_walk : MVMThreadContext :=
  { cur_frame := 0
    current_frame_nr := 1
    interp_cur_op := 5040
    interp_bytecode_start := 5000
    interp_reg_base := 0
    interp_cu := 71
    frames :=
      [ex_frame (some 1) (some ex_cand_plain) 77,
       ex_frame (some 2) (some ex_cand_plain) 5080,
       ex_frame (some 3) none 1234,
       ex_frame none (some ex_cand_plain) 5060] }

/-! ## Specification of MVM_spesh_deopt_all without JIT code and inline tables -/

/-- What the body of the loop of MVM_spesh_deopt_all makes of an ancestor frame
fr whose candidate has neither JIT code nor an inline table, as a relation
between fr and the frame fA afterwards: caller and static frame are kept; when
the deopt index resolves, fA has neither candidate nor spesh slots and returns
to the generic offset of that index; otherwise candidate, return address and
spesh slots are kept. -/
def PlainDeopted (jit_idx : MVMJitCode → MVMFrame → Nat) (fr fA : MVMFrame) : Prop :=
  fA.caller = fr.caller ∧ fA.static_info = fr.static_info ∧
  (∀ cand, fr.spesh_cand = some cand →
    MVM_spesh_deopt_find_inactive_frame_deopt_idx jit_idx (dynlex_cleared fr) cand ≥ 0 →
    fA.spesh_cand = none ∧ fA.effective_spesh_slots = none ∧
    fA.return_address = fr.static_info.bytecode +
      cand.deopts (2 * (MVM_spesh_deopt_find_inactive_frame_deopt_idx jit_idx
        (dynlex_cleared fr) cand).toNat)) ∧
  ((fr.spesh_cand = none ∨ ∃ cand, fr.spesh_cand = some cand ∧
      ¬ MVM_spesh_deopt_find_inactive_frame_deopt_idx jit_idx (dynlex_cleared fr) cand ≥ 0) →
    fA.spesh_cand = fr.spesh_cand ∧ fA.return_address = fr.return_address ∧
    fA.effective_spesh_slots = fr.effective_spesh_slots)

/-! ## Example data for deopt.c: a return value register outside the inline -/

/-- The candidate ex_cand with the inline table D1 only (two locals from
register 2). -/
def ex_cand_inner : MVMSpeshCandidate :=
  { ex_cand with inlines := some [ex_D1] }

/-- The frame ex_outer running ex_cand_inner and waiting for an integer result
in its register r. -/
def ex_outer_ret (r : Nat) : MVMFrame :=
  { ex_outer with
    spesh_cand := some ex_cand_inner
    return_type := .MVM_RETURN_INT
    return_value := some r }

/-- A call stack of two frames: the current frame 1 was called by frame 0, which
is ex_outer_ret r. -/
def ex_tc_ret (r : Nat) : MVMThreadContext :=
  { cur_frame := 1
    current_frame_nr := 1
    interp_cur_op := 1000
    interp_bytecode_start := 1000
    interp_reg_base := 1
    interp_cu := 71
    frames := [ex_outer_ret r, ex_frame (some 0) none 0] }

/-! ## Example data for deopt.c: an ancestor with JIT code -/

/-- The candidate ex_cand_plain with JIT code that has one deopt label, for
deopt index 0. -/
def ex_cand_jit : MVMSpeshCandidate :=
  { ex_cand_plain with jitcode := some { num_deopts := 1, deopts := fun _ => 0 } }

/-- A call stack of three frames: the current frame 0 was called by frame 1,
which was called by frame 2. Frame 1 runs ex_cand_jit; frame 2 runs
ex_cand_plain and will return to specialized offset 80, which is in the deopt
table. -/
def ex_tc_jit : MVMThreadContext :=
  { cur_frame := 0
    current_frame_nr := 1
    interp_cur_op := 1000
    interp_bytecode_start := 1000
    interp_reg_base := 0
    interp_cu := 71
    frames :=
      [ex_frame (some 1) none 0,
       ex_frame (some 2) (some ex_cand_jit) 5040,
       ex_frame none (some ex_cand_plain) 5080] }

/-! ## Example data for deopt.c: values at the edge of the 32-bit types -/

/-- A call stack of two frames: the current frame 0 was called by frame 1,
which runs ex_cand_plain and will return to an address 2^32 + 80 bytes behind
the start of the specialized bytecode. -/
def ex_tc_far : MVMThreadContext :=
  { cur_frame := 0
    current_frame_nr := 1
    interp_cur_op := 1000
    interp_bytecode_start := 1000
    interp_reg_base := 0
    interp_cu := 71
    frames :=
      [ex_frame (some 1) none 77,
       ex_frame none (some ex_cand_plain) (5000 + 4294967296 + 80)] }

/-- The candidate ex_cand_plain with a deopt table of 2^30 pairs. -/
def ex_cand_huge : MVMSpeshCandidate :=
  { ex_cand_plain with num_deopts := 1073741824 }

/-- Inline entry D1 with return_deopt_idx = 2^31. -/
def ex_D1_wrap : MVMSpeshInline :=
  { ex_D1 with return_deopt_idx := 2147483648 }

/-- The candidate ex_cand with the inline table D0, D1 where D1 has
return_deopt_idx = 2^31; entry 2^32 of its deopt table is 1777. -/
def ex_cand_wrap : MVMSpeshCandidate :=
  { ex_cand with
    deopts := fun i => if i = 4294967296 then 1777 else [10, 40, 30, 80].getD i 0
    inlines := some [ex_D0, ex_D1_wrap] }

/-- The frame ex_outer running ex_cand_wrap. -/
def ex_outer_wrap : MVMFrame :=
  { ex_outer with spesh_cand := some ex_cand_wrap }

/-- A call stack of two frames: the current frame 1 was called by frame 0, which
is ex_outer_wrap. -/
def ex_tc_wrap : MVMThreadContext :=
  { cur_frame := 1
    current_frame_nr := 1
    interp_cur_op := 1000
    interp_bytecode_start := 1000
    interp_reg_base := 1
    interp_cu := 71
    frames := [ex_outer_wrap, ex_frame (some 0) none 0] }

/-! ## Lemmas on the heap and on uninline -/

theorem frames_modifyFrame (tc : MVMThreadContext) (p : Nat) (g : MVMFrame → MVMFrame)
    (i : Nat) :
    (modifyFrame tc p g).frames[i]? = if i = p then tc.frames[i]?.map g else tc.frames[i]? := by
  unfold modifyFrame
  cases h : tc.frames[p]? with
  | none =>
    by_cases hi : i = p
    · subst hi; simp [h]
    · simp [hi]
  | some fr =>
    by_cases hi : i = p
    · subst hi
      have hlt : i < tc.frames.length := by
        rcases List.getElem?_eq_some_iff.1 h with ⟨hlt, _⟩
        exact hlt
      simp [h, hlt]
    · have : p ≠ i := fun e => hi e.symm
      simp [hi, List.getElem?_set_ne this]

theorem length_modifyFrame (tc : MVMThreadContext) (p : Nat) (g : MVMFrame → MVMFrame) :
    (modifyFrame tc p g).frames.length = tc.frames.length := by
  unfold modifyFrame
  cases h : tc.frames[p]? <;> simp

@[simp]
theorem cur_frame_modifyFrame (tc : MVMThreadContext) (p : Nat) (g : MVMFrame → MVMFrame) :
    (modifyFrame tc p g).cur_frame = tc.cur_frame := by
  unfold modifyFrame
  cases h : tc.frames[p]? <;> rfl

@[simp]
theorem interp_cur_op_modifyFrame (tc : MVMThreadContext) (p : Nat) (g : MVMFrame → MVMFrame) :
    (modifyFrame tc p g).interp_cur_op = tc.interp_cur_op := by
  unfold modifyFrame
  cases h : tc.frames[p]? <;> rfl

@[simp]
theorem interp_bytecode_start_modifyFrame (tc : MVMThreadContext) (p : Nat) (g : MVMFrame → MVMFrame) :
    (modifyFrame tc p g).interp_bytecode_start = tc.interp_bytecode_start := by
  unfold modifyFrame
  cases h : tc.frames[p]? <;> rfl

@[simp]
theorem interp_reg_base_modifyFrame (tc : MVMThreadContext) (p : Nat) (g : MVMFrame → MVMFrame) :
    (modifyFrame tc p g).interp_reg_base = tc.interp_reg_base := by
  unfold modifyFrame
  cases h : tc.frames[p]? <;> rfl

@[simp]
theorem interp_cu_modifyFrame (tc : MVMThreadContext) (p : Nat) (g : MVMFrame → MVMFrame) :
    (modifyFrame tc p g).interp_cu = tc.interp_cu := by
  unfold modifyFrame
  cases h : tc.frames[p]? <;> rfl

@[simp]
theorem current_frame_nr_modifyFrame (tc : MVMThreadContext) (p : Nat) (g : MVMFrame → MVMFrame) :
    (modifyFrame tc p g).current_frame_nr = tc.current_frame_nr := by
  unfold modifyFrame
  cases h : tc.frames[p]? <;> rfl

theorem getFrame_eq_ok {tc : MVMThreadContext} {p : Nat} {fr : MVMFrame}
    (h : tc.frames[p]? = some fr) : getFrame tc p = .ok fr := by
  simp [getFrame, h]

theorem uninlineInv_init (tc0 : MVMThreadContext) (fr : MVMFrame) (cand : MVMSpeshCandidate)
    (deopt_offset : Int) (callee : Option Nat) :
    UninlineInv tc0 fr cand deopt_offset callee [] (tc0, none) := by
  refine ⟨by simp, ?_, ?_, by simp, ?_⟩
  · intro i _
    cases tc0.frames[i]? <;> simp
  · intro j d h; simp at h
  · cases callee <;> simp

theorem getFrame_of_inv {tc0 : MVMThreadContext} {f : Nat} {fr : MVMFrame}
    {cand : MVMSpeshCandidate} {deopt_offset : Int} {callee : Option Nat}
    {ms : List MVMSpeshInline} {st : MVMThreadContext × Option UninlineLast}
    (hf : tc0.frames[f]? = some fr)
    (hinv : UninlineInv tc0 fr cand deopt_offset callee ms st) :
    ∃ fr1, getFrame st.1 f = .ok fr1 ∧ fr1.work = fr.work ∧ fr1.env = fr.env ∧
      fr1.return_type = fr.return_type ∧ fr1.return_value = fr.return_value ∧
      fr1.static_info = fr.static_info := by
  have hlt : f < tc0.frames.length := (List.getElem?_eq_some_iff.1 hf).1
  have h := hinv.old f hlt
  rw [hf] at h
  simp only [Option.map_some'] at h
  refine ⟨_, getFrame_eq_ok h, ?_⟩
  split <;> simp

theorem modifyFrame_snoc (tc : MVMThreadContext) (l : List MVMFrame) (a : MVMFrame)
    (g : MVMFrame → MVMFrame) :
    modifyFrame { tc with frames := l ++ [a] } l.length g = { tc with frames := l ++ [g a] } := by
  simp [modifyFrame]

theorem modifyFrame_snoc_lt (tc : MVMThreadContext) (l : List MVMFrame) (a : MVMFrame)
    (g : MVMFrame → MVMFrame) (p : Nat) (hp : p < l.length) :
    modifyFrame { tc with frames := l ++ [a] } p g =
      { tc with frames := (modifyFrame { tc with frames := l } p g).frames ++ [a] } := by
  have h1 : (l ++ [a])[p]? = l[p]? := List.getElem?_append_left hp
  have h2 : l[p]? = some l[p] := List.getElem?_eq_getElem hp
  simp [modifyFrame, h1, h2, List.set_append_left _ _ hp]

theorem uninline_iter_first_one {tc0 : MVMThreadContext} {f : Nat} {fr : MVMFrame}
    {cand : MVMSpeshCandidate} {offset deopt_offset : Int}
    {st : MVMThreadContext × Option UninlineLast} {inl : MVMSpeshInline} {ucode : MVMObject}
    (hf : tc0.frames[f]? = some fr)
    (hinv : UninlineInv tc0 fr cand deopt_offset none [] st)
    (hm : inline_matches offset inl = true)
    (hcode : fr.work inl.code_ref_reg = .o ucode)
    (hrepr : ucode.repr_id = REPRId.MVM_REPR_ID_MVMCode) :
    ∃ st1, uninline_iter f cand offset deopt_offset none st inl = .ok st1 ∧
      UninlineInv tc0 fr cand deopt_offset none [inl] st1 := by
  obtain ⟨fr1, hg, hw, he, hrt, hrv, hsi⟩ := getFrame_of_inv hf hinv
  have hlast : st.2 = none := by simpa using hinv.last
  have hlen : st.1.frames.length = tc0.frames.length := by simpa using hinv.len
  unfold uninline_iter
  simp only [hm, if_true, hg, hw, he, hcode, hrepr, hlast, ne_eq, not_true_eq_false, if_false,
    modifyFrame_snoc]
  simp only [getFrame, List.getElem?_concat_length]
  refine ⟨_, rfl, ?_⟩
  have hfresh : ∀ (a : MVMFrame), (st.1.frames ++ [a])[tc0.frames.length]? = some a := by
    intro a; rw [← hlen]; exact List.getElem?_concat_length _ _
  refine ⟨by simp [hlen], ?_, ?_, by simp [tracking_of, hlen], by simp [MVM_frame_create_for_deopt, hlen]⟩
  · intro i hi
    have h := hinv.old i hi
    simp only [ne_eq, not_true_eq_false, false_and, if_false] at h
    have hi2 : i < st.1.frames.length := by omega
    simp only [List.getElem?_append_left hi2, h]
    simp
  · intro j d hj
    have hj0 : j = 0 := by
      cases j with
      | zero => rfl
      | succ k => simp at hj
    subst hj0
    simp only [List.getElem?_cons_zero, Option.some.injEq] at hj
    subst hj
    refine ⟨ucode, hcode, ?_⟩
    simp only [Nat.add_zero, hfresh]
    rfl

theorem getElem?_snoc_frames (l : List MVMFrame) (a : MVMFrame) (i : Nat) :
    (l ++ [a])[i]? = if i < l.length then l[i]? else if i = l.length then some a else none := by
  by_cases h1 : i < l.length
  · simp [h1, List.getElem?_append_left h1]
  · by_cases h2 : i = l.length
    · subst h2; simp
    · have : l.length + 1 ≤ i := by omega
      simp [h1, h2, List.getElem?_eq_none, this]

theorem uninline_iter_first_all {tc0 : MVMThreadContext} {f : Nat} {fr : MVMFrame}
    {cand : MVMSpeshCandidate} {offset deopt_offset : Int} {c : Nat}
    {st : MVMThreadContext × Option UninlineLast} {inl : MVMSpeshInline} {ucode : MVMObject}
    (hf : tc0.frames[f]? = some fr)
    (hinv : UninlineInv tc0 fr cand deopt_offset (some c) [] st)
    (hm : inline_matches offset inl = true)
    (hcode : fr.work inl.code_ref_reg = .o ucode)
    (hrepr : ucode.repr_id = REPRId.MVM_REPR_ID_MVMCode)
    (hc : c < tc0.frames.length)
    (hret : fr.return_type ≠ MVMReturnType.MVM_RETURN_VOID → fr.return_value.isSome = true) :
    ∃ st1, uninline_iter f cand offset deopt_offset (some c) st inl = .ok st1 ∧
      UninlineInv tc0 fr cand deopt_offset (some c) [inl] st1 := by
  obtain ⟨fr1, hg, hw, he, hrt, hrv, hsi⟩ := getFrame_of_inv hf hinv
  have hlast : st.2 = none := by simpa using hinv.last
  have hlen : st.1.frames.length = tc0.frames.length := by simpa using hinv.len
  have hold : ∀ i, i < tc0.frames.length → st.1.frames[i]? = tc0.frames[i]? := by
    intro i hi
    have h := hinv.old i hi
    simp only [ne_eq, not_true_eq_false, false_and, if_false] at h
    simpa using h
  have hinterp := hinv.interp
  simp only [ne_eq, not_true_eq_false, false_and, if_false, List.head?_nil] at hinterp
  have hne : ¬ tc0.frames.length = c := by omega
  unfold uninline_iter
  simp only [hm, if_true, hg, hw, he, hrt, hrv, hcode, hrepr, hlast, ne_eq, not_true_eq_false,
    if_false]
  by_cases hv : fr.return_type = MVMReturnType.MVM_RETURN_VOID
  · simp only [hv, if_true]
    refine ⟨_, rfl, ?_⟩
    refine ⟨by simp [hlen, length_modifyFrame], ?_, ?_, by simp [tracking_of, hlen],
      by simpa using hinterp⟩
    · intro i hi
      have hi2 : ¬ i = tc0.frames.length := by omega
      simp only [frames_modifyFrame, getElem?_snoc_frames, hlen, hi, hi2, if_true, if_false,
        hold i hi]
      by_cases hic : i = c
      · subst hic; simp
      · have : ¬ c = i := fun e => hic e.symm
        simp [hic, this]
    · intro j d hj
      have hj0 : j = 0 := by
        cases j with
        | zero => rfl
        | succ k => simp at hj
      subst hj0
      simp only [List.getElem?_cons_zero, Option.some.injEq] at hj
      subst hj
      refine ⟨ucode, hcode, ?_⟩
      simp only [frames_modifyFrame, getElem?_snoc_frames, hlen, Nat.add_zero, if_true, if_false,
        Nat.lt_irrefl, hne, Option.map_some']
      simp [uninlined_frame, MVM_frame_create_for_deopt, hv]
  · obtain ⟨r, hr⟩ := Option.isSome_iff_exists.1 (hret hv)
    simp only [hv, if_false, hr]
    refine ⟨_, rfl, ?_⟩
    refine ⟨by simp [hlen, length_modifyFrame], ?_, ?_, by simp [tracking_of, hlen],
      by simpa using hinterp⟩
    · intro i hi
      have hi2 : ¬ i = tc0.frames.length := by omega
      simp only [frames_modifyFrame, getElem?_snoc_frames, hlen, hi, hi2, if_true, if_false,
        hold i hi]
      by_cases hic : i = c
      · subst hic; simp
      · have : ¬ c = i := fun e => hic e.symm
        simp [hic, this]
    · intro j d hj
      have hj0 : j = 0 := by
        cases j with
        | zero => rfl
        | succ k => simp at hj
      subst hj0
      simp only [List.getElem?_cons_zero, Option.some.injEq] at hj
      subst hj
      refine ⟨ucode, hcode, ?_⟩
      simp only [frames_modifyFrame, getElem?_snoc_frames, hlen, Nat.add_zero, if_true, if_false,
        Nat.lt_irrefl, hne, Option.map_some']
      simp [uninlined_frame, MVM_frame_create_for_deopt, hv, hr]

theorem uninline_iter_later {tc0 : MVMThreadContext} {f : Nat} {fr : MVMFrame}
    {cand : MVMSpeshCandidate} {offset deopt_offset : Int} {callee : Option Nat}
    {ms : List MVMSpeshInline}
    {st : MVMThreadContext × Option UninlineLast} {inl : MVMSpeshInline} {ucode : MVMObject}
    (hf : tc0.frames[f]? = some fr)
    (hinv : UninlineInv tc0 fr cand deopt_offset callee ms st)
    (hms : ms ≠ [])
    (hm : inline_matches offset inl = true)
    (hcode : fr.work inl.code_ref_reg = .o ucode)
    (hrepr : ucode.repr_id = REPRId.MVM_REPR_ID_MVMCode) :
    ∃ st1, uninline_iter f cand offset deopt_offset callee st inl = .ok st1 ∧
      UninlineInv tc0 fr cand deopt_offset callee (ms ++ [inl]) st1 := by
  obtain ⟨fr1, hg, hw, he, hrt, hrv, hsi⟩ := getFrame_of_inv hf hinv
  have hpos : 0 < ms.length := List.length_pos.2 hms
  obtain ⟨dl, hdl⟩ : ∃ dl, ms.getLast? = some dl := by
    cases h : ms.getLast? with
    | none => exact absurd (List.getLast?_eq_none_iff.1 h) hms
    | some dl => exact ⟨dl, rfl⟩
  have hdl2 : ms[ms.length - 1]? = some dl := by
    rw [← hdl, List.getLast?_eq_getElem?]
  have hlast : st.2 = some (tracking_of (tc0.frames.length + ms.length - 1) dl) := by
    rw [hinv.last, hdl]; rfl
  have hlen : st.1.frames.length = tc0.frames.length + ms.length := hinv.len
  have hinterp := hinv.interp
  have hne : (ms ++ [inl] ≠ []) := by simp
  unfold uninline_iter
  simp only [hm, if_true, hg, hw, he, hrt, hrv, hcode, hrepr, hlast, ne_eq, not_true_eq_false,
    if_false]
  refine ⟨_, rfl, ?_⟩
  refine ⟨by simp [hlen, length_modifyFrame]; omega, ?_, ?_, ?_, ?_⟩
  · intro i hi
    have hi1 : i < tc0.frames.length + ms.length := by omega
    have hi2 : ¬ i = tc0.frames.length + ms.length := by omega
    have hi3 : ¬ i = tc0.frames.length + ms.length - 1 := by omega
    simp only [frames_modifyFrame, getElem?_snoc_frames, hlen, hi1, hi2, hi3, if_true, if_false,
      tracking_of, hinv.old i hi]
    simp [hms]
  · intro j d hj
    by_cases hjl : j < ms.length
    · have hj' : ms[j]? = some d := by
        rw [List.getElem?_append_left hjl] at hj; exact hj
      obtain ⟨uc, huc, hfrm⟩ := hinv.new j d hj'
      refine ⟨uc, huc, ?_⟩
      have hi1 : tc0.frames.length + j < tc0.frames.length + ms.length := by omega
      have hi2 : ¬ tc0.frames.length + j = tc0.frames.length + ms.length := by omega
      have hprev : (if j = 0 then none else (ms ++ [inl])[j - 1]?) =
          (if j = 0 then none else ms[j - 1]?) := by
        by_cases hj0 : j = 0
        · simp [hj0]
        · have : j - 1 < ms.length := by omega
          simp [hj0, List.getElem?_append_left this]
      simp only [frames_modifyFrame, getElem?_snoc_frames, hlen, hi1, hi2, if_true, if_false,
        tracking_of, hfrm, hprev, List.length_append, List.length_singleton]
      by_cases hjlast : j = ms.length - 1
      · have e1 : tc0.frames.length + j = tc0.frames.length + ms.length - 1 := by omega
        have e2 : j + 1 < ms.length + 1 := by omega
        have e3 : ¬ j + 1 < ms.length := by omega
        have e4 : tc0.frames.length + j + 1 = tc0.frames.length + ms.length := by omega
        simp [e1, e2, e3, e4, uninlined_frame]
        omega
      · have e1 : ¬ tc0.frames.length + j = tc0.frames.length + ms.length - 1 := by omega
        have e2 : j + 1 < ms.length + 1 := by omega
        have e3 : j + 1 < ms.length := by omega
        simp [e1, e2, e3]
    · have hjeq : j = ms.length := by
        have := (List.getElem?_eq_some_iff.1 hj).1
        simp at this
        omega
      subst hjeq
      have hd : d = inl := by
        simpa using hj.symm
      subst hd
      refine ⟨ucode, hcode, ?_⟩
      have e0 : ¬ ms.length = 0 := by omega
      have e1 : ¬ tc0.frames.length + ms.length = tc0.frames.length + ms.length - 1 := by omega
      have e2 : (ms ++ [d])[ms.length - 1]? = some dl := by
        rw [List.getElem?_append_left (by omega)]; exact hdl2
      simp only [frames_modifyFrame, getElem?_snoc_frames, hlen, if_true, if_false,
        tracking_of, Nat.lt_irrefl, e0, e1, e2, Option.map_some', List.length_append,
        List.length_singleton]
      simp [uninlined_frame, MVM_frame_create_for_deopt]
  · simp [tracking_of, hlen]
  · have hh : (ms ++ [inl]).head? = ms.head? := by
      cases ms with
      | nil => exact absurd rfl hms
      | cons a t => simp
    simp only [hh, cur_frame_modifyFrame, interp_cur_op_modifyFrame,
      interp_bytecode_start_modifyFrame, interp_reg_base_modifyFrame, interp_cu_modifyFrame,
      current_frame_nr_modifyFrame]
    simpa [hms] using hinterp

theorem uninline_iter_matching {tc0 : MVMThreadContext} {f : Nat} {fr : MVMFrame}
    {cand : MVMSpeshCandidate} {offset deopt_offset : Int} {callee : Option Nat}
    {ms : List MVMSpeshInline}
    {st : MVMThreadContext × Option UninlineLast} {inl : MVMSpeshInline} {ucode : MVMObject}
    (hf : tc0.frames[f]? = some fr)
    (hcallee : ∀ c, callee = some c → c < tc0.frames.length)
    (hret : ms = [] → callee.isSome = true → fr.return_type ≠ MVMReturnType.MVM_RETURN_VOID →
      fr.return_value.isSome = true)
    (hinv : UninlineInv tc0 fr cand deopt_offset callee ms st)
    (hm : inline_matches offset inl = true)
    (hcode : fr.work inl.code_ref_reg = .o ucode)
    (hrepr : ucode.repr_id = REPRId.MVM_REPR_ID_MVMCode) :
    ∃ st1, uninline_iter f cand offset deopt_offset callee st inl = .ok st1 ∧
      UninlineInv tc0 fr cand deopt_offset callee (ms ++ [inl]) st1 := by
  by_cases hms : ms = []
  · subst hms
    cases callee with
    | none => exact uninline_iter_first_one hf hinv hm hcode hrepr
    | some c =>
      exact uninline_iter_first_all hf hinv hm hcode hrepr (hcallee c rfl) (hret rfl rfl)
  · exact uninline_iter_later hf hinv hms hm hcode hrepr

theorem uninline_iter_failing {tc0 : MVMThreadContext} {f : Nat} {fr : MVMFrame}
    {cand : MVMSpeshCandidate} {offset deopt_offset : Int} {callee : Option Nat}
    {ms : List MVMSpeshInline}
    {st st1 : MVMThreadContext × Option UninlineLast} {inl : MVMSpeshInline}
    (hf : tc0.frames[f]? = some fr)
    (hinv : UninlineInv tc0 fr cand deopt_offset callee ms st)
    (hm : inline_matches offset inl = true)
    (hok : uninline_iter f cand offset deopt_offset callee st inl = .ok st1) :
    (∃ ucode, fr.work inl.code_ref_reg = .o ucode ∧
      ucode.repr_id = REPRId.MVM_REPR_ID_MVMCode) ∧
    (ms = [] → callee.isSome = true → fr.return_type ≠ MVMReturnType.MVM_RETURN_VOID →
      fr.return_value.isSome = true) := by
  obtain ⟨fr1, hg, hw, he, hrt, hrv, hsi⟩ := getFrame_of_inv hf hinv
  unfold uninline_iter at hok
  simp only [hm, if_true, hg, hw, hrt, hrv] at hok
  cases hreg : fr.work inl.code_ref_reg with
  | i64 v => simp [hreg] at hok
  | o ucode =>
    simp only [hreg] at hok
    by_cases hrepr : ucode.repr_id = REPRId.MVM_REPR_ID_MVMCode
    · refine ⟨⟨ucode, rfl, hrepr⟩, ?_⟩
      intro hms hc hv
      subst hms
      have hlast : st.2 = none := by simpa using hinv.last
      obtain ⟨c, hcs⟩ := Option.isSome_iff_exists.1 hc
      subst hcs
      simp only [hrepr, ne_eq, not_true_eq_false, if_false, hlast, hv] at hok
      cases hr : fr.return_value with
      | none => simp [hr] at hok
      | some r => rfl
    · simp [hrepr] at hok

theorem uninline_loop_spec (tc0 : MVMThreadContext) (f : Nat) (fr : MVMFrame)
    (cand : MVMSpeshCandidate) (offset deopt_offset : Int) (callee : Option Nat)
    (hf : tc0.frames[f]? = some fr)
    (hcallee : ∀ c, callee = some c → c < tc0.frames.length) :
    ∀ (tbl : List MVMSpeshInline) (ms : List MVMSpeshInline)
      (st : MVMThreadContext × Option UninlineLast),
      (∀ d ∈ tbl, inline_matches offset d = true →
        ∃ ucode, fr.work d.code_ref_reg = .o ucode ∧
          ucode.repr_id = REPRId.MVM_REPR_ID_MVMCode) →
      (ms = [] → callee.isSome = true → (∃ d ∈ tbl, inline_matches offset d = true) →
        fr.return_type ≠ MVMReturnType.MVM_RETURN_VOID → fr.return_value.isSome = true) →
      UninlineInv tc0 fr cand deopt_offset callee ms st →
      ∃ st1, uninline_loop f cand offset deopt_offset callee tbl st = .ok st1 ∧
        UninlineInv tc0 fr cand deopt_offset callee
          (ms ++ tbl.filter (inline_matches offset)) st1 := by
  intro tbl
  induction tbl with
  | nil =>
    intro ms st _ _ hinv
    exact ⟨st, rfl, by simpa using hinv⟩
  | cons inl rest ih =>
    intro ms st hcode hret hinv
    have hcode' : ∀ d ∈ rest, inline_matches offset d = true →
        ∃ ucode, fr.work d.code_ref_reg = .o ucode ∧
          ucode.repr_id = REPRId.MVM_REPR_ID_MVMCode :=
      fun d hd => hcode d (List.mem_cons_of_mem _ hd)
    by_cases hm : inline_matches offset inl = true
    · obtain ⟨ucode, hc, hrepr⟩ := hcode inl (List.mem_cons_self _ _) hm
      obtain ⟨st1, h1, hinv1⟩ :=
        uninline_iter_matching hf hcallee
          (fun hms hcs => hret hms hcs ⟨inl, List.mem_cons_self _ _, hm⟩) hinv hm hc hrepr
      obtain ⟨st2, h2, hinv2⟩ := ih (ms ++ [inl]) st1 hcode' (fun hms => by simp at hms) hinv1
      refine ⟨st2, ?_, ?_⟩
      · simp only [uninline_loop, h1, h2]
      · simpa [List.filter_cons, hm] using hinv2
    · obtain ⟨st2, h2, hinv2⟩ := ih ms st hcode'
        (fun hms hcs ⟨d, hd, hdm⟩ => hret hms hcs ⟨d, List.mem_cons_of_mem _ hd, hdm⟩) hinv
      have h1 : uninline_iter f cand offset deopt_offset callee st inl = .ok st := by
        simp [uninline_iter, hm]
      refine ⟨st2, ?_, ?_⟩
      · simp only [uninline_loop, h1, h2]
      · simpa [List.filter_cons, hm] using hinv2

theorem uninline_loop_ok_pre {tc0 : MVMThreadContext} {f : Nat} {fr : MVMFrame}
    {cand : MVMSpeshCandidate} {offset deopt_offset : Int} {callee : Option Nat}
    (hf : tc0.frames[f]? = some fr)
    (hcallee : ∀ c, callee = some c → c < tc0.frames.length) :
    ∀ (tbl : List MVMSpeshInline) (ms : List MVMSpeshInline)
      (st st1 : MVMThreadContext × Option UninlineLast),
      UninlineInv tc0 fr cand deopt_offset callee ms st →
      uninline_loop f cand offset deopt_offset callee tbl st = .ok st1 →
      (∀ d ∈ tbl, inline_matches offset d = true →
        ∃ ucode, fr.work d.code_ref_reg = .o ucode ∧
          ucode.repr_id = REPRId.MVM_REPR_ID_MVMCode) ∧
      (ms = [] → callee.isSome = true → (∃ d ∈ tbl, inline_matches offset d = true) →
        fr.return_type ≠ MVMReturnType.MVM_RETURN_VOID → fr.return_value.isSome = true) := by
  intro tbl
  induction tbl with
  | nil =>
    intro ms st st1 _ _
    exact ⟨fun d hd => by simp at hd, fun _ _ ⟨d, hd, _⟩ => by simp at hd⟩
  | cons inl rest ih =>
    intro ms st st1 hinv hok
    cases hit : uninline_iter f cand offset deopt_offset callee st inl with
    | error e => simp [uninline_loop, hit] at hok
    | ok st2 =>
      simp only [uninline_loop, hit] at hok
      by_cases hm : inline_matches offset inl = true
      · obtain ⟨⟨ucode, hc, hrepr⟩, hret⟩ := uninline_iter_failing hf hinv hm hit
        obtain ⟨st2', h2, hinv2⟩ := uninline_iter_matching hf hcallee hret hinv hm hc hrepr
        rw [hit] at h2
        cases h2
        obtain ⟨hA, _⟩ := ih (ms ++ [inl]) st2 st1 hinv2 hok
        refine ⟨?_, fun hms hcs _ => hret hms hcs⟩
        intro d hd hdm
        rcases List.mem_cons.1 hd with h | h
        · subst h; exact ⟨ucode, hc, hrepr⟩
        · exact hA d h hdm
      · have h1 : uninline_iter f cand offset deopt_offset callee st inl = .ok st := by
          simp [uninline_iter, hm]
        rw [h1] at hit
        cases hit
        obtain ⟨hA, hB⟩ := ih ms st st1 hinv hok
        refine ⟨?_, ?_⟩
        · intro d hd hdm
          rcases List.mem_cons.1 hd with h | h
          · subst h; exact absurd hdm hm
          · exact hA d h hdm
        · intro hms hcs ⟨d, hd, hdm⟩
          rcases List.mem_cons.1 hd with h | h
          · subst h; exact absurd hdm hm
          · exact hB hms hcs ⟨d, h, hdm⟩

theorem uninline_finish_spec {tc : MVMThreadContext} {f : Nat} {fr : MVMFrame}
    {cand : MVMSpeshCandidate} {deopt_offset : Int} {callee : Option Nat}
    {ms : List MVMSpeshInline} {st : MVMThreadContext × Option UninlineLast}
    (hf : tc.frames[f]? = some fr)
    (hinv : UninlineInv tc fr cand deopt_offset callee ms st) :
    ∃ tc1, uninline_finish f cand deopt_offset callee st = .ok tc1 ∧
      UninlineSpec tc f fr cand deopt_offset callee ms tc1 := by
  obtain ⟨fr1, hg, hw, he, hrt, hrv, hsi⟩ := getFrame_of_inv hf hinv
  have hflt : f < tc.frames.length := (List.getElem?_eq_some_iff.1 hf).1
  have hlen := hinv.len
  obtain ⟨hi1, hi2, hi3, hi4, hi5, hi6⟩ := hinv.interp
  by_cases hms : ms = []
  · subst hms
    have hlast : st.2 = none := by simpa using hinv.last
    have hold : ∀ i, i < tc.frames.length → st.1.frames[i]? = tc.frames[i]? := by
      intro i hi
      have h := hinv.old i hi
      simp only [ne_eq, not_true_eq_false, false_and, if_false] at h
      simpa using h
    have hfr1 : fr1 = fr := by
      have := hold f hflt
      rw [hf] at this
      have h2 := getFrame_eq_ok this
      rw [hg] at h2
      cases h2; rfl
    subst hfr1
    unfold uninline_finish
    cases callee with
    | none =>
      simp only [hlast, hg]
      refine ⟨_, rfl, ?_⟩
      refine ⟨by simpa using hlen, ?_, ?_, ?_, ?_, ?_, ?_, ?_⟩
      · intro i hi
        simp only [hold i hi, outer_after]
        cases tc.frames[i]? <;> simp
      · intro j d hj; simp at hj
      · simpa using hi1
      · simp
      · simp
      · simpa using hi4
      · simpa using hi5
    | some c =>
      simp only [hlast]
      refine ⟨_, rfl, ?_⟩
      refine ⟨by simpa [length_modifyFrame] using hlen, ?_, ?_, ?_, ?_, ?_, ?_, ?_⟩
      · intro i hi
        simp only [frames_modifyFrame, hold i hi, outer_after]
        by_cases hif : i = f
        · subst hif; simp
        · cases tc.frames[i]? <;> simp [hif]
      · intro j d hj; simp at hj
      · simpa using hi1
      · simpa using hi2
      · simpa using hi3
      · simpa using hi4
      · simpa using hi5
  · have hpos : 0 < ms.length := List.length_pos.2 hms
    obtain ⟨dl, hdl⟩ : ∃ dl, ms.getLast? = some dl := by
      cases h : ms.getLast? with
      | none => exact absurd (List.getLast?_eq_none_iff.1 h) hms
      | some dl => exact ⟨dl, rfl⟩
    have hlast : st.2 = some (tracking_of (tc.frames.length + ms.length - 1) dl) := by
      rw [hinv.last, hdl]; rfl
    obtain ⟨dh, hdh⟩ : ∃ dh, ms.head? = some dh := by
      cases ms with
      | nil => exact absurd rfl hms
      | cons a t => exact ⟨a, rfl⟩
    unfold uninline_finish
    simp only [hlast]
    refine ⟨_, rfl, ?_⟩
    refine ⟨by simpa [length_modifyFrame] using hlen, ?_, ?_, ?_, ?_, ?_, ?_, ?_⟩
    · intro i hi
      have hne : ¬ i = tc.frames.length + ms.length - 1 := by omega
      simp only [frames_modifyFrame, tracking_of, hne, if_false, hinv.old i hi, outer_after, hdl]
      by_cases hif : i = f
      · subst hif
        cases tc.frames[i]? <;> simp [hms]
      · cases tc.frames[i]? <;> simp [hif]
    · intro j d hj
      obtain ⟨uc, huc, hfrm⟩ := hinv.new j d hj
      refine ⟨uc, huc, ?_⟩
      have hjl : j < ms.length := (List.getElem?_eq_some_iff.1 hj).1
      have hne : ¬ tc.frames.length + j = f := by omega
      simp only [frames_modifyFrame, tracking_of, hne, if_false, hfrm]
      by_cases hjlast : j = ms.length - 1
      · have e1 : tc.frames.length + j = tc.frames.length + ms.length - 1 := by omega
        have e3 : ¬ j + 1 < ms.length := by omega
        simp [e1, e3, uninlined_frame]
      · have e1 : ¬ tc.frames.length + j = tc.frames.length + ms.length - 1 := by omega
        have e3 : j + 1 < ms.length := by omega
        simp [e1, e3]
    · simpa using hi1
    · cases callee <;> simpa [hdh] using hi2
    · cases callee <;> simpa [hdh] using hi3
    · simpa using hi4
    · cases callee <;> simpa [hdh] using hi5

theorem uninline_spec (tc : MVMThreadContext) (f : Nat) (fr : MVMFrame)
    (cand : MVMSpeshCandidate) (offset deopt_offset : Int) (callee : Option Nat)
    (hf : tc.frames[f]? = some fr)
    (hcallee : ∀ c, callee = some c → c < tc.frames.length)
    (hpre : UninlinePre fr offset callee (cand.inlines.getD [])) :
    ∃ tc1, uninline tc f cand offset deopt_offset callee = .ok tc1 ∧
      UninlineSpec tc f fr cand deopt_offset callee
        ((cand.inlines.getD []).filter (inline_matches offset)) tc1 := by
  obtain ⟨st1, h1, hinv1⟩ :=
    uninline_loop_spec tc f fr cand offset deopt_offset callee hf hcallee
      (cand.inlines.getD []) [] (tc, none) hpre.1 (fun _ => hpre.2)
      (uninlineInv_init tc fr cand deopt_offset callee)
  obtain ⟨tc1, h2, hspec⟩ := uninline_finish_spec hf hinv1
  refine ⟨tc1, ?_, by simpa using hspec⟩
  simp only [uninline, h1, h2]

theorem uninline_ok_pre {tc tc1 : MVMThreadContext} {f : Nat} {fr : MVMFrame}
    {cand : MVMSpeshCandidate} {offset deopt_offset : Int} {callee : Option Nat}
    (hf : tc.frames[f]? = some fr)
    (hcallee : ∀ c, callee = some c → c < tc.frames.length)
    (hok : uninline tc f cand offset deopt_offset callee = .ok tc1) :
    UninlinePre fr offset callee (cand.inlines.getD []) := by
  unfold uninline at hok
  cases hl : uninline_loop f cand offset deopt_offset callee (cand.inlines.getD []) (tc, none) with
  | error e => simp [hl] at hok
  | ok st1 =>
    obtain ⟨hA, hB⟩ := uninline_loop_ok_pre hf hcallee (cand.inlines.getD []) [] (tc, none) st1
      (uninlineInv_init tc fr cand deopt_offset callee) hl
    exact ⟨hA, hB rfl⟩

/-! ## MVM_spesh_deopt_one -/

theorem frames_clear_dynlex_cache (tc : MVMThreadContext) (f : Nat) (fr : MVMFrame)
    (h : tc.frames[f]? = some fr) :
    (clear_dynlex_cache tc f).frames[f]? = some
      { fr with
        extra :=
          match fr.extra with
          | some _ => some { dynlex_cache_name := none, dynlex_cache_reg := none }
          | none => none } := by
  simp [clear_dynlex_cache, frames_modifyFrame, h]

@[simp]
theorem cur_frame_clear_dynlex_cache (tc : MVMThreadContext) (f : Nat) :
    (clear_dynlex_cache tc f).cur_frame = tc.cur_frame := by
  simp [clear_dynlex_cache]

@[simp]
theorem length_clear_dynlex_cache (tc : MVMThreadContext) (f : Nat) :
    (clear_dynlex_cache tc f).frames.length = tc.frames.length := by
  simp [clear_dynlex_cache, length_modifyFrame]

@[simp]
theorem cur_frame_deopt_named_args_used (tc : MVMThreadContext) (f : Nat)
    (cand : MVMSpeshCandidate) : (deopt_named_args_used tc f cand).cur_frame = tc.cur_frame := by
  simp [deopt_named_args_used]

@[simp]
theorem length_deopt_named_args_used (tc : MVMThreadContext) (f : Nat)
    (cand : MVMSpeshCandidate) :
    (deopt_named_args_used tc f cand).frames.length = tc.frames.length := by
  simp [deopt_named_args_used, length_modifyFrame]

/-- C1: when the current frame has a candidate, no PEA deopt point matches the
derived offset and the registers named by the matching inline entries hold
code objects, MVM_spesh_deopt_one returns; afterwards the current frame of the
interpreter (the original frame, or the frame uninlined first when an inline
entry matched) has no candidate, and the original frame has neither candidate
nor spesh slots. -/
theorem deopt_one_clears_spesh_cand (tc : MVMThreadContext) (deopt_target : Nat)
    (fr : MVMFrame) (cand : MVMSpeshCandidate)
    (hcur : tc.frames[tc.cur_frame]? = some fr)
    (hcand : fr.spesh_cand = some cand)
    (hpea : ∀ dp ∈ cand.deopt_pea_deopt_point,
      dp.deopt_point_idx ≠ toInt32 (toUInt32 (tc.interp_cur_op - cand.bytecode)))
    (hcode : ∀ d ∈ cand.inlines.getD [],
      inline_matches (toInt32 (toUInt32 (tc.interp_cur_op - cand.bytecode))) d = true →
      ∃ ucode, fr.work d.code_ref_reg = .o ucode ∧
        ucode.repr_id = REPRId.MVM_REPR_ID_MVMCode) :
    ∃ tc1, MVM_spesh_deopt_one tc deopt_target = .ok tc1 ∧
      tc1.cur_frame =
        (if (cand.inlines.getD []).filter
            (inline_matches (toInt32 (toUInt32 (tc.interp_cur_op - cand.bytecode)))) ≠ []
          then tc.frames.length else tc.cur_frame) ∧
      (∃ cf, tc1.frames[tc1.cur_frame]? = some cf ∧ cf.spesh_cand = none) ∧
      (∃ g, tc1.frames[tc.cur_frame]? = some g ∧ g.spesh_cand = none ∧
        g.effective_spesh_slots = none) := by
  have hlt : tc.cur_frame < tc.frames.length := (List.getElem?_eq_some_iff.1 hcur).1
  have h1 := frames_clear_dynlex_cache tc tc.cur_frame fr hcur
  have hcf : (clear_dynlex_cache tc tc.cur_frame).cur_frame = tc.cur_frame := by
    simp [clear_dynlex_cache]
  have hop : (clear_dynlex_cache tc tc.cur_frame).interp_cur_op = tc.interp_cur_op := by
    simp [clear_dynlex_cache]
  have hmat : materialize_replaced_objects cand
      (toInt32 (toUInt32 (tc.interp_cur_op - cand.bytecode))) = .ok () := by
    unfold materialize_replaced_objects
    rw [if_neg]
    simp only [List.any_eq_true, decide_eq_true_eq, not_exists, not_and]
    exact fun dp hdp => hpea dp hdp
  unfold MVM_spesh_deopt_one
  simp only [getFrame_eq_ok h1, hcand, hcf, hop]
  unfold deopt_frame
  simp only [getFrame_eq_ok h1, hcand, hmat]
  by_cases hin : cand.inlines.isSome = true
  · simp only [hin, if_true]
    have h2 : (deopt_named_args_used (clear_dynlex_cache tc tc.cur_frame) tc.cur_frame
        cand).frames[tc.cur_frame]? = some
          { fr with
            extra :=
              match fr.extra with
              | some _ => some { dynlex_cache_name := none, dynlex_cache_reg := none }
              | none => none
            params_named_used_bit_field :=
              if cand.deopt_named_used_bit_field ≠ 0 then cand.deopt_named_used_bit_field
              else fr.params_named_used_bit_field } := by
      simp [deopt_named_args_used, frames_modifyFrame, h1]
    have hlen2 : (deopt_named_args_used (clear_dynlex_cache tc tc.cur_frame) tc.cur_frame
        cand).frames.length = tc.frames.length := by
      simp [deopt_named_args_used, clear_dynlex_cache, length_modifyFrame]
    obtain ⟨tc2, hun, hspec⟩ := uninline_spec _ tc.cur_frame _ cand
      (toInt32 (toUInt32 (tc.interp_cur_op - cand.bytecode)))
      (toInt32 deopt_target) none h2 (by simp)
      ⟨hcode, by simp⟩
    simp only [hun]
    refine ⟨_, rfl, ?_, ?_, ?_⟩
    · rw [cur_frame_modifyFrame, hspec.cur_frame]
      simp
    · by_cases hms : (cand.inlines.getD []).filter
          (inline_matches (toInt32 (toUInt32 (tc.interp_cur_op - cand.bytecode)))) = []
      · have hc : tc2.cur_frame = tc.cur_frame := by
          rw [hspec.cur_frame]; simp [hms]
        have hold := hspec.old tc.cur_frame (by rw [hlen2]; exact hlt)
        rw [h2] at hold
        simp only [cur_frame_modifyFrame, hc, frames_modifyFrame, hold, if_true, Option.map_some']
        exact ⟨_, rfl, rfl⟩
      · obtain ⟨d, hd⟩ : ∃ d, ((cand.inlines.getD []).filter
            (inline_matches (toInt32 (toUInt32 (tc.interp_cur_op - cand.bytecode)))))[0]? =
            some d := by
          cases hl : (cand.inlines.getD []).filter
              (inline_matches (toInt32 (toUInt32 (tc.interp_cur_op - cand.bytecode)))) with
          | nil => exact absurd hl hms
          | cons a t => exact ⟨a, by simp⟩
        obtain ⟨uc, _, hnew⟩ := hspec.new 0 d hd
        have hc : tc2.cur_frame = tc.frames.length := by
          rw [hspec.cur_frame]; simp [hms]
        have hne : ¬ tc.frames.length = tc.cur_frame := by omega
        rw [hlen2, Nat.add_zero] at hnew
        simp only [cur_frame_modifyFrame, hc, frames_modifyFrame, hnew, hne, if_false]
        exact ⟨_, rfl, rfl⟩
    · have hold := hspec.old tc.cur_frame (by rw [hlen2]; exact hlt)
      rw [h2] at hold
      simp only [frames_modifyFrame, hold, if_true, Option.map_some']
      exact ⟨_, rfl, rfl, rfl⟩
  · have hnone : cand.inlines = none := by
      cases h : cand.inlines with
      | none => rfl
      | some l => simp [h] at hin
    simp only [hin, if_false]
    refine ⟨_, rfl, ?_, ?_, ?_⟩
    · simp [hnone, deopt_named_args_used, clear_dynlex_cache]
    · simp [frames_modifyFrame, deopt_named_args_used, clear_dynlex_cache, hcur]
    · simp [frames_modifyFrame, deopt_named_args_used, clear_dynlex_cache, hcur]

theorem ex_outer_pre :
    ∀ d ∈ ex_cand.inlines.getD [], inline_matches 120 d = true →
      ∃ ucode, ex_outer.work d.code_ref_reg = .o ucode ∧
        ucode.repr_id = REPRId.MVM_REPR_ID_MVMCode := by
  intro d hd _
  have hd' : d = ex_D0 ∨ d = ex_D1 := by simpa [ex_cand] using hd
  rcases hd' with h | h <;> subst h <;> exact ⟨ex_code, rfl, rfl⟩

/-- Witness for C1: the two-level inline scenario, deopt target 10. -/
theorem deopt_one_clears_spesh_cand_witness :
    ∃ tc1, MVM_spesh_deopt_one ex_tc 10 = .ok tc1 ∧
      tc1.cur_frame =
        (if (ex_cand.inlines.getD []).filter
            (inline_matches (toInt32 (toUInt32 (ex_tc.interp_cur_op - ex_cand.bytecode)))) ≠ []
          then ex_tc.frames.length else ex_tc.cur_frame) ∧
      (∃ cf, tc1.frames[tc1.cur_frame]? = some cf ∧ cf.spesh_cand = none) ∧
      (∃ g, tc1.frames[ex_tc.cur_frame]? = some g ∧ g.spesh_cand = none ∧
        g.effective_spesh_slots = none) :=
  deopt_one_clears_spesh_cand ex_tc 10 ex_outer ex_cand rfl rfl
    (fun dp hdp => by simp [ex_cand] at hdp)
    ex_outer_pre

/-! ## uninline: registers, number of frames, caller chain -/

theorem uninline_ok_iff {tc : MVMThreadContext} {f : Nat} {fr : MVMFrame}
    {cand : MVMSpeshCandidate} {offset deopt_offset : Int} {callee : Option Nat}
    (hf : tc.frames[f]? = some fr)
    (hcallee : ∀ c, callee = some c → c < tc.frames.length) :
    (∃ tc1, uninline tc f cand offset deopt_offset callee = .ok tc1) ↔
      UninlinePre fr offset callee (cand.inlines.getD []) :=
  ⟨fun ⟨_, h⟩ => uninline_ok_pre hf hcallee h,
    fun h => (uninline_spec tc f fr cand offset deopt_offset callee hf hcallee h).imp
      fun _ h1 => h1.1⟩

theorem ex_uninline_pre (callee : Option Nat) :
    UninlinePre ex_outer 120 callee (ex_cand.inlines.getD []) :=
  ⟨ex_outer_pre, fun _ _ h => absurd rfl h⟩

/-- C6: when uninline returns (UninlinePre), in the frame it leaves on the heap
for the j-th matching entry d the first d.sf.num_locals work registers are the
registers of the outer frame from d.locals_start on, and the first
d.sf.num_lexicals lexicals those of the outer frame from d.lexicals_start on, as
they were before the call; the work and env of the outer frame are unchanged. -/
theorem uninline_copies_registers (tc : MVMThreadContext) (f : Nat) (fr : MVMFrame)
    (cand : MVMSpeshCandidate) (offset deopt_offset : Int) (callee : Option Nat)
    (hf : tc.frames[f]? = some fr)
    (hcallee : ∀ c, callee = some c → c < tc.frames.length)
    (hpre : UninlinePre fr offset callee (cand.inlines.getD [])) :
    ∃ tc1, uninline tc f cand offset deopt_offset callee = .ok tc1 ∧
      (∀ j d, ((cand.inlines.getD []).filter (inline_matches offset))[j]? = some d →
        ∃ u, tc1.frames[tc.frames.length + j]? = some u ∧
          (∀ k, k < d.sf.num_locals → u.work k = fr.work (d.locals_start + k)) ∧
          (∀ k, k < d.sf.num_lexicals → u.env k = fr.env (d.lexicals_start + k))) ∧
      (∃ g, tc1.frames[f]? = some g ∧ g.work = fr.work ∧ g.env = fr.env) := by
  obtain ⟨tc1, hok, hspec⟩ := uninline_spec tc f fr cand offset deopt_offset callee hf hcallee hpre
  refine ⟨tc1, hok, ?_, ?_⟩
  · intro j d hj
    obtain ⟨uc, _, hnew⟩ := hspec.new j d hj
    refine ⟨_, hnew, ?_, ?_⟩
    · intro k hk
      have h0 : d.sf.num_locals ≠ 0 := by omega
      simp [uninlined_frame, h0, memcpy_regs, hk]
    · intro k hk
      have h0 : d.sf.num_lexicals ≠ 0 := by omega
      simp [uninlined_frame, h0, memcpy_regs, hk]
  · have hlt : f < tc.frames.length := (List.getElem?_eq_some_iff.1 hf).1
    have hold := hspec.old f hlt
    rw [hf] at hold
    simp only [if_true, Option.map_some'] at hold
    refine ⟨_, hold, ?_, ?_⟩
    · unfold outer_after
      split
      · split <;> rfl
      · split
        · split <;> rfl
        · split <;> rfl
    · unfold outer_after
      split
      · split <;> rfl
      · split
        · split <;> rfl
        · split <;> rfl

/-- Witness for C6: the two-level inline scenario on the deopt_one path. -/
theorem uninline_copies_registers_witness :
    ∃ tc1, uninline ex_tc 0 ex_cand 120 10 none = .ok tc1 ∧
      (∀ j d, ((ex_cand.inlines.getD []).filter (inline_matches 120))[j]? = some d →
        ∃ u, tc1.frames[ex_tc.frames.length + j]? = some u ∧
          (∀ k, k < d.sf.num_locals → u.work k = ex_outer.work (d.locals_start + k)) ∧
          (∀ k, k < d.sf.num_lexicals → u.env k = ex_outer.env (d.lexicals_start + k))) ∧
      (∃ g, tc1.frames[0]? = some g ∧ g.work = ex_outer.work ∧ g.env = ex_outer.env) :=
  uninline_copies_registers ex_tc 0 ex_outer ex_cand 120 10 none rfl
    (fun _ h => by simp at h) (ex_uninline_pre none)

/-- C7: when uninline returns (UninlinePre), the heap has grown by as many
frames as there are inline table entries with start < offset <= end, and the
new frames form one caller chain that ends at the outer frame: each new frame
has the next new frame as its caller, and the last one has the outer frame f.
An entry matches neither at offset = start nor at offset = end + 1, and it
matches at start + 1 and at end when start < end. -/
theorem uninline_count_and_chain (tc : MVMThreadContext) (f : Nat) (fr : MVMFrame)
    (cand : MVMSpeshCandidate) (offset deopt_offset : Int) (callee : Option Nat)
    (hf : tc.frames[f]? = some fr)
    (hcallee : ∀ c, callee = some c → c < tc.frames.length)
    (hpre : UninlinePre fr offset callee (cand.inlines.getD [])) :
    ∃ tc1, uninline tc f cand offset deopt_offset callee = .ok tc1 ∧
      tc1.frames.length = tc.frames.length +
        (cand.inlines.getD []).countP
          (fun d => decide (d.start < offset) && decide (offset ≤ d.«end»)) ∧
      (∀ j, j < (cand.inlines.getD []).countP
            (fun d => decide (d.start < offset) && decide (offset ≤ d.«end»)) →
        ∃ u, tc1.frames[tc.frames.length + j]? = some u ∧
          u.caller = some
            (if j + 1 < (cand.inlines.getD []).countP
                (fun d => decide (d.start < offset) && decide (offset ≤ d.«end»))
              then tc.frames.length + j + 1 else f)) ∧
      (∀ d : MVMSpeshInline, inline_matches d.start d = false ∧
        inline_matches (d.«end» + 1) d = false ∧
        (d.start < d.«end» →
          inline_matches (d.start + 1) d = true ∧ inline_matches d.«end» d = true)) := by
  have hfun : (fun d : MVMSpeshInline => decide (d.start < offset) && decide (offset ≤ d.«end»)) =
      inline_matches offset := by
    funext d; simp [inline_matches]
  rw [hfun]
  obtain ⟨tc1, hok, hspec⟩ := uninline_spec tc f fr cand offset deopt_offset callee hf hcallee hpre
  have hcount : (cand.inlines.getD []).countP (inline_matches offset) =
      ((cand.inlines.getD []).filter (inline_matches offset)).length :=
    List.countP_eq_length_filter _ _
  refine ⟨tc1, hok, ?_, ?_, ?_⟩
  · rw [hspec.len, hcount]
  · intro j hj
    rw [hcount] at hj ⊢
    obtain ⟨d, hd⟩ : ∃ d, ((cand.inlines.getD []).filter (inline_matches offset))[j]? = some d :=
      ⟨_, List.getElem?_eq_getElem hj⟩
    obtain ⟨uc, _, hnew⟩ := hspec.new j d hd
    refine ⟨_, hnew, ?_⟩
    simp only [uninlined_frame]
    split <;> rfl
  · intro d
    refine ⟨by simp [inline_matches], by simp [inline_matches], fun h => ?_⟩
    constructor
    · simp only [inline_matches, Bool.and_eq_true, decide_eq_true_eq]
      omega
    · simp only [inline_matches, Bool.and_eq_true, decide_eq_true_eq]
      omega

/-- Witness for C7: the two-level inline scenario on the deopt_all path, with
frame 1 as callee of the outer frame 0. -/
theorem uninline_count_and_chain_witness :
    ∃ tc1, uninline ex_tc_callee 0 ex_cand 120 10 (some 1) = .ok tc1 ∧
      tc1.frames.length = ex_tc_callee.frames.length +
        (ex_cand.inlines.getD []).countP
          (fun d => decide (d.start < 120) && decide ((120 : Int) ≤ d.«end»)) ∧
      (∀ j, j < (ex_cand.inlines.getD []).countP
            (fun d => decide (d.start < 120) && decide ((120 : Int) ≤ d.«end»)) →
        ∃ u, tc1.frames[ex_tc_callee.frames.length + j]? = some u ∧
          u.caller = some
            (if j + 1 < (ex_cand.inlines.getD []).countP
                (fun d => decide (d.start < 120) && decide ((120 : Int) ≤ d.«end»))
              then ex_tc_callee.frames.length + j + 1 else 0)) ∧
      (∀ d : MVMSpeshInline, inline_matches d.start d = false ∧
        inline_matches (d.«end» + 1) d = false ∧
        (d.start < d.«end» →
          inline_matches (d.start + 1) d = true ∧ inline_matches d.«end» d = true)) :=
  uninline_count_and_chain ex_tc_callee 0 ex_outer ex_cand 120 10 (some 1) rfl
    (fun c h => by cases h; decide) (ex_uninline_pre (some 1))

/-- C8, as stated, fails: in the two-level scenario (offset 120 inside D0 and D1,
stored in that order) the frame for D0 is the current frame of the interpreter
and has the frame for D1 as caller, the frame for D1 has the outer frame as
caller, and the interpreter points into the generic bytecode of D0. -/
theorem uninline_two_level_counterexample :
    ∃ tc1 F0 F1, uninline ex_tc 0 ex_cand 120 10 none = .ok tc1 ∧
      tc1.frames[1]? = some F0 ∧ tc1.frames[2]? = some F1 ∧
      F0.static_info = ex_D0.sf ∧ F1.static_info = ex_D1.sf ∧
      ¬ (F1.caller = some 1 ∧ F0.caller = some 0 ∧ tc1.cur_frame = 2 ∧
        tc1.interp_cur_op = ex_D1.sf.bytecode + 10) ∧
      F0.caller = some 2 ∧ F1.caller = some 0 ∧ tc1.cur_frame = 1 ∧
      tc1.interp_cur_op = ex_D0.sf.bytecode + 10 := by
  obtain ⟨tc1, hok, hspec⟩ := uninline_spec ex_tc 0 ex_outer ex_cand 120 10 none rfl
    (fun _ h => by simp at h) (ex_uninline_pre none)
  have hms : (ex_cand.inlines.getD []).filter (inline_matches 120) = [ex_D0, ex_D1] := by
    decide
  rw [hms] at hspec
  obtain ⟨uc0, _, h0⟩ := hspec.new 0 ex_D0 rfl
  obtain ⟨uc1, _, h1⟩ := hspec.new 1 ex_D1 rfl
  have hcur : tc1.cur_frame = 1 := by rw [hspec.cur_frame]; rfl
  have hop : tc1.interp_cur_op = ex_D0.sf.bytecode + 10 := by rw [hspec.interp_cur_op]; rfl
  refine ⟨tc1, _, _, hok, h0, h1, rfl, rfl, ?_, rfl, rfl, hcur, hop⟩
  rintro ⟨_, _, h, _⟩
  rw [hcur] at h
  exact absurd h (by decide)

/-- C8, amended: when the offset lies in exactly the two entries D0 and D1, in
table order, uninline on the deopt_one path leaves a frame F0 for D0 and a
frame F1 for D1 with F0.caller = F1 and F1.caller = the outer frame f, and the
interpreter (cur_frame, interp_cur_op, interp_bytecode_start, interp_reg_base,
interp_cu) points at F0 and the generic bytecode of D0: the first matching
entry becomes the active frame and the last one the callee of the outer
frame. -/
theorem uninline_two_level (tc : MVMThreadContext) (f : Nat) (fr : MVMFrame)
    (cand : MVMSpeshCandidate) (offset deopt_offset : Int) (D0 D1 : MVMSpeshInline)
    (hf : tc.frames[f]? = some fr)
    (hms : (cand.inlines.getD []).filter (inline_matches offset) = [D0, D1])
    (hpre : UninlinePre fr offset none (cand.inlines.getD [])) :
    ∃ tc1 F0 F1, uninline tc f cand offset deopt_offset none = .ok tc1 ∧
      tc1.frames.length = tc.frames.length + 2 ∧
      tc1.frames[tc.frames.length]? = some F0 ∧
      tc1.frames[tc.frames.length + 1]? = some F1 ∧
      F0.static_info = D0.sf ∧ F1.static_info = D1.sf ∧
      F0.caller = some (tc.frames.length + 1) ∧ F1.caller = some f ∧
      tc1.cur_frame = tc.frames.length ∧
      tc1.interp_cur_op = D0.sf.bytecode + deopt_offset ∧
      tc1.interp_bytecode_start = D0.sf.bytecode ∧
      tc1.interp_reg_base = tc.frames.length ∧
      tc1.interp_cu = D0.sf.cu := by
  obtain ⟨tc1, hok, hspec⟩ := uninline_spec tc f fr cand offset deopt_offset none hf
    (fun _ h => by simp at h) hpre
  rw [hms] at hspec
  obtain ⟨uc0, _, h0⟩ := hspec.new 0 D0 rfl
  obtain ⟨uc1, _, h1⟩ := hspec.new 1 D1 rfl
  refine ⟨tc1, _, _, hok, hspec.len, h0, h1, rfl, rfl, rfl, rfl, ?_, ?_, ?_, ?_, ?_⟩
  · rw [hspec.cur_frame]; simp
  · rw [hspec.interp_cur_op]; rfl
  · rw [hspec.interp_bytecode_start]; rfl
  · rw [hspec.interp_reg_base]; simp
  · rw [hspec.interp_cu]; rfl

/-- Witness for C8, amended: the two-level inline scenario. -/
theorem uninline_two_level_witness :
    ∃ tc1 F0 F1, uninline ex_tc 0 ex_cand 120 10 none = .ok tc1 ∧
      tc1.frames.length = ex_tc.frames.length + 2 ∧
      tc1.frames[ex_tc.frames.length]? = some F0 ∧
      tc1.frames[ex_tc.frames.length + 1]? = some F1 ∧
      F0.static_info = ex_D0.sf ∧ F1.static_info = ex_D1.sf ∧
      F0.caller = some (ex_tc.frames.length + 1) ∧ F1.caller = some 0 ∧
      tc1.cur_frame = ex_tc.frames.length ∧
      tc1.interp_cur_op = ex_D0.sf.bytecode + 10 ∧
      tc1.interp_bytecode_start = ex_D0.sf.bytecode ∧
      tc1.interp_reg_base = ex_tc.frames.length ∧
      tc1.interp_cu = ex_D0.sf.cu :=
  uninline_two_level ex_tc 0 ex_outer ex_cand 120 10 ex_D0 ex_D1 rfl (by decide)
    (ex_uninline_pre none)

/-! ## sort_plan -/

theorem cons_set_perm {α : Type} (x : α) :
    ∀ (t : List α) (k : Nat) (b : α), t[k]? = some b → (b :: t.set k x).Perm (x :: t) := by
  intro t
  induction t with
  | nil => intro k b h; simp at h
  | cons y t ih =>
    intro k b h
    cases k with
    | zero =>
      simp only [List.getElem?_cons_zero, Option.some.injEq] at h
      subst h
      exact List.Perm.swap _ _ _
    | succ k =>
      simp only [List.getElem?_cons_succ] at h
      have h1 := ih k b h
      have s1 : (b :: (y :: t).set (k + 1) x).Perm (y :: b :: t.set k x) :=
        List.Perm.swap _ _ _
      have s2 : (y :: b :: t.set k x).Perm (y :: x :: t) := List.Perm.cons _ h1
      have s3 : (y :: x :: t).Perm (x :: y :: t) := List.Perm.swap _ _ _
      exact s1.trans (s2.trans s3)

theorem swap_perm {α : Type} :
    ∀ (l : List α) (i j : Nat) (a b : α), l[i]? = some a → l[j]? = some b →
      ((l.set i b).set j a).Perm l := by
  intro l
  induction l with
  | nil => intro i j a b h; simp at h
  | cons x t ih =>
    intro i j a b hi hj
    cases i with
    | zero =>
      simp only [List.getElem?_cons_zero, Option.some.injEq] at hi
      subst hi
      cases j with
      | zero =>
        simp only [List.getElem?_cons_zero, Option.some.injEq] at hj
        subst hj
        simp
      | succ j =>
        simp only [List.getElem?_cons_succ] at hj
        simpa using cons_set_perm x t j b hj
    | succ i =>
      simp only [List.getElem?_cons_succ] at hi
      cases j with
      | zero =>
        simp only [List.getElem?_cons_zero, Option.some.injEq] at hj
        subst hj
        simpa using cons_set_perm x t i a hi
      | succ j =>
        simp only [List.getElem?_cons_succ] at hj
        simpa using List.Perm.cons x (ih i j a b hi hj)

theorem sort_scan_up_spec (l : List MVMSpeshPlanned) (pv : Nat) :
    ∀ (left i k : Nat) (s : MVMSpeshPlanned), i + left = l.length → i ≤ k →
      l[k]? = some s → s.max_depth ≤ pv →
      ∃ i1, sort_scan_up l pv left i = some i1 ∧ i ≤ i1 ∧ i1 ≤ k ∧
        (∃ p, l[i1]? = some p ∧ p.max_depth ≤ pv) ∧
        ∀ m p, i ≤ m → m < i1 → l[m]? = some p → p.max_depth > pv := by
  intro left
  induction left with
  | zero =>
    intro i k s hlen hik hk _
    have := (List.getElem?_eq_some_iff.1 hk).1
    omega
  | succ left ih =>
    intro i k s hlen hik hk hs
    have hilt : i < l.length := by omega
    obtain ⟨p, hp⟩ : ∃ p, l[i]? = some p := ⟨_, List.getElem?_eq_getElem hilt⟩
    simp only [sort_scan_up, hp]
    by_cases hgt : p.max_depth > pv
    · have hne : i ≠ k := by
        intro e; subst e
        rw [hp] at hk; cases hk; omega
      obtain ⟨i1, h1, h2, h3, h4, h5⟩ := ih (i + 1) k s (by omega) (by omega) hk hs
      refine ⟨i1, by simp [hgt, h1], by omega, h3, h4, ?_⟩
      intro m q hm1 hm2 hq
      by_cases hmi : m = i
      · subst hmi; rw [hp] at hq; cases hq; exact hgt
      · exact h5 m q (by omega) hm2 hq
    · refine ⟨i, by simp [hgt], le_refl _, hik, ⟨p, hp, by omega⟩, ?_⟩
      intro m q hm1 hm2 _
      omega

theorem sort_scan_down_spec (l : List MVMSpeshPlanned) (pv : Nat) :
    ∀ (j k : Nat) (s : MVMSpeshPlanned), j < l.length → k ≤ j →
      l[k]? = some s → s.max_depth ≥ pv →
      ∃ j1, sort_scan_down l pv j = some j1 ∧ k ≤ j1 ∧ j1 ≤ j ∧
        (∃ p, l[j1]? = some p ∧ p.max_depth ≥ pv) ∧
        ∀ m p, j1 < m → m ≤ j → l[m]? = some p → p.max_depth < pv := by
  intro j
  induction j with
  | zero =>
    intro k s _ hk0 hk hs
    have hk0' : k = 0 := by omega
    subst hk0'
    have hnot : ¬ s.max_depth < pv := by omega
    refine ⟨0, by simp [sort_scan_down, hk, hnot], le_refl _, le_refl _, ⟨s, hk, hs⟩, ?_⟩
    intro m p h1 h2 _
    omega
  | succ j ih =>
    intro k s hlt hkj hk hs
    obtain ⟨p, hp⟩ : ∃ p, l[j + 1]? = some p := ⟨_, List.getElem?_eq_getElem hlt⟩
    simp only [sort_scan_down, hp]
    by_cases hltp : p.max_depth < pv
    · have hne : k ≠ j + 1 := by
        intro e; subst e
        rw [hp] at hk; cases hk; omega
      obtain ⟨j1, h1, h2, h3, h4, h5⟩ := ih k s (by omega) (by omega) hk hs
      refine ⟨j1, by simp [hltp, h1], h2, by omega, h4, ?_⟩
      intro m q hm1 hm2 hq
      by_cases hmj : m = j + 1
      · subst hmj; rw [hp] at hq; cases hq; exact hltp
      · exact h5 m q hm1 (by omega) hq
    · refine ⟨j + 1, by simp [hltp], hkj, le_refl _, ⟨p, hp, by omega⟩, ?_⟩
      intro m q hm1 hm2 _
      omega

theorem getElem?_swap {α : Type} (l : List α) (i j m : Nat) (a b : α)
    (hi : i < l.length) (hj : j < l.length) :
    ((l.set i b).set j a)[m]? =
      if m = j then some a else if m = i then some b else l[m]? := by
  by_cases h1 : m = j
  · subst h1
    simp [List.getElem?_set, hj]
  · have h1' : j ≠ m := fun e => h1 e.symm
    rw [List.getElem?_set_ne h1']
    by_cases h2 : m = i
    · subst h2
      simp [h1, List.getElem?_set, hi]
    · have h2' : i ≠ m := fun e => h2 e.symm
      rw [List.getElem?_set_ne h2']
      simp [h1, h2]

theorem sort_partition_spec (pv : Nat) :
    ∀ (fuel : Nat) (l : List MVMSpeshPlanned) (i j : Nat),
      j + 1 - i < 2 * fuel → j < l.length →
      (∀ m p, m < i → l[m]? = some p → p.max_depth ≥ pv) →
      (∀ m p, j < m → l[m]? = some p → p.max_depth ≤ pv) →
      (∃ k s, i ≤ k ∧ l[k]? = some s ∧ s.max_depth ≤ pv) →
      (∃ k s, k ≤ j ∧ l[k]? = some s ∧ s.max_depth ≥ pv ∧ (i = 0 → 1 ≤ k)) →
      ∃ l1 s, sort_partition pv fuel l i j = some (l1, s) ∧ l1.Perm l ∧
        1 ≤ s ∧ s < l.length ∧ i ≤ s ∧
        (∀ m p, m < s → l1[m]? = some p → p.max_depth ≥ pv) ∧
        (∀ m p, s ≤ m → l1[m]? = some p → p.max_depth ≤ pv) := by
  intro fuel
  induction fuel with
  | zero => intro l i j h; omega
  | succ fuel ih =>
    intro l i j hfuel hj hA hB hS1 hS2
    obtain ⟨k1, s1, hk1, hs1, hs1d⟩ := hS1
    obtain ⟨k2, s2, hk2, hs2, hs2d, hk2pos⟩ := hS2
    have hk1lt : k1 < l.length := (List.getElem?_eq_some_iff.1 hs1).1
    obtain ⟨i1, hup, hii1, hi1k, ⟨pi, hpi, hpid⟩, hupall⟩ :=
      sort_scan_up_spec l pv (l.length - i) i k1 s1 (by omega) hk1 hs1 hs1d
    obtain ⟨j1, hdown, hkj1, hj1j, ⟨pj, hpj, hpjd⟩, hdownall⟩ :=
      sort_scan_down_spec l pv j k2 s2 hj hk2 hs2 hs2d
    have hi1lt : i1 < l.length := (List.getElem?_eq_some_iff.1 hpi).1
    have hj1lt : j1 < l.length := (List.getElem?_eq_some_iff.1 hpj).1
    simp only [sort_partition, hup, hdown]
    by_cases hbreak : i1 ≥ j1
    · simp only [hbreak, if_true]
      refine ⟨l, i1, rfl, List.Perm.refl _, ?_, hi1lt, hii1, ?_, ?_⟩
      · by_cases hi0 : i = 0
        · have := hk2pos hi0
          omega
        · omega
      · intro m p hm hp
        by_cases hmi : m < i
        · exact hA m p hmi hp
        · have := hupall m p (by omega) hm hp
          omega
      · intro m p hm hp
        by_cases hmj : j < m
        · exact hB m p hmj hp
        · by_cases hmj1 : j1 < m
          · have := hdownall m p hmj1 (by omega) hp
            omega
          · have hme : m = i1 := by omega
            subst hme
            rw [hpi] at hp
            cases hp
            exact hpid
    · have hlt : i1 < j1 := by omega
      simp only [hbreak, if_false, hpi, hpj]
      have hget := fun m => getElem?_swap l i1 j1 m pi pj hi1lt hj1lt
      obtain ⟨l1, s, hrec, hperm, hs1', hslt, his, hleft, hright⟩ :=
        ih ((l.set i1 pj).set j1 pi) (i1 + 1) (j1 - 1) (by omega) (by simp; omega)
          (by
            intro m p hm hp
            rw [hget m] at hp
            by_cases hmj1 : m = j1
            · omega
            · by_cases hmi1 : m = i1
              · subst hmi1
                simp only [hmj1, if_false, if_true, Option.some.injEq] at hp
                subst hp; exact hpjd
              · simp only [hmj1, hmi1, if_false] at hp
                by_cases hmi : m < i
                · exact hA m p hmi hp
                · have := hupall m p (by omega) (by omega) hp
                  omega)
          (by
            intro m p hm hp
            rw [hget m] at hp
            by_cases hmj1 : m = j1
            · subst hmj1
              simp only [if_true, Option.some.injEq] at hp
              subst hp; exact hpid
            · have hmi1 : ¬ m = i1 := by omega
              simp only [hmj1, hmi1, if_false] at hp
              by_cases hmj : j < m
              · exact hB m p hmj hp
              · have := hdownall m p (by omega) (by omega) hp
                omega)
          ⟨j1, pi, by omega, by rw [hget j1]; simp, hpid⟩
          ⟨i1, pj, by omega, by
            rw [hget i1]
            have : ¬ i1 = j1 := by omega
            simp [this], hpjd, by omega⟩
      refine ⟨l1, s, hrec, hperm.trans (swap_perm l i1 j1 pi pj hpi hpj), hs1', ?_, by omega,
        hleft, hright⟩
      simpa using hslt

theorem sort_plan_rec_spec :
    ∀ (fuel : Nat) (l : List MVMSpeshPlanned), l.length < fuel →
      ∃ r, sort_plan_rec fuel l = some r ∧ r.Perm l ∧ DepthSorted r := by
  intro fuel
  induction fuel with
  | zero => intro l h; omega
  | succ fuel ih =>
    intro l hlen
    by_cases h2 : l.length ≥ 2
    · have hmid : l.length / 2 < l.length := by omega
      obtain ⟨pivot, hpivot⟩ : ∃ pivot, l[l.length / 2]? = some pivot :=
        ⟨_, List.getElem?_eq_getElem hmid⟩
      obtain ⟨l1, s, hpart, hperm, hs1, hslt, _, hleft, hright⟩ :=
        sort_partition_spec pivot.max_depth l.length l 0 (l.length - 1) (by omega) (by omega)
          (by intro m p hm; omega)
          (by
            intro m p hm hp
            have := (List.getElem?_eq_some_iff.1 hp).1
            omega)
          ⟨l.length / 2, pivot, by omega, hpivot, le_refl _⟩
          ⟨l.length / 2, pivot, by omega, hpivot, le_refl _, by omega⟩
      have hl1 : l1.length = l.length := hperm.length_eq
      obtain ⟨front, hfront, hfperm, hfsorted⟩ := ih (l1.take s) (by simp; omega)
      obtain ⟨back, hback, hbperm, hbsorted⟩ := ih (l1.drop s) (by simp; omega)
      refine ⟨front ++ back, ?_, ?_, ?_⟩
      · simp only [sort_plan_rec, h2, if_true, hpivot, hpart, hfront, hback]
      · have := (hfperm.append hbperm)
        rw [List.take_append_drop] at this
        exact this.trans hperm
      · unfold DepthSorted
        rw [List.pairwise_append]
        refine ⟨hfsorted, hbsorted, ?_⟩
        intro a ha b hb
        have ha' : a ∈ l1.take s := hfperm.mem_iff.1 ha
        have hb' : b ∈ l1.drop s := hbperm.mem_iff.1 hb
        obtain ⟨m, hm⟩ := List.mem_iff_getElem?.1 ha'
        obtain ⟨n, hn⟩ := List.mem_iff_getElem?.1 hb'
        have hmlt : m < s := by
          have := (List.getElem?_eq_some_iff.1 hm).1
          simp at this
          omega
        rw [List.getElem?_take_of_lt hmlt] at hm
        rw [List.getElem?_drop] at hn
        have h1 := hleft m a hmlt hm
        have h2 := hright (s + n) b (by omega) hn
        show a.max_depth ≥ b.max_depth
        omega
    · refine ⟨l, by simp [sort_plan_rec, h2], List.Perm.refl _, ?_⟩
      unfold DepthSorted
      match l, h2 with
      | [], _ => exact List.Pairwise.nil
      | [a], _ => exact List.pairwise_singleton _ _
      | a :: b :: t, h => simp at h

theorem sort_plan_spec (planned : List MVMSpeshPlanned) :
    ∃ r, sort_plan planned = some r ∧ r.Perm planned ∧ DepthSorted r :=
  sort_plan_rec_spec (planned.length + 1) planned (by omega)

theorem foldl_filter_ite {α β : Type} (c : α → Bool) (g : β → α → β) :
    ∀ (l : List α) (init : β),
      l.foldl (fun st x => if c x = true then g st x else st) init = (l.filter c).foldl g init := by
  intro l
  induction l with
  | nil => intro init; rfl
  | cons x t ih =>
    intro init
    by_cases hc : c x = true
    · simp [List.filter_cons, hc, ih]
    · simp [List.filter_cons, hc, ih]

/-- One iteration of the loop of plan_for_cs for a type tuple that is hot. -/
theorem plan_for_cs_iter_eq (cfg : SpeshConfig) (sf : MVMStaticFrame)
    (by_cs : MVMSpeshStatsByCallsite) (st : PlanForCs) (bt : MVMSpeshStatsByType) :
    plan_for_cs_iter cfg sf by_cs st bt =
      if tt_hot cfg by_cs bt = true then
        { plan := submit_observed cfg sf by_cs st.plan bt
          observed_specialization := st.observed_specialization + 1
          osr_specialization :=
            if hit_percent by_cs bt < cfg.MVM_SPESH_PLAN_TT_OBS_PERCENT then
              st.osr_specialization + 1
            else st.osr_specialization
          unaccounted_hits := toUInt32 ((st.unaccounted_hits : Int) - bt.hits)
          unaccounted_osr_hits := toUInt32 ((st.unaccounted_osr_hits : Int) - bt.osr_hits) }
      else st := by
  unfold plan_for_cs_iter tt_hot submit_observed
  cases hcs : by_cs.cs with
  | none => simp
  | some cs =>
    by_cases h : hit_percent by_cs bt ≥ cfg.MVM_SPESH_PLAN_TT_OBS_PERCENT ∨
        osr_hit_percent by_cs bt ≥ cfg.MVM_SPESH_PLAN_TT_OBS_PERCENT_OSR
    · simp [h]
    · simp [h]

theorem foldl_hot_spec (cfg : SpeshConfig) (sf : MVMStaticFrame)
    (by_cs : MVMSpeshStatsByCallsite) :
    ∀ (hot : List MVMSpeshStatsByType) (st : PlanForCs),
      hot.foldl (fun st bt =>
        ({ plan := submit_observed cfg sf by_cs st.plan bt
           observed_specialization := st.observed_specialization + 1
           osr_specialization :=
             if hit_percent by_cs bt < cfg.MVM_SPESH_PLAN_TT_OBS_PERCENT then
               st.osr_specialization + 1
             else st.osr_specialization
           unaccounted_hits := toUInt32 ((st.unaccounted_hits : Int) - bt.hits)
           unaccounted_osr_hits :=
             toUInt32 ((st.unaccounted_osr_hits : Int) - bt.osr_hits) } : PlanForCs)) st =
      { plan := hot.foldl (submit_observed cfg sf by_cs) st.plan
        observed_specialization := st.observed_specialization + hot.length
        osr_specialization := st.osr_specialization +
          hot.countP (fun bt => decide (hit_percent by_cs bt < cfg.MVM_SPESH_PLAN_TT_OBS_PERCENT))
        unaccounted_hits := unaccounted_after st.unaccounted_hits (hot.map (·.hits))
        unaccounted_osr_hits :=
          unaccounted_after st.unaccounted_osr_hits (hot.map (·.osr_hits)) } := by
  intro hot
  induction hot with
  | nil => intro st; simp [unaccounted_after]
  | cons bt t ih =>
    intro st
    rw [List.foldl_cons, ih]
    by_cases h : hit_percent by_cs bt < cfg.MVM_SPESH_PLAN_TT_OBS_PERCENT
    · simp [unaccounted_after, h, List.countP_cons]
      omega
    · simp [unaccounted_after, h, List.countP_cons]
      omega

theorem plan_for_cs_types_spec (cfg : SpeshConfig) (plan : MVMSpeshPlan) (sf : MVMStaticFrame)
    (by_cs : MVMSpeshStatsByCallsite) :
    plan_for_cs_types cfg plan sf by_cs =
      { plan := (hot_types cfg sf by_cs).foldl (submit_observed cfg sf by_cs) plan
        observed_specialization := (hot_types cfg sf by_cs).length
        osr_specialization := (hot_types cfg sf by_cs).countP
          (fun bt => decide (hit_percent by_cs bt < cfg.MVM_SPESH_PLAN_TT_OBS_PERCENT))
        unaccounted_hits := unaccounted_after by_cs.hits ((hot_types cfg sf by_cs).map (·.hits))
        unaccounted_osr_hits :=
          unaccounted_after by_cs.osr_hits ((hot_types cfg sf by_cs).map (·.osr_hits)) } := by
  unfold plan_for_cs_types hot_types
  by_cases hs : sf.specializable = true
  · have hfun : plan_for_cs_iter cfg sf by_cs = fun st bt =>
        if tt_hot cfg by_cs bt = true then
          ({ plan := submit_observed cfg sf by_cs st.plan bt
             observed_specialization := st.observed_specialization + 1
             osr_specialization :=
               if hit_percent by_cs bt < cfg.MVM_SPESH_PLAN_TT_OBS_PERCENT then
                 st.osr_specialization + 1
               else st.osr_specialization
             unaccounted_hits := toUInt32 ((st.unaccounted_hits : Int) - bt.hits)
             unaccounted_osr_hits :=
               toUInt32 ((st.unaccounted_osr_hits : Int) - bt.osr_hits) } : PlanForCs)
        else st := by
      funext st bt
      exact plan_for_cs_iter_eq cfg sf by_cs st bt
    simp only [hs, if_true, true_and, hfun]
    rw [foldl_filter_ite (tt_hot cfg by_cs), foldl_hot_spec]
    cases hcs : by_cs.cs with
    | none =>
      have : by_cs.by_type.filter (tt_hot cfg by_cs) = [] := by
        simp [tt_hot, hcs]
      simp [this, unaccounted_after]
    | some cs =>
      have : tt_hot cfg by_cs = fun bt =>
          decide (hit_percent by_cs bt ≥ cfg.MVM_SPESH_PLAN_TT_OBS_PERCENT) ||
            decide (osr_hit_percent by_cs bt ≥ cfg.MVM_SPESH_PLAN_TT_OBS_PERCENT_OSR) := by
        funext bt; simp [tt_hot, hcs]
      simp [this]
  · simp [hs, unaccounted_after]

/-- The planner admission scenario: 1000 hits at the callsite, one type tuple
with 900 of them, 75 percent needed. One observed-types specialization is
planned and no certain one; observed = 1 and certain = 0. -/
theorem plan_for_cs_scenario :
    (plan_for_cs ex_cfg { planned := [] } (ex_plan_sf 1 [])
        (ex_by_cs (some ex_cs) 1000 [ex_bucket 900 2 []]) ex_out).1.planned.map (·.kind) =
      [.MVM_SPESH_PLANNED_OBSERVED_TYPES] ∧
    (plan_for_cs ex_cfg { planned := [] } (ex_plan_sf 1 [])
        (ex_by_cs (some ex_cs) 1000 [ex_bucket 900 2 []]) ex_out).2 =
      { in_certain_specialization := some 0
        in_observed_specialization := some 1
        in_osr_specialization := some 0 } := by
  decide

/-- C9, as stated, fails: with a NULL callsite pointer the bucket with 90
percent of the hits (75 needed) on a specializable frame gets no observed-types
specialization, and the observed counter is 0. -/
theorem plan_for_cs_observed_counterexample :
    (ex_plan_sf 1 []).specializable = true ∧
    hit_percent (ex_by_cs none 1000 [ex_bucket 900 2 []]) (ex_bucket 900 2 []) ≥
      ex_cfg.MVM_SPESH_PLAN_TT_OBS_PERCENT ∧
    (plan_for_cs ex_cfg { planned := [] } (ex_plan_sf 1 [])
        (ex_by_cs none 1000 [ex_bucket 900 2 []]) ex_out).2.in_observed_specialization =
      some 0 ∧
    (plan_for_cs ex_cfg { planned := [] } (ex_plan_sf 1 [])
        (ex_by_cs none 1000 [ex_bucket 900 2 []]) ex_out).1.planned.map (·.kind) =
      [.MVM_SPESH_PLANNED_CERTAIN] := by
  decide

/-- C9, amended: on a specializable frame whose callsite pointer is not NULL,
plan_for_cs calls add_planned for an observed-types specialization (with a copy
of the type tuple of the bucket and that bucket as only evidence) for exactly
the buckets with hit_percent >= TT_OBS_PERCENT or osr_hit_percent >=
TT_OBS_PERCENT_OSR, in bucket order, then at most once for a certain
specialization, and the observed counter is the number of those buckets; on a
frame that is not specializable, or with a NULL callsite pointer, it plans no
observed-types specialization and the observed counter is 0. -/
theorem plan_for_cs_observed (cfg : SpeshConfig) (plan : MVMSpeshPlan) (sf : MVMStaticFrame)
    (by_cs : MVMSpeshStatsByCallsite) (out : SpecializationCounters) :
    ∃ hot : List MVMSpeshStatsByType,
      hot = (if sf.specializable = true ∧ by_cs.cs.isSome = true then
          by_cs.by_type.filter fun bt =>
            decide (hit_percent by_cs bt ≥ cfg.MVM_SPESH_PLAN_TT_OBS_PERCENT) ||
              decide (osr_hit_percent by_cs bt ≥ cfg.MVM_SPESH_PLAN_TT_OBS_PERCENT_OSR)
        else []) ∧
      (plan_for_cs_types cfg plan sf by_cs).plan =
        hot.foldl (fun pl bt =>
          add_planned cfg pl .MVM_SPESH_PLANNED_OBSERVED_TYPES sf by_cs
            (by_cs.cs.map fun cs => copy_type_tuple cs bt.arg_types) [bt]) plan ∧
      ((plan_for_cs cfg plan sf by_cs out).1 = (plan_for_cs_types cfg plan sf by_cs).plan ∨
        (plan_for_cs cfg plan sf by_cs out).1 =
          add_planned cfg (plan_for_cs_types cfg plan sf by_cs).plan
            .MVM_SPESH_PLANNED_CERTAIN sf by_cs none []) ∧
      (plan_for_cs cfg plan sf by_cs out).2.in_observed_specialization =
        out.in_observed_specialization.map fun _ => hot.length := by
  refine ⟨hot_types cfg sf by_cs, rfl, ?_, ?_, ?_⟩
  · rw [plan_for_cs_types_spec]
    rfl
  · unfold plan_for_cs
    simp only
    split
    · exact Or.inr rfl
    · exact Or.inl rfl
  · unfold plan_for_cs
    simp only [plan_for_cs_types_spec]
    cases out.in_observed_specialization <;> rfl

theorem toUInt32_sub_of_le (a b : Nat) (hb : b ≤ a) (ha : a < 4294967296) :
    toUInt32 ((a : Int) - b) = a - b := by
  unfold toUInt32
  omega

theorem unaccounted_after_of_le :
    ∀ (hits : List Nat) (total : Nat), total < 4294967296 → hits.sum ≤ total →
      unaccounted_after total hits = total - hits.sum := by
  intro hits
  induction hits with
  | nil => intro total _ _; simp [unaccounted_after]
  | cons h t ih =>
    intro total ht hs
    simp only [List.sum_cons] at hs
    have h1 : toUInt32 ((total : Int) - h) = total - h :=
      toUInt32_sub_of_le total h (by omega) ht
    have h2 := ih (total - h) (by omega) (by omega)
    show unaccounted_after (toUInt32 ((total : Int) - h)) t = total - (h :: t).sum
    rw [h1, h2, List.sum_cons]
    omega

/-- C10, as stated, fails: with a hot threshold of 0 and no unaccounted hits
left (900 hits at the callsite, all in the one hot type tuple, and no OSR
hits), unaccounted_hits >= threshold(sf) holds, but no certain specialization
is planned and the certain counter is 0. -/
theorem plan_for_cs_certain_counterexample :
    (plan_for_cs_types ex_cfg_zero { planned := [] } (ex_plan_sf 1 [])
        (ex_by_cs (some ex_cs) 900 [ex_bucket 900 2 []])).unaccounted_hits ≥
      ex_cfg_zero.MVM_spesh_threshold (ex_plan_sf 1 []) ∧
    (plan_for_cs ex_cfg_zero { planned := [] } (ex_plan_sf 1 [])
        (ex_by_cs (some ex_cs) 900 [ex_bucket 900 2 []]) ex_out).2.in_certain_specialization =
      some 0 ∧
    (plan_for_cs ex_cfg_zero { planned := [] } (ex_plan_sf 1 [])
        (ex_by_cs (some ex_cs) 900 [ex_bucket 900 2 []]) ex_out).1.planned.map (·.kind) =
      [.MVM_SPESH_PLANNED_OBSERVED_TYPES] := by
  decide

/-- C10, amended: let unaccounted_hits and unaccounted_osr_hits be the totals of
the callsite minus, in 32-bit unsigned arithmetic, the hits and osr_hits of
every bucket that got an observed-types specialization (the plain difference
when the totals are 32-bit values and the buckets sum to at most the totals).
plan_for_cs calls add_planned for a certain specialization (type_tuple NULL, no
evidence) and reports certain = 1 if and only if (unaccounted_hits is not 0
and unaccounted_hits >= threshold(sf)) or unaccounted_osr_hits >= MIN_OSR_CS;
otherwise it makes no such call and reports certain = 0. -/
theorem plan_for_cs_certain (cfg : SpeshConfig) (plan : MVMSpeshPlan) (sf : MVMStaticFrame)
    (by_cs : MVMSpeshStatsByCallsite) (out : SpecializationCounters) :
    ∃ (hot : List MVMSpeshStatsByType) (unaccounted_hits unaccounted_osr_hits : Nat),
      hot = (if sf.specializable = true ∧ by_cs.cs.isSome = true then
          by_cs.by_type.filter fun bt =>
            decide (hit_percent by_cs bt ≥ cfg.MVM_SPESH_PLAN_TT_OBS_PERCENT) ||
              decide (osr_hit_percent by_cs bt ≥ cfg.MVM_SPESH_PLAN_TT_OBS_PERCENT_OSR)
        else []) ∧
      unaccounted_hits =
        (hot.map (·.hits)).foldl (fun u h => toUInt32 ((u : Int) - h)) by_cs.hits ∧
      unaccounted_osr_hits =
        (hot.map (·.osr_hits)).foldl (fun u h => toUInt32 ((u : Int) - h)) by_cs.osr_hits ∧
      (by_cs.hits < 4294967296 → (hot.map (·.hits)).sum ≤ by_cs.hits →
        unaccounted_hits = by_cs.hits - (hot.map (·.hits)).sum) ∧
      (by_cs.osr_hits < 4294967296 → (hot.map (·.osr_hits)).sum ≤ by_cs.osr_hits →
        unaccounted_osr_hits = by_cs.osr_hits - (hot.map (·.osr_hits)).sum) ∧
      (if (unaccounted_hits ≠ 0 ∧ unaccounted_hits ≥ cfg.MVM_spesh_threshold sf) ∨
          unaccounted_osr_hits ≥ cfg.MVM_SPESH_PLAN_CS_MIN_OSR then
        (plan_for_cs cfg plan sf by_cs out).1 =
          add_planned cfg (plan_for_cs_types cfg plan sf by_cs).plan
            .MVM_SPESH_PLANNED_CERTAIN sf by_cs none [] ∧
        (plan_for_cs cfg plan sf by_cs out).2.in_certain_specialization =
          out.in_certain_specialization.map fun _ => 1
      else
        (plan_for_cs cfg plan sf by_cs out).1 = (plan_for_cs_types cfg plan sf by_cs).plan ∧
        (plan_for_cs cfg plan sf by_cs out).2.in_certain_specialization =
          out.in_certain_specialization.map fun _ => 0) := by
  refine ⟨hot_types cfg sf by_cs, _, _, rfl, rfl, rfl, ?_, ?_, ?_⟩
  · intro h1 h2
    exact unaccounted_after_of_le _ _ h1 h2
  · intro h1 h2
    exact unaccounted_after_of_le _ _ h1 h2
  · have hspec := plan_for_cs_types_spec cfg plan sf by_cs
    have hu : (plan_for_cs_types cfg plan sf by_cs).unaccounted_hits =
        ((hot_types cfg sf by_cs).map (·.hits)).foldl
          (fun u h => toUInt32 ((u : Int) - h)) by_cs.hits := by
      rw [hspec]; rfl
    have ho : (plan_for_cs_types cfg plan sf by_cs).unaccounted_osr_hits =
        ((hot_types cfg sf by_cs).map (·.osr_hits)).foldl
          (fun u h => toUInt32 ((u : Int) - h)) by_cs.osr_hits := by
      rw [hspec]; rfl
    rw [← hu, ← ho]
    unfold plan_for_cs
    simp only
    split
    · refine ⟨rfl, ?_⟩
      cases out.in_certain_specialization <;> rfl
    · refine ⟨rfl, ?_⟩
      cases out.in_certain_specialization <;> rfl

/-! ## add_planned and plan_for_sf: what is appended does not depend on the plan -/

theorem add_planned_append (cfg : SpeshConfig) (plan : MVMSpeshPlan) (kind : MVMSpeshPlannedKind)
    (sf : MVMStaticFrame) (cs_stats : MVMSpeshStatsByCallsite)
    (type_tuple : Option (List MVMSpeshStatsType)) (type_stats : List MVMSpeshStatsByType) :
    (add_planned cfg plan kind sf cs_stats type_tuple type_stats).planned =
      plan.planned ++
        (add_planned cfg { planned := [] } kind sf cs_stats type_tuple type_stats).planned := by
  unfold add_planned
  split <;> simp

theorem submit_observed_fold_append (cfg : SpeshConfig) (sf : MVMStaticFrame)
    (by_cs : MVMSpeshStatsByCallsite) :
    ∀ (hot : List MVMSpeshStatsByType) (plan : MVMSpeshPlan),
      (hot.foldl (submit_observed cfg sf by_cs) plan).planned =
        plan.planned ++ (hot.foldl (submit_observed cfg sf by_cs) { planned := [] }).planned := by
  intro hot
  induction hot with
  | nil => intro plan; simp
  | cons bt t ih =>
    intro plan
    rw [List.foldl_cons, List.foldl_cons, ih (submit_observed cfg sf by_cs plan bt),
      ih (submit_observed cfg sf by_cs { planned := [] } bt)]
    unfold submit_observed
    rw [add_planned_append, List.append_assoc]

theorem plan_for_cs_append (cfg : SpeshConfig) (plan : MVMSpeshPlan) (sf : MVMStaticFrame)
    (by_cs : MVMSpeshStatsByCallsite) (out out1 : SpecializationCounters) :
    (plan_for_cs cfg plan sf by_cs out).1.planned =
      plan.planned ++ (plan_for_cs cfg { planned := [] } sf by_cs out1).1.planned := by
  unfold plan_for_cs
  simp only [plan_for_cs_types_spec]
  split
  · rw [add_planned_append, submit_observed_fold_append, List.append_assoc,
      ← add_planned_append]
  · rw [submit_observed_fold_append]

theorem plan_for_sf_fold_append (cfg : SpeshConfig) (sf : MVMStaticFrame) :
    ∀ (l : List MVMSpeshStatsByCallsite) (plan : MVMSpeshPlan)
      (out out1 : SpecializationCounters),
      (l.foldl (fun acc by_cs =>
          if by_cs.hits ≥ cfg.MVM_spesh_threshold sf ∨
              by_cs.osr_hits ≥ cfg.MVM_SPESH_PLAN_CS_MIN_OSR then
            plan_for_cs cfg acc.1 sf by_cs acc.2
          else acc) (plan, out)).1.planned =
        plan.planned ++
          (l.foldl (fun acc by_cs =>
            if by_cs.hits ≥ cfg.MVM_spesh_threshold sf ∨
                by_cs.osr_hits ≥ cfg.MVM_SPESH_PLAN_CS_MIN_OSR then
              plan_for_cs cfg acc.1 sf by_cs acc.2
            else acc) ({ planned := [] }, out1)).1.planned := by
  intro l
  induction l with
  | nil => intro plan out out1; simp
  | cons by_cs t ih =>
    intro plan out out1
    simp only [List.foldl_cons]
    by_cases h : by_cs.hits ≥ cfg.MVM_spesh_threshold sf ∨
        by_cs.osr_hits ≥ cfg.MVM_SPESH_PLAN_CS_MIN_OSR
    · simp only [h, if_true]
      rw [ih (plan_for_cs cfg plan sf by_cs out).1 (plan_for_cs cfg plan sf by_cs out).2 out1,
        ih (plan_for_cs cfg { planned := [] } sf by_cs out1).1
          (plan_for_cs cfg { planned := [] } sf by_cs out1).2 out1,
        plan_for_cs_append cfg plan sf by_cs out out1, List.append_assoc]
    · simp only [h, if_false]
      exact ih plan out out1

theorem plan_for_sf_append (cfg : SpeshConfig) (plan : MVMSpeshPlan) (sf : MVMStaticFrame)
    (out out1 : SpecializationCounters) :
    (plan_for_sf cfg plan sf out).1.planned =
      plan.planned ++ (plan_for_sf cfg { planned := [] } sf out1).1.planned := by
  unfold plan_for_sf
  simp only
  split
  · exact plan_for_sf_fold_append cfg sf _ plan out out1
  · simp

/-- C4, as stated, fails: no arg guard exists, and a static frame has one hot
callsite with one hot type tuple. The first run of plan_for_sf on the empty plan
gives a plan of one record, the second run on that plan gives a plan of two
records, and the two records are identical. -/
theorem plan_for_sf_twice_counterexample :
    (plan_for_sf ex_cfg { planned := [] }
      (ex_plan_sf 1 [ex_by_cs (some ex_cs) 1000 [ex_bucket 900 2 []]]) ex_out).1.planned.length
      = 1 ∧
    (plan_for_sf ex_cfg
      (plan_for_sf ex_cfg { planned := [] }
        (ex_plan_sf 1 [ex_by_cs (some ex_cs) 1000 [ex_bucket 900 2 []]]) ex_out).1
      (ex_plan_sf 1 [ex_by_cs (some ex_cs) 1000 [ex_bucket 900 2 []]])
      ex_out).1.planned.length = 2 ∧
    (plan_for_sf ex_cfg
      (plan_for_sf ex_cfg { planned := [] }
        (ex_plan_sf 1 [ex_by_cs (some ex_cs) 1000 [ex_bucket 900 2 []]]) ex_out).1
      (ex_plan_sf 1 [ex_by_cs (some ex_cs) 1000 [ex_bucket 900 2 []]])
      ex_out).1.planned[0]? =
    (plan_for_sf ex_cfg
      (plan_for_sf ex_cfg { planned := [] }
        (ex_plan_sf 1 [ex_by_cs (some ex_cs) 1000 [ex_bucket 900 2 []]]) ex_out).1
      (ex_plan_sf 1 [ex_by_cs (some ex_cs) 1000 [ex_bucket 900 2 []]])
      ex_out).1.planned[1]? := by
  refine ⟨by decide, by decide, by decide⟩

/-- C4, amended: add_planned decides from the bytecode size of the static frame
and the arg-guard tree alone, not from the records that the plan already holds:
the records it appends to a plan are those it appends to the empty plan. The
same holds for plan_for_sf, so running plan_for_sf twice in succession on the
same plan with identical statistics appends the same records twice: the plan
after the second run is the plan after the first run followed by the records
that the first run added, and its length is the length after the first run plus
the number of records that the first run added. -/
theorem plan_for_sf_twice (cfg : SpeshConfig) (plan : MVMSpeshPlan) (sf : MVMStaticFrame)
    (out out1 : SpecializationCounters) (kind : MVMSpeshPlannedKind)
    (cs_stats : MVMSpeshStatsByCallsite) (type_tuple : Option (List MVMSpeshStatsType))
    (type_stats : List MVMSpeshStatsByType) :
    (add_planned cfg plan kind sf cs_stats type_tuple type_stats).planned =
      plan.planned ++
        (add_planned cfg { planned := [] } kind sf cs_stats type_tuple type_stats).planned ∧
    (plan_for_sf cfg (plan_for_sf cfg plan sf out).1 sf out1).1.planned =
      (plan_for_sf cfg plan sf out).1.planned ++
        (plan_for_sf cfg plan sf out).1.planned.drop plan.planned.length ∧
    (plan_for_sf cfg (plan_for_sf cfg plan sf out).1 sf out1).1.planned.length =
      (plan_for_sf cfg plan sf out).1.planned.length +
        ((plan_for_sf cfg plan sf out).1.planned.length - plan.planned.length) := by
  have h1 := plan_for_sf_append cfg plan sf out out
  have h2 := plan_for_sf_append cfg (plan_for_sf cfg plan sf out).1 sf out1 out
  have hdrop : (plan_for_sf cfg plan sf out).1.planned.drop plan.planned.length =
      (plan_for_sf cfg { planned := [] } sf out).1.planned := by
    rw [h1]; simp
  refine ⟨add_planned_append cfg plan kind sf cs_stats type_tuple type_stats, ?_, ?_⟩
  · rw [hdrop]; exact h2
  · have hlen := congrArg List.length h1
    have hlen2 := congrArg List.length h2
    simp only [List.length_append] at hlen hlen2
    omega

/-! ## twiddle_stack_depths -/

theorem foldl_flatMap {α β γ : Type} (f : α → List β) (g : γ → β → γ) :
    ∀ (l : List α) (init : γ),
      (l.flatMap f).foldl g init = l.foldl (fun acc x => (f x).foldl g acc) init := by
  intro l
  induction l with
  | nil => intro init; rfl
  | cons x t ih => intro init; simp [List.flatMap_cons, List.foldl_append, ih]

theorem twiddle_planned_eq (planned : List MVMSpeshPlanned) (i : Nat) :
    twiddle_planned planned i =
      match planned[i]? with
      | none => planned
      | some p => (invoked_sfs p).foldl (fun pl t => twiddle_invoke i t pl) planned := by
  unfold twiddle_planned invoked_sfs
  cases planned[i]? with
  | none => rfl
  | some p =>
    simp only [foldl_flatMap, List.foldl_map]

theorem planned_shape_eq {q q1 : MVMSpeshPlanned} (h : planned_shape q1 = planned_shape q) :
    q1.sf = q.sf ∧ q1.type_stats = q.type_stats ∧ invoked_sfs q1 = invoked_sfs q := by
  have h1 : (planned_shape q1).sf = (planned_shape q).sf := by rw [h]
  have h2 : (planned_shape q1).type_stats = (planned_shape q).type_stats := by rw [h]
  have h3 : q1.type_stats = q.type_stats := h2
  exact ⟨h1, h3, by unfold invoked_sfs; rw [h3]⟩

/-- The first k steps of the loop over m of twiddle_stack_depths, for an invoke
of the static frame at address t recorded in planned[i]. -/
theorem twiddle_invoke_steps (i t : Nat) (pl : List MVMSpeshPlanned) :
    ∀ k, k ≤ pl.length →
      ((List.range k).foldl
        (fun pl m =>
          match pl[m]?, pl[i]? with
          | some q, some p =>
            if q.sf.addr = t then
              pl.set m { q with max_depth := toUInt32 ((p.max_depth : Int) + 1) }
            else pl
          | _, _ => pl) pl).length = pl.length ∧
      ∀ x q, pl[x]? = some q →
        ∃ q1, ((List.range k).foldl
          (fun pl m =>
            match pl[m]?, pl[i]? with
            | some q, some p =>
              if q.sf.addr = t then
              pl.set m { q with max_depth := toUInt32 ((p.max_depth : Int) + 1) }
            else pl
            | _, _ => pl) pl)[x]? = some q1 ∧
          planned_shape q1 = planned_shape q ∧
          (q.sf.addr ≠ t → q1 = q) ∧ (k ≤ x → q1 = q) ∧
          (∀ p, pl[i]? = some p → p.sf.addr ≠ t → x < k → q.sf.addr = t →
            q1.max_depth = toUInt32 ((p.max_depth : Int) + 1)) := by
  intro k
  induction k with
  | zero =>
    intro _
    refine ⟨rfl, fun x q hq => ⟨q, hq, rfl, fun _ => rfl, fun _ => rfl, ?_⟩⟩
    intro p _ _ hx; omega
  | succ k ih =>
    intro hk
    obtain ⟨hlen, hall⟩ := ih (by omega)
    rw [List.range_succ, List.foldl_append]
    simp only [List.foldl_cons, List.foldl_nil]
    generalize hF : (List.range k).foldl
        (fun pl m =>
          match pl[m]?, pl[i]? with
          | some q, some p =>
            if q.sf.addr = t then
              pl.set m { q with max_depth := toUInt32 ((p.max_depth : Int) + 1) }
            else pl
          | _, _ => pl) pl = F at hlen hall
    have hklt : k < pl.length := by omega
    obtain ⟨qk, hqk⟩ : ∃ qk, pl[k]? = some qk := ⟨_, List.getElem?_eq_getElem hklt⟩
    obtain ⟨qk1, hFk, _, _, hkeq, _⟩ := hall k qk hqk
    have hqk1 : qk1 = qk := hkeq (le_refl _)
    subst hqk1
    cases hFi : F[i]? with
    | none =>
      simp only [hFk, hFi]
      refine ⟨hlen, fun x q hq => ?_⟩
      obtain ⟨q1, h1, h2, h3, h4, h5⟩ := hall x q hq
      refine ⟨q1, h1, h2, h3, fun hx => h4 (by omega), ?_⟩
      intro p hp hne hx ht
      have hilt : i < pl.length := (List.getElem?_eq_some_iff.1 hp).1
      have : i < F.length := by omega
      rw [List.getElem?_eq_getElem this] at hFi
      cases hFi
    | some pi =>
      simp only [hFk, hFi]
      by_cases htk : qk1.sf.addr = t
      · simp only [htk, if_true]
        refine ⟨by simpa using hlen, fun x q hq => ?_⟩
        obtain ⟨q1, h1, h2, h3, h4, h5⟩ := hall x q hq
        by_cases hxk : x = k
        · subst hxk
          rw [hqk] at hq
          cases hq
          have hxF : x < F.length := by omega
          refine ⟨{ qk1 with max_depth := toUInt32 ((pi.max_depth : Int) + 1) }, ?_, rfl, ?_, ?_,
            ?_⟩
          · simp [List.getElem?_set, hxF]
          · intro hne; exact absurd htk hne
          · intro hx; omega
          · intro p hp hne _ _
            obtain ⟨p1, hp1, _, hp3, _, _⟩ := hall i p hp
            have := hp3 hne
            subst this
            rw [hFi] at hp1
            cases hp1
            rfl
        · have hne : k ≠ x := fun e => hxk e.symm
          refine ⟨q1, by rw [List.getElem?_set_ne hne]; exact h1, h2, h3,
            fun hx => h4 (by omega), ?_⟩
          intro p hp hpne hx ht
          exact h5 p hp hpne (by omega) ht
      · simp only [htk, if_false]
        refine ⟨hlen, fun x q hq => ?_⟩
        obtain ⟨q1, h1, h2, h3, h4, h5⟩ := hall x q hq
        refine ⟨q1, h1, h2, h3, fun hx => h4 (by omega), ?_⟩
        intro p hp hpne hx ht
        by_cases hxk : x = k
        · subst hxk
          rw [hqk] at hq
          cases hq
          exact absurd ht htk
        · exact h5 p hp hpne (by omega) ht

theorem twiddle_invoke_spec (i t : Nat) (pl : List MVMSpeshPlanned) :
    (twiddle_invoke i t pl).length = pl.length ∧
    ∀ (x : Nat) (q : MVMSpeshPlanned), pl[x]? = some q →
      ∃ q1, (twiddle_invoke i t pl)[x]? = some q1 ∧
        planned_shape q1 = planned_shape q ∧
        (q.sf.addr ≠ t → q1 = q) ∧
        (∀ p, pl[i]? = some p → p.sf.addr ≠ t → q.sf.addr = t →
          q1.max_depth = toUInt32 ((p.max_depth : Int) + 1)) := by
  obtain ⟨h1, h2⟩ := twiddle_invoke_steps i t pl pl.length (le_refl _)
  refine ⟨h1, fun x q hq => ?_⟩
  obtain ⟨q1, a, b, c, _, e⟩ := h2 x q hq
  exact ⟨q1, a, b, c, fun p hp hne ht => e p hp hne (List.getElem?_eq_some_iff.1 hq).1 ht⟩

theorem twiddle_events_general (i : Nat) :
    ∀ (E : List Nat) (pl : List MVMSpeshPlanned),
      (E.foldl (fun pl t => twiddle_invoke i t pl) pl).length = pl.length ∧
      ∀ (x : Nat) (q : MVMSpeshPlanned), pl[x]? = some q →
        ∃ q1, (E.foldl (fun pl t => twiddle_invoke i t pl) pl)[x]? = some q1 ∧
          planned_shape q1 = planned_shape q ∧ (q.sf.addr ∉ E → q1 = q) := by
  intro E
  induction E with
  | nil => intro pl; exact ⟨rfl, fun x q hq => ⟨q, hq, rfl, fun _ => rfl⟩⟩
  | cons e E ih =>
    intro pl
    obtain ⟨hlen1, hall1⟩ := twiddle_invoke_spec i e pl
    obtain ⟨hlen2, hall2⟩ := ih (twiddle_invoke i e pl)
    refine ⟨by rw [List.foldl_cons, hlen2, hlen1], fun x q hq => ?_⟩
    obtain ⟨q1, a1, b1, c1, _⟩ := hall1 x q hq
    obtain ⟨q2, a2, b2, c2⟩ := hall2 x q1 a1
    refine ⟨q2, by rw [List.foldl_cons]; exact a2, b2.trans b1, ?_⟩
    intro hnot
    have hne : q.sf.addr ≠ e := fun h => hnot (by rw [h]; exact List.mem_cons_self _ _)
    have hq1 : q1 = q := c1 hne
    subst hq1
    exact c2 fun h => hnot (List.mem_cons_of_mem _ h)

theorem twiddle_events_strong (i t : Nat) (p : MVMSpeshPlanned) :
    ∀ (E : List Nat) (pl : List MVMSpeshPlanned),
      pl[i]? = some p → p.sf.addr ∉ E →
      ∀ (x : Nat) (q : MVMSpeshPlanned), pl[x]? = some q → q.sf.addr = t →
        (t ∈ E ∨ q.max_depth = toUInt32 ((p.max_depth : Int) + 1)) →
        ∃ q1, (E.foldl (fun pl t => twiddle_invoke i t pl) pl)[x]? = some q1 ∧
          q1.max_depth = toUInt32 ((p.max_depth : Int) + 1) := by
  intro E
  induction E with
  | nil =>
    intro pl _ _ x q hq _ hd
    rcases hd with h | h
    · simp at h
    · exact ⟨q, hq, h⟩
  | cons e E ih =>
    intro pl hp hnot x q hq ht hd
    have hpe : p.sf.addr ≠ e := fun h => hnot (by rw [h]; exact List.mem_cons_self _ _)
    have hpE : p.sf.addr ∉ E := fun h => hnot (List.mem_cons_of_mem _ h)
    obtain ⟨_, hall1⟩ := twiddle_invoke_spec i e pl
    obtain ⟨p1, hp1, _, hp1eq, _⟩ := hall1 i p hp
    have := hp1eq hpe
    subst this
    obtain ⟨q1, a1, b1, c1, d1⟩ := hall1 x q hq
    have hq1t : q1.sf.addr = t := by rw [(planned_shape_eq b1).1]; exact ht
    rw [List.foldl_cons]
    by_cases het : e = t
    · subst het
      exact ih _ hp1 hpE x q1 a1 hq1t (Or.inr (d1 p1 hp hpe ht))
    · have hq1 : q1 = q := c1 (by rw [ht]; exact fun h => het h.symm)
      subst hq1
      refine ih _ hp1 hpE x q1 a1 hq1t ?_
      rcases hd with h | h
      · rcases List.mem_cons.1 h with h2 | h2
        · exact absurd h2.symm het
        · exact Or.inl h2
      · exact Or.inr h

theorem twiddle_outer_shape (planned : List MVMSpeshPlanned) :
    ∀ k, ((List.range k).foldl twiddle_planned planned).length = planned.length ∧
      ∀ (x : Nat) (q : MVMSpeshPlanned), planned[x]? = some q →
        ∃ q1, ((List.range k).foldl twiddle_planned planned)[x]? = some q1 ∧
          planned_shape q1 = planned_shape q := by
  intro k
  induction k with
  | zero => exact ⟨rfl, fun x q hq => ⟨q, hq, rfl⟩⟩
  | succ k ih =>
    obtain ⟨hlen, hall⟩ := ih
    rw [List.range_succ, List.foldl_append]
    simp only [List.foldl_cons, List.foldl_nil]
    rw [twiddle_planned_eq]
    cases hk : ((List.range k).foldl twiddle_planned planned)[k]? with
    | none => exact ⟨hlen, hall⟩
    | some r =>
      obtain ⟨hlen2, hall2⟩ :=
        twiddle_events_general k (invoked_sfs r) ((List.range k).foldl twiddle_planned planned)
      refine ⟨by simp only [hlen2, hlen], fun x q hq => ?_⟩
      obtain ⟨q1, a1, b1⟩ := hall x q hq
      obtain ⟨q2, a2, b2, _⟩ := hall2 x q1 a1
      exact ⟨q2, a2, b2.trans b1⟩

theorem twiddle_outer_later (planned : List MVMSpeshPlanned) (i t : Nat)
    (p pi : MVMSpeshPlanned)
    (hshape : planned_shape pi = planned_shape p)
    (h1 : ∀ (m : Nat) (q : MVMSpeshPlanned), planned[m]? = some q → i < m → t ∉ invoked_sfs q)
    (h2 : ∀ (m : Nat) (q : MVMSpeshPlanned), planned[m]? = some q → i ≤ m →
      p.sf.addr ∉ invoked_sfs q) :
    ∀ d, ((List.range (i + 1)).foldl twiddle_planned planned)[i]? = some pi →
      (∀ (x : Nat) (q : MVMSpeshPlanned),
        ((List.range (i + 1)).foldl twiddle_planned planned)[x]? = some q → q.sf.addr = t →
        q.max_depth = toUInt32 ((pi.max_depth : Int) + 1)) →
      ((List.range (i + 1 + d)).foldl twiddle_planned planned)[i]? = some pi ∧
      ∀ (x : Nat) (q : MVMSpeshPlanned),
        ((List.range (i + 1 + d)).foldl twiddle_planned planned)[x]? = some q → q.sf.addr = t →
        q.max_depth = toUInt32 ((pi.max_depth : Int) + 1) := by
  intro d hi0 hq0
  induction d with
  | zero => exact ⟨hi0, hq0⟩
  | succ d ih =>
    obtain ⟨hi, hq⟩ := ih
    obtain ⟨hlen, hall⟩ := twiddle_outer_shape planned (i + 1 + d)
    have hk : i + 1 + (d + 1) = (i + 1 + d) + 1 := by omega
    rw [hk, List.range_succ, List.foldl_append]
    simp only [List.foldl_cons, List.foldl_nil]
    rw [twiddle_planned_eq]
    cases hr : ((List.range (i + 1 + d)).foldl twiddle_planned planned)[i + 1 + d]? with
    | none => exact ⟨hi, hq⟩
    | some r =>
      have hrlt : i + 1 + d < planned.length := by
        have := (List.getElem?_eq_some_iff.1 hr).1
        omega
      obtain ⟨r0, hr0⟩ : ∃ r0, planned[i + 1 + d]? = some r0 :=
        ⟨_, List.getElem?_eq_getElem hrlt⟩
      obtain ⟨r1, hr1, hr1s⟩ := hall (i + 1 + d) r0 hr0
      rw [hr] at hr1
      cases hr1
      have hinv : invoked_sfs r = invoked_sfs r0 := (planned_shape_eq hr1s).2.2
      have ht : t ∉ invoked_sfs r := by rw [hinv]; exact h1 _ r0 hr0 (by omega)
      have hps : p.sf.addr ∉ invoked_sfs r := by rw [hinv]; exact h2 _ r0 hr0 (by omega)
      obtain ⟨hlen2, hall2⟩ := twiddle_events_general (i + 1 + d) (invoked_sfs r)
        ((List.range (i + 1 + d)).foldl twiddle_planned planned)
      dsimp only
      constructor
      · obtain ⟨q2, a2, _, c2⟩ := hall2 i pi hi
        have : q2 = pi := c2 (by rw [(planned_shape_eq hshape).1]; exact hps)
        subst this
        exact a2
      · intro x q hxq hqt
        have hxlt : x < ((List.range (i + 1 + d)).foldl twiddle_planned planned).length := by
          have := (List.getElem?_eq_some_iff.1 hxq).1
          rw [hlen2] at this
          exact this
        obtain ⟨q0, hq0'⟩ :
            ∃ q0, ((List.range (i + 1 + d)).foldl twiddle_planned planned)[x]? = some q0 :=
          ⟨_, List.getElem?_eq_getElem hxlt⟩
        obtain ⟨q2, a2, b2, c2⟩ := hall2 x q0 hq0'
        rw [hxq] at a2
        cases a2
        have hq0t : q0.sf.addr = t := by rw [← (planned_shape_eq b2).1]; exact hqt
        have : q = q0 := c2 (by rw [hq0t]; exact ht)
        subst this
        exact hq x q hq0' hqt

theorem toUInt32_succ {d : Nat} (h : d < 4294967295) : toUInt32 ((d : Int) + 1) = d + 1 := by
  unfold toUInt32
  omega

/-- C3, as stated, fails: static frame 1 (depth 7) invokes static frame 2
(depth 5), which invokes static frame 3 (depth 1), and the updated static
frames come in the order 2, 1, 3. In the plan that MVM_spesh_plan returns the
record of frame 2 has max_depth 8 and records an invoke of frame 3, whose record
has max_depth 6. -/
theorem twiddle_callee_deeper_counterexample :
    (MVM_spesh_plan ex_cfg [ex_hot_sf 2 5 [3], ex_hot_sf 1 7 [2], ex_hot_sf 3 1 []] ex_out).map
      (fun r => r.1.planned.map fun p => (p.sf.addr, p.max_depth, invoked_sfs p)) =
      some [(2, 8, [3]), (1, 7, [2]), (3, 6, [])] := by
  decide

/-- C3, amended: let planned be the array of at least two records in the order
in which they were planned, as twiddle_stack_depths receives it, p the record
at index i of that array and t a static frame recorded as an invoke in the
evidence of p. If no record after index i of that array records an invoke of
t, and no record at index i or later records an invoke of the static frame of
p, then twiddle_stack_depths and sort_plan return, and when planned is what
the loop of MVM_spesh_plan over the static frames leaves, the sorted array is
the plan that MVM_spesh_plan returns. The record p1 at index i after
twiddle_stack_depths is p up to max_depth and is in the returned plan; every
record q with q.sf = t, after twiddle_stack_depths and in the returned plan,
has as max_depth the 32-bit value of p1.max_depth + 1, which is p1.max_depth +
1 and above p1.max_depth unless p1.max_depth is 2^32 - 1. -/
theorem twiddle_callee_deeper (planned : List MVMSpeshPlanned) (i t : Nat)
    (p : MVMSpeshPlanned) (hn : 2 ≤ planned.length) (hp : planned[i]? = some p)
    (ht : t ∈ invoked_sfs p)
    (h1 : ∀ (m : Nat) (q : MVMSpeshPlanned), planned[m]? = some q → i < m → t ∉ invoked_sfs q)
    (h2 : ∀ (m : Nat) (q : MVMSpeshPlanned), planned[m]? = some q → i ≤ m →
      p.sf.addr ∉ invoked_sfs q) :
    ∃ p1 sorted, (twiddle_stack_depths planned)[i]? = some p1 ∧
      planned_shape p1 = planned_shape p ∧
      sort_plan (twiddle_stack_depths planned) = some sorted ∧
      (∀ (cfg : SpeshConfig) (updated_static_frames : List MVMStaticFrame)
          (out : SpecializationCounters),
        (plan_frames cfg updated_static_frames out).1.planned = planned →
        MVM_spesh_plan cfg updated_static_frames out =
          some ({ planned := sorted }, (plan_frames cfg updated_static_frames out).2)) ∧
      p1 ∈ sorted ∧
      (∀ (x : Nat) (q : MVMSpeshPlanned), (twiddle_stack_depths planned)[x]? = some q →
        q.sf.addr = t →
        q.max_depth = toUInt32 ((p1.max_depth : Int) + 1) ∧
        (p1.max_depth < 4294967295 →
          q.max_depth = p1.max_depth + 1 ∧ q.max_depth > p1.max_depth)) ∧
      ∀ q ∈ sorted, q.sf.addr = t →
        q.max_depth = toUInt32 ((p1.max_depth : Int) + 1) ∧
        (p1.max_depth < 4294967295 →
          q.max_depth = p1.max_depth + 1 ∧ q.max_depth > p1.max_depth) := by
  have hilt : i < planned.length := (List.getElem?_eq_some_iff.1 hp).1
  obtain ⟨hlen, hall⟩ := twiddle_outer_shape planned i
  obtain ⟨pi, hpi, hshape⟩ := hall i p hp
  have hE : invoked_sfs pi = invoked_sfs p := (planned_shape_eq hshape).2.2
  have hsf : pi.sf = p.sf := (planned_shape_eq hshape).1
  have hnotE : pi.sf.addr ∉ invoked_sfs pi := by
    rw [hE, hsf]; exact h2 i p hp (le_refl _)
  have hstep : (List.range (i + 1)).foldl twiddle_planned planned =
      (invoked_sfs pi).foldl (fun pl t => twiddle_invoke i t pl)
        ((List.range i).foldl twiddle_planned planned) := by
    rw [List.range_succ, List.foldl_append]
    simp only [List.foldl_cons, List.foldl_nil]
    rw [twiddle_planned_eq, hpi]
  obtain ⟨hlen2, hall2⟩ := twiddle_events_general i (invoked_sfs pi)
    ((List.range i).foldl twiddle_planned planned)
  have hi1 : ((List.range (i + 1)).foldl twiddle_planned planned)[i]? = some pi := by
    rw [hstep]
    obtain ⟨q2, a2, _, c2⟩ := hall2 i pi hpi
    have : q2 = pi := c2 hnotE
    subst this
    exact a2
  have hq1 : ∀ (x : Nat) (q : MVMSpeshPlanned),
      ((List.range (i + 1)).foldl twiddle_planned planned)[x]? = some q → q.sf.addr = t →
      q.max_depth = toUInt32 ((pi.max_depth : Int) + 1) := by
    intro x q hxq hqt
    rw [hstep] at hxq
    have hxlt : x < ((List.range i).foldl twiddle_planned planned).length := by
      have := (List.getElem?_eq_some_iff.1 hxq).1
      rw [hlen2] at this
      exact this
    obtain ⟨q0, hq0⟩ : ∃ q0, ((List.range i).foldl twiddle_planned planned)[x]? = some q0 :=
      ⟨_, List.getElem?_eq_getElem hxlt⟩
    obtain ⟨q2, a2, b2, _⟩ := hall2 x q0 hq0
    rw [hxq] at a2
    cases a2
    have hq0t : q0.sf.addr = t := by rw [← (planned_shape_eq b2).1]; exact hqt
    obtain ⟨q3, a3, b3⟩ := twiddle_events_strong i t pi (invoked_sfs pi) _ hpi hnotE x q0 hq0
      hq0t (Or.inl (by rw [hE]; exact ht))
    rw [hxq] at a3
    cases a3
    exact b3
  obtain ⟨hfin1, hfin2⟩ :=
    twiddle_outer_later planned i t p pi hshape h1 h2 (planned.length - (i + 1)) hi1 hq1
  have hk : i + 1 + (planned.length - (i + 1)) = planned.length := by omega
  rw [hk] at hfin1 hfin2
  have hnot : ¬ planned.length < 2 := by omega
  have htw : twiddle_stack_depths planned =
      (List.range planned.length).foldl twiddle_planned planned := by
    unfold twiddle_stack_depths
    simp only [hnot, if_false]
  rw [← htw] at hfin1 hfin2
  obtain ⟨sorted, hsorted, hperm, _⟩ := sort_plan_spec (twiddle_stack_depths planned)
  have hdepth : ∀ q : MVMSpeshPlanned, q.max_depth = toUInt32 ((pi.max_depth : Int) + 1) →
      q.max_depth = toUInt32 ((pi.max_depth : Int) + 1) ∧
      (pi.max_depth < 4294967295 →
        q.max_depth = pi.max_depth + 1 ∧ q.max_depth > pi.max_depth) := by
    intro q hq
    refine ⟨hq, fun hlt => ?_⟩
    rw [toUInt32_succ hlt] at hq
    exact ⟨hq, by omega⟩
  refine ⟨pi, sorted, hfin1, hshape, hsorted, ?_, ?_, ?_, ?_⟩
  · intro cfg updated_static_frames out heq
    simp only [MVM_spesh_plan, heq, hsorted]
  · exact hperm.mem_iff.2 (List.mem_iff_getElem?.2 ⟨i, hfin1⟩)
  · intro x q hxq hqt
    exact hdepth q (hfin2 x q hxq hqt)
  · intro q hq hqt
    obtain ⟨x, hx⟩ := List.mem_iff_getElem?.1 (hperm.mem_iff.1 hq)
    exact hdepth q (hfin2 x q hx hqt)

theorem ex_plan_frames_pair :
    (plan_frames ex_cfg [ex_hot_sf 1 3 [2], ex_hot_sf 2 1 []] ex_out).1.planned =
      [ex_hot_record 1 3 [2], ex_hot_record 2 1 []] := by
  decide

/-- Witness for C3, amended: the static frames 1 (depth 3, invokes frame 2) and
2 (depth 1) are planned in this order; MVM_spesh_plan returns the record of
frame 2 with depth 4 before the record of frame 1 with depth 3. -/
theorem twiddle_callee_deeper_witness :
    (MVM_spesh_plan ex_cfg [ex_hot_sf 1 3 [2], ex_hot_sf 2 1 []] ex_out).map
      (fun r => r.1.planned.map fun p => (p.sf.addr, p.max_depth)) = some [(2, 4), (1, 3)] ∧
    (plan_frames ex_cfg [ex_hot_sf 1 3 [2], ex_hot_sf 2 1 []] ex_out).1.planned =
      [ex_hot_record 1 3 [2], ex_hot_record 2 1 []] ∧
    ∃ p1 sorted,
      (twiddle_stack_depths [ex_hot_record 1 3 [2], ex_hot_record 2 1 []])[0]? = some p1 ∧
      planned_shape p1 = planned_shape (ex_hot_record 1 3 [2]) ∧
      sort_plan (twiddle_stack_depths [ex_hot_record 1 3 [2], ex_hot_record 2 1 []]) =
        some sorted ∧
      (∀ (cfg : SpeshConfig) (updated_static_frames : List MVMStaticFrame)
          (out : SpecializationCounters),
        (plan_frames cfg updated_static_frames out).1.planned =
          [ex_hot_record 1 3 [2], ex_hot_record 2 1 []] →
        MVM_spesh_plan cfg updated_static_frames out =
          some ({ planned := sorted }, (plan_frames cfg updated_static_frames out).2)) ∧
      p1 ∈ sorted ∧
      (∀ (x : Nat) (q : MVMSpeshPlanned),
        (twiddle_stack_depths [ex_hot_record 1 3 [2], ex_hot_record 2 1 []])[x]? = some q →
        q.sf.addr = 2 →
        q.max_depth = toUInt32 ((p1.max_depth : Int) + 1) ∧
        (p1.max_depth < 4294967295 →
          q.max_depth = p1.max_depth + 1 ∧ q.max_depth > p1.max_depth)) ∧
      ∀ q ∈ sorted, q.sf.addr = 2 →
        q.max_depth = toUInt32 ((p1.max_depth : Int) + 1) ∧
        (p1.max_depth < 4294967295 →
          q.max_depth = p1.max_depth + 1 ∧ q.max_depth > p1.max_depth) :=
  ⟨by decide, ex_plan_frames_pair,
    twiddle_callee_deeper [ex_hot_record 1 3 [2], ex_hot_record 2 1 []] 0 2
      (ex_hot_record 1 3 [2]) (by decide) rfl (by decide)
      (fun m q hq hm => by
        match m, hm with
        | 1, _ =>
          simp only [List.getElem?_cons_succ, List.getElem?_cons_zero, Option.some.injEq] at hq
          subst hq; decide
        | m + 2, _ => simp at hq)
      (fun m q hq _ => by
        match m with
        | 0 =>
          simp only [List.getElem?_cons_zero, Option.some.injEq] at hq
          subst hq; decide
        | 1 =>
          simp only [List.getElem?_cons_succ, List.getElem?_cons_zero, Option.some.injEq] at hq
          subst hq; decide
        | m + 2 => simp at hq)⟩

/-! ## MVM_spesh_deopt_all -/

theorem uninlinePre_callee {fr : MVMFrame} {offset : Int} {tbl : List MVMSpeshInline}
    (a b : Nat) (h : UninlinePre fr offset (some a) tbl) : UninlinePre fr offset (some b) tbl :=
  ⟨h.1, fun _ => h.2 rfl⟩

theorem frames_modifyFrame_self {tc : MVMThreadContext} {p : Nat} {a : MVMFrame}
    (g : MVMFrame → MVMFrame) (h : tc.frames[p]? = some a) :
    (modifyFrame tc p g).frames[p]? = some (g a) := by
  simp [frames_modifyFrame, h]

theorem deopt_all_body_spec (jit_idx : MVMJitCode → MVMFrame → Nat) (tc : MVMThreadContext)
    (l f : Nat) (fr : MVMFrame)
    (hf : tc.frames[f]? = some fr) (hl : l < tc.frames.length) (hlf : l ≠ f)
    (hpre : DeoptAllPre jit_idx fr) :
    ∃ tcA nxt, deopt_all_body jit_idx tc l f = .ok (tcA, nxt) ∧
      nxt = (if walk_stops_at jit_idx fr = true then WalkNext.break_walk
        else WalkNext.continue_walk) ∧
      tc.frames.length ≤ tcA.frames.length ∧
      (∀ i, i < tc.frames.length → i ≠ f → i ≠ l → tcA.frames[i]? = tc.frames[i]?) ∧
      (tcA.frames[l]?).map erase_caller = (tc.frames[l]?).map erase_caller ∧
      ∃ fA, tcA.frames[f]? = some fA ∧ fA.caller = fr.caller ∧
        fA.spesh_cand = (if deopt_idx_resolves jit_idx fr = true then none else fr.spesh_cand) := by
  have hflt : f < tc.frames.length := (List.getElem?_eq_some_iff.1 hf).1
  have hc : (clear_dynlex_cache tc f).frames[f]? = some (dynlex_cleared fr) :=
    frames_clear_dynlex_cache tc f fr hf
  have hcc : (dynlex_cleared fr).spesh_cand = fr.spesh_cand := rfl
  have hcother : ∀ i, i ≠ f → (clear_dynlex_cache tc f).frames[i]? = tc.frames[i]? := by
    intro i hi
    simp [clear_dynlex_cache, frames_modifyFrame, hi]
  unfold deopt_all_body
  simp only [getFrame_eq_ok hc]
  cases hcand : fr.spesh_cand with
  | none =>
    rw [hcand] at hcc
    simp only [hcc]
    refine ⟨_, _, rfl, by simp [walk_stops_at, hcand], by simp, ?_, ?_, ?_⟩
    · intro i _ hif _; exact hcother i hif
    · rw [hcother l hlf]
    · exact ⟨_, hc, rfl, by simp [deopt_idx_resolves, hcand, hcc]⟩
  | some cand =>
    rw [hcand] at hcc
    simp only [hcc]
    by_cases hidx : MVM_spesh_deopt_find_inactive_frame_deopt_idx jit_idx
        (dynlex_cleared fr) cand ≥ 0
    · have hres : deopt_idx_resolves jit_idx fr = true := by
        simp only [deopt_idx_resolves, hcand, decide_eq_true_eq]
        exact hidx
      simp only [hidx, if_true]
      by_cases hin : cand.inlines.isSome = true
      · simp only [hin, if_true]
        have hp := uninlinePre_callee 0 l (hpre cand hcand hidx hin)
        obtain ⟨tc2, hun, hspec⟩ := uninline_spec (clear_dynlex_cache tc f) f _ cand
          (cand.deopts (2 * (MVM_spesh_deopt_find_inactive_frame_deopt_idx jit_idx
            (dynlex_cleared fr) cand).toNat + 1))
          (cand.deopts (2 * (MVM_spesh_deopt_find_inactive_frame_deopt_idx jit_idx
            (dynlex_cleared fr) cand).toNat))
          (some l) hc (by intro c h; cases h; simpa using hl) hp
        simp only [hun]
        have hlen2 : tc.frames.length ≤ tc2.frames.length := by
          rw [hspec.len]; simp
        have hold2 : ∀ i, i < tc.frames.length → i ≠ f → i ≠ l →
            tc2.frames[i]? = tc.frames[i]? := by
          intro i hi hif hil
          have h := hspec.old i (by simpa using hi)
          have hne : ¬ (some l = some i) := by
            intro e; cases e; exact hil rfl
          rw [h, hcother i hif]
          cases tc.frames[i]? <;> simp [hif, hne]
        have hl2 : (tc2.frames[l]?).map erase_caller = (tc.frames[l]?).map erase_caller := by
          have h := hspec.old l (by simpa using hl)
          rw [h, hcother l hlf]
          cases tc.frames[l]? with
          | none => rfl
          | some g =>
            simp only [Option.map_some', hlf, if_false]
            split <;> rfl
        have hf2 : ∃ g, tc2.frames[f]? = some g ∧ g.caller = fr.caller ∧
            g.spesh_cand = some cand := by
          have h := hspec.old f (by simpa using hflt)
          rw [hc] at h
          have hne : ¬ (some l = some f) := by
            intro e; cases e; exact hlf rfl
          simp only [if_true, Option.map_some', hne, and_false, if_false] at h
          refine ⟨_, h, ?_, ?_⟩
          · unfold outer_after
            split
            · rfl
            · rfl
          · unfold outer_after
            split
            · exact hcand
            · exact hcand
        obtain ⟨g, hg, hgc, hgs⟩ := hf2
        by_cases hjit : cand.jitcode.isSome = true
        · simp only [hjit, if_true]
          refine ⟨_, _, rfl, by simp [walk_stops_at, hcand, hres, hjit],
            by simpa [length_modifyFrame, deopt_named_args_used] using hlen2, ?_, ?_, ?_⟩
          · intro i hi hif hil
            simp [frames_modifyFrame, deopt_named_args_used, hif, hold2 i hi hif hil]
          · simp [frames_modifyFrame, deopt_named_args_used, hlf, hl2]
          · refine ⟨_, frames_modifyFrame_self _ (frames_modifyFrame_self _
              (frames_modifyFrame_self _ hg)), hgc, ?_⟩
            simp [hres]
        · simp only [hjit, if_false]
          refine ⟨_, _, rfl, by simp [walk_stops_at, hcand, hres, hjit],
            by simpa [length_modifyFrame, deopt_named_args_used] using hlen2, ?_, ?_, ?_⟩
          · intro i hi hif hil
            simp [frames_modifyFrame, deopt_named_args_used, hif, hold2 i hi hif hil]
          · simp [frames_modifyFrame, deopt_named_args_used, hlf, hl2]
          · refine ⟨_, frames_modifyFrame_self _ (frames_modifyFrame_self _
              (frames_modifyFrame_self _ hg)), hgc, ?_⟩
            simp [hres]
      · simp only [hin, if_false]
        by_cases hjit : cand.jitcode.isSome = true
        · simp only [hjit, if_true]
          refine ⟨_, _, rfl, by simp [walk_stops_at, hcand, hres, hjit],
            by simp [length_modifyFrame, deopt_named_args_used], ?_, ?_, ?_⟩
          · intro i hi hif hil
            simp [frames_modifyFrame, deopt_named_args_used, hif, hcother i hif]
          · simp [frames_modifyFrame, deopt_named_args_used, hlf, hcother l hlf]
          · refine ⟨_, frames_modifyFrame_self _ (frames_modifyFrame_self _
              (frames_modifyFrame_self _ (frames_modifyFrame_self _ hc))), rfl, ?_⟩
            simp [hres]
        · simp only [hjit, if_false]
          refine ⟨_, _, rfl, by simp [walk_stops_at, hcand, hres, hjit],
            by simp [length_modifyFrame, deopt_named_args_used], ?_, ?_, ?_⟩
          · intro i hi hif hil
            simp [frames_modifyFrame, deopt_named_args_used, hif, hcother i hif]
          · simp [frames_modifyFrame, deopt_named_args_used, hlf, hcother l hlf]
          · refine ⟨_, frames_modifyFrame_self _ (frames_modifyFrame_self _
              (frames_modifyFrame_self _ (frames_modifyFrame_self _ hc))), rfl, ?_⟩
            simp [hres]
    · have hres : deopt_idx_resolves jit_idx fr = false := by
        simp only [deopt_idx_resolves, hcand, decide_eq_false_iff_not]
        exact hidx
      simp only [hidx, if_false]
      refine ⟨_, _, rfl, by simp [walk_stops_at, hcand, hres], by simp, ?_, ?_, ?_⟩
      · intro i _ hif _; exact hcother i hif
      · rw [hcother l hlf]
      · exact ⟨_, hc, rfl, by simp [hres, hcc]⟩

theorem caller_chain_cons {frames : List MVMFrame} {f g : Nat} {rest : List Nat} :
    is_caller_chain frames (some f) (g :: rest) = true ↔
      f = g ∧ ∃ fr, frames[g]? = some fr ∧ is_caller_chain frames fr.caller rest = true := by
  simp only [is_caller_chain, Bool.and_eq_true, decide_eq_true_eq]
  constructor
  · rintro ⟨h1, h2⟩
    refine ⟨h1, ?_⟩
    cases hg : frames[g]? with
    | none => simp [hg] at h2
    | some fr => exact ⟨fr, rfl, by simpa [hg] using h2⟩
  · rintro ⟨h1, fr, h2, h3⟩
    exact ⟨h1, by simp [h2, h3]⟩

theorem caller_chain_nil {frames : List MVMFrame} {s : Option Nat}
    (h : is_caller_chain frames s [] = true) : s = none := by
  cases s with
  | none => rfl
  | some f => simp [is_caller_chain] at h

theorem caller_chain_start {frames : List MVMFrame} {s : Option Nat} {g : Nat}
    {rest : List Nat} (h : is_caller_chain frames s (g :: rest) = true) : s = some g := by
  cases s with
  | none => simp [is_caller_chain] at h
  | some f => rw [(caller_chain_cons.1 h).1]

theorem caller_chain_unique (frames : List MVMFrame) :
    ∀ (c1 c2 : List Nat) (s : Option Nat), is_caller_chain frames s c1 = true →
      is_caller_chain frames s c2 = true → c1 = c2 := by
  intro c1
  induction c1 with
  | nil =>
    intro c2 s h1 h2
    have hs := caller_chain_nil h1
    subst hs
    cases c2 with
    | nil => rfl
    | cons g t => simp [is_caller_chain] at h2
  | cons g rest ih =>
    intro c2 s h1 h2
    have hs := caller_chain_start h1
    subst hs
    cases c2 with
    | nil => simp [is_caller_chain] at h2
    | cons g2 rest2 =>
      obtain ⟨_, fr, hfr, hrest⟩ := caller_chain_cons.1 h1
      obtain ⟨hg2, fr2, hfr2, hrest2⟩ := caller_chain_cons.1 h2
      subst hg2
      rw [hfr] at hfr2
      cases hfr2
      rw [ih rest2 fr.caller hrest hrest2]

theorem caller_chain_suffix (frames : List MVMFrame) (f : Nat) (b : List Nat) :
    ∀ (a : List Nat) (s : Option Nat), is_caller_chain frames s (a ++ f :: b) = true →
      is_caller_chain frames (some f) (f :: b) = true := by
  intro a
  induction a with
  | nil =>
    intro s h
    have hs := caller_chain_start (by simpa using h)
    subst hs
    simpa using h
  | cons g t ih =>
    intro s h
    have hs := caller_chain_start (by simpa using h)
    subst hs
    obtain ⟨_, fr, _, hrest⟩ := caller_chain_cons.1 (by simpa using h)
    exact ih fr.caller hrest

theorem caller_chain_not_mem {frames : List MVMFrame} {f : Nat} {rest : List Nat}
    (h : is_caller_chain frames (some f) (f :: rest) = true) : f ∉ rest := by
  intro hmem
  obtain ⟨a, b, hab⟩ := List.append_of_mem hmem
  have h1 : is_caller_chain frames (some f) ((f :: a) ++ f :: b) = true := by
    rw [hab] at h; simpa using h
  have h2 := caller_chain_suffix frames f b (f :: a) (some f) h1
  have h3 := caller_chain_unique frames _ _ _ h h2
  have h4 : rest = b := by simpa using h3
  have h5 := congrArg List.length hab
  rw [h4] at h5
  simp at h5
  omega

theorem caller_chain_nodup (frames : List MVMFrame) :
    ∀ (c : List Nat) (s : Option Nat), is_caller_chain frames s c = true → c.Nodup := by
  intro c
  induction c with
  | nil => intro _ _; exact List.nodup_nil
  | cons g rest ih =>
    intro s h
    have hs := caller_chain_start h
    subst hs
    obtain ⟨_, fr, _, hrest⟩ := caller_chain_cons.1 h
    exact List.nodup_cons.2 ⟨caller_chain_not_mem h, ih fr.caller hrest⟩

theorem caller_chain_mem (frames : List MVMFrame) :
    ∀ (c : List Nat) (s : Option Nat), is_caller_chain frames s c = true →
      ∀ g ∈ c, ∃ gr, frames[g]? = some gr := by
  intro c
  induction c with
  | nil => intro _ _ g hg; simp at hg
  | cons f rest ih =>
    intro s h g hg
    have hs := caller_chain_start h
    subst hs
    obtain ⟨_, fr, hfr, hrest⟩ := caller_chain_cons.1 h
    rcases List.mem_cons.1 hg with e | e
    · subst e; exact ⟨fr, hfr⟩
    · exact ih fr.caller hrest g e

theorem deopt_all_loop_spec (jit_idx : MVMJitCode → MVMFrame → Nat) (tc0 : MVMThreadContext) :
    ∀ (rest : List Nat) (fuel : Nat) (tc : MVMThreadContext) (l : Nat) (fo : Option Nat),
      rest.length ≤ fuel →
      is_caller_chain tc0.frames fo rest = true →
      (∀ f ∈ rest, tc.frames[f]? = tc0.frames[f]?) →
      l < tc.frames.length → l ∉ rest → rest.Nodup →
      (∀ f ∈ rest, ∀ fr, tc0.frames[f]? = some fr → DeoptAllPre jit_idx fr) →
      ∃ tc1, deopt_all_loop jit_idx fuel tc l fo = .ok tc1 ∧
        (∀ i, i < tc.frames.length → i ∉ rest → i ≠ l → tc1.frames[i]? = tc.frames[i]?) ∧
        (tc1.frames[l]?).map erase_caller = (tc.frames[l]?).map erase_caller ∧
        ∀ (k f : Nat) (fr : MVMFrame), rest[k]? = some f → tc0.frames[f]? = some fr →
          ∃ fr1, tc1.frames[f]? = some fr1 ∧
            (fr1.spesh_cand = none ∨
              (fr1.spesh_cand = fr.spesh_cand ∧
                (deopt_idx_resolves jit_idx fr = false ∨
                  ∃ (j g : Nat) (gr : MVMFrame), j < k ∧ rest[j]? = some g ∧
                    tc0.frames[g]? = some gr ∧ walk_stops_at jit_idx gr = true))) := by
  intro rest
  induction rest with
  | nil =>
    intro fuel tc l fo _ hchain _ _ _ _ _
    have hfo := caller_chain_nil hchain
    subst hfo
    refine ⟨tc, by cases fuel <;> rfl, fun _ _ _ _ => rfl, rfl, ?_⟩
    intro k f fr hk; simp at hk
  | cons f rest ih =>
    intro fuel tc l fo hfuel hchain hframe hl hlnot hnodup hpre
    have hfo := caller_chain_start hchain
    subst hfo
    obtain ⟨_, fr, hfr0, hrest⟩ := caller_chain_cons.1 hchain
    have hfr : tc.frames[f]? = some fr := by
      rw [hframe f (List.mem_cons_self _ _)]; exact hfr0
    have hlf : l ≠ f := fun e => hlnot (by rw [e]; exact List.mem_cons_self _ _)
    have hfnot : f ∉ rest := (List.nodup_cons.1 hnodup).1
    obtain ⟨fuel1, hfuel1⟩ : ∃ fuel1, fuel = fuel1 + 1 := by
      cases fuel with
      | zero => simp at hfuel
      | succ n => exact ⟨n, rfl⟩
    subst hfuel1
    obtain ⟨tcA, nxt, hbody, hnxt, hlenA, holdA, hlA, fA, hfA, hfAc, hfAs⟩ :=
      deopt_all_body_spec jit_idx tc l f fr hfr hl hlf
        (hpre f (List.mem_cons_self _ _) fr hfr0)
    have hrestA : ∀ g ∈ rest, tcA.frames[g]? = tc.frames[g]? := by
      intro g hg
      obtain ⟨gr, hgr⟩ := caller_chain_mem tc0.frames rest fr.caller hrest g hg
      have hg2 : tc.frames[g]? = some gr := by
        rw [hframe g (List.mem_cons_of_mem _ hg)]; exact hgr
      exact holdA g (List.getElem?_eq_some_iff.1 hg2).1
        (fun e => hfnot (by rw [← e]; exact hg))
        (fun e => hlnot (by rw [← e]; exact List.mem_cons_of_mem _ hg))
    by_cases hstop : walk_stops_at jit_idx fr = true
    · have hres : deopt_idx_resolves jit_idx fr = true := by
        unfold walk_stops_at at hstop
        cases hc : fr.spesh_cand with
        | none => simp [hc] at hstop
        | some cand =>
          simp only [hc, Bool.and_eq_true] at hstop
          exact hstop.1
      rw [if_pos hstop] at hnxt
      subst hnxt
      refine ⟨tcA, by simp only [deopt_all_loop, hbody], ?_, hlA, ?_⟩
      · intro i hi hinot hil
        exact holdA i hi (fun e => hinot (by rw [e]; exact List.mem_cons_self _ _)) hil
      · intro k g gr hk hgr
        cases k with
        | zero =>
          simp only [List.getElem?_cons_zero, Option.some.injEq] at hk
          subst hk
          exact ⟨fA, hfA, Or.inl (by rw [hfAs]; simp [hres])⟩
        | succ k =>
          simp only [List.getElem?_cons_succ] at hk
          have hg : g ∈ rest := List.mem_iff_getElem?.2 ⟨k, hk⟩
          refine ⟨gr, ?_, Or.inr ⟨rfl, Or.inr ⟨0, f, fr, by omega, by simp, hfr0, hstop⟩⟩⟩
          rw [hrestA g hg, hframe g (List.mem_cons_of_mem _ hg)]
          exact hgr
    · rw [if_neg hstop] at hnxt
      subst hnxt
      have hfAlt : f < tcA.frames.length := (List.getElem?_eq_some_iff.1 hfA).1
      obtain ⟨tc1, hloop, hU1, hU2, hR⟩ := ih fuel1 tcA f fr.caller (by simp at hfuel; omega)
        hrest
        (fun g hg => by rw [hrestA g hg]; exact hframe g (List.mem_cons_of_mem _ hg))
        hfAlt hfnot (List.nodup_cons.1 hnodup).2
        (fun g hg => hpre g (List.mem_cons_of_mem _ hg))
      refine ⟨tc1, ?_, ?_, ?_, ?_⟩
      · simp only [deopt_all_loop, hbody, getFrame_eq_ok hfA, hfAc]
        exact hloop
      · intro i hi hinot hil
        have hif : i ≠ f := fun e => hinot (by rw [e]; exact List.mem_cons_self _ _)
        rw [hU1 i (by omega) (fun h => hinot (List.mem_cons_of_mem _ h)) hif]
        exact holdA i hi hif hil
      · rw [hU1 l (by omega) (fun h => hlnot (List.mem_cons_of_mem _ h)) hlf]
        exact hlA
      · intro k g gr hk hgr
        cases k with
        | zero =>
          simp only [List.getElem?_cons_zero, Option.some.injEq] at hk
          subst hk
          rw [hfr0] at hgr
          cases hgr
          rw [hfA] at hU2
          cases h1 : tc1.frames[f]? with
          | none => simp [h1] at hU2
          | some fr1 =>
            rw [h1] at hU2
            simp only [Option.map_some', Option.some.injEq] at hU2
            have hs : fr1.spesh_cand = fA.spesh_cand := by
              have := congrArg MVMFrame.spesh_cand hU2
              exact this
            refine ⟨fr1, rfl, ?_⟩
            rw [hs, hfAs]
            by_cases hres : deopt_idx_resolves jit_idx fr = true
            · exact Or.inl (by simp [hres])
            · refine Or.inr ⟨by simp [hres], Or.inl ?_⟩
              simpa using hres
        | succ k =>
          simp only [List.getElem?_cons_succ] at hk
          obtain ⟨fr1, h1, h2⟩ := hR k g gr hk hgr
          refine ⟨fr1, h1, ?_⟩
          rcases h2 with h2 | ⟨h2, h3⟩
          · exact Or.inl h2
          · refine Or.inr ⟨h2, ?_⟩
            rcases h3 with h3 | ⟨j, g2, gr2, hj, hg2, hgr2, hst⟩
            · exact Or.inl h3
            · exact Or.inr ⟨j + 1, g2, gr2, by omega, by simpa using hg2, hgr2, hst⟩

/-- C5, as stated, fails: on the call stack 0 -> 1 -> 2, where frames 1 and 2
run a candidate without JIT code and without a deopt entry for their return
address, MVM_spesh_deopt_all returns and both ancestors (caller pointer, has
candidate, candidate has JIT code) still have their candidate. -/
theorem deopt_all_residue_counterexample :
    (match MVM_spesh_deopt_all (fun _ _ => 0) 2 ex_tc_stack with
      | .ok tc1 => tc1.frames.map fun fr =>
          (fr.caller, fr.spesh_cand.isSome, fr.spesh_cand.map fun c => c.jitcode.isSome)
      | .error _ => []) =
      [(some 1, false, none), (some 2, true, some false), (none, true, some false)] := by
  decide

/-- C5, amended: let chain be the caller chain from the caller of the current
frame, let the walk have fuel for it, and let uninline return for every frame
of the chain (DeoptAllPre). Then MVM_spesh_deopt_all returns, and afterwards a
frame of the chain either has no candidate, or it has the candidate it had
before and its deopt index did not resolve or the walk stopped before it at a
frame whose candidate has JIT code and whose deopt index resolved. -/
theorem deopt_all_residue (jit_idx : MVMJitCode → MVMFrame → Nat) (fuel : Nat)
    (tc : MVMThreadContext) (cur : MVMFrame) (chain : List Nat)
    (hcur : tc.frames[tc.cur_frame]? = some cur)
    (hchain : is_caller_chain tc.frames cur.caller chain = true)
    (hfuel : chain.length ≤ fuel)
    (hpre : ∀ f ∈ chain, ∀ fr, tc.frames[f]? = some fr → DeoptAllPre jit_idx fr) :
    ∃ tc1, MVM_spesh_deopt_all jit_idx fuel tc = .ok tc1 ∧
      ∀ (k f : Nat) (fr : MVMFrame), chain[k]? = some f → tc.frames[f]? = some fr →
        ∃ fr1, tc1.frames[f]? = some fr1 ∧
          (fr1.spesh_cand = none ∨
            (fr1.spesh_cand = fr.spesh_cand ∧
              (deopt_idx_resolves jit_idx fr = false ∨
                ∃ (j g : Nat) (gr : MVMFrame), j < k ∧ chain[j]? = some g ∧
                  tc.frames[g]? = some gr ∧ walk_stops_at jit_idx gr = true))) := by
  have hfull : is_caller_chain tc.frames (some tc.cur_frame) (tc.cur_frame :: chain) = true :=
    caller_chain_cons.2 ⟨rfl, cur, hcur, hchain⟩
  obtain ⟨tc1, hloop, _, _, hR⟩ :=
    deopt_all_loop_spec jit_idx tc chain fuel tc tc.cur_frame cur.caller hfuel hchain
      (fun _ _ => rfl) (List.getElem?_eq_some_iff.1 hcur).1 (caller_chain_not_mem hfull)
      (caller_chain_nodup tc.frames chain cur.caller hchain) hpre
  refine ⟨tc1, ?_, hR⟩
  simp only [MVM_spesh_deopt_all, getFrame_eq_ok hcur]
  exact hloop

/-- Witness for C5, amended: the call stack 0 -> 1 -> 2. -/
theorem deopt_all_residue_witness :
    ∃ tc1, MVM_spesh_deopt_all (fun _ _ => 0) 2 ex_tc_stack = .ok tc1 ∧
      ∀ (k f : Nat) (fr : MVMFrame), [1, 2][k]? = some f → ex_tc_stack.frames[f]? = some fr →
        ∃ fr1, tc1.frames[f]? = some fr1 ∧
          (fr1.spesh_cand = none ∨
            (fr1.spesh_cand = fr.spesh_cand ∧
              (deopt_idx_resolves (fun _ _ => 0) fr = false ∨
                ∃ (j g : Nat) (gr : MVMFrame), j < k ∧ [1, 2][j]? = some g ∧
                  ex_tc_stack.frames[g]? = some gr ∧
                  walk_stops_at (fun _ _ => 0) gr = true))) :=
  deopt_all_residue (fun _ _ => 0) 2 ex_tc_stack (ex_frame (some 1) none 0) [1, 2] rfl
    (by decide) (by decide)
    (fun f hf fr hfr cand hc _ hin => by
      have hf' : f = 1 ∨ f = 2 := by simpa using hf
      rcases hf' with e | e <;> subst e <;>
        simp only [ex_tc_stack, List.getElem?_cons_succ, List.getElem?_cons_zero,
          Option.some.injEq] at hfr <;>
        subst hfr <;>
        simp only [ex_frame, Option.some.injEq] at hc <;>
        subst hc <;>
        simp [ex_cand_plain] at hin)

/-! ## plan_for_cs: the hit percentages -/

theorem toUInt32_of_lt {n : Nat} (h : n < 4294967296) : toUInt32 (n : Int) = n := by
  unfold toUInt32
  omega

/-- The percentage of plan_for_cs while the product 100 * hits fits in 32 bits:
the floor of 100 * hits / total, and 0 for a total of 0. -/
theorem hit_percent_of_small (by_cs : MVMSpeshStatsByCallsite) (by_type : MVMSpeshStatsByType)
    (h : 100 * by_type.hits < 4294967296) :
    hit_percent by_cs by_type =
      if by_cs.hits = 0 then 0 else 100 * by_type.hits / by_cs.hits := by
  unfold hit_percent
  have e : ((100 : Int) * (by_type.hits : Int)) = ((100 * by_type.hits : Nat) : Int) := by
    push_cast; rfl
  rw [e, toUInt32_of_lt h]
  by_cases h0 : by_cs.hits = 0 <;> simp [h0]

/-- The OSR percentage of plan_for_cs while the product 100 * osr_hits fits in
32 bits. -/
theorem osr_hit_percent_of_small (by_cs : MVMSpeshStatsByCallsite)
    (by_type : MVMSpeshStatsByType) (h : 100 * by_type.osr_hits < 4294967296) :
    osr_hit_percent by_cs by_type =
      if by_cs.osr_hits = 0 then 0 else 100 * by_type.osr_hits / by_cs.osr_hits := by
  unfold osr_hit_percent
  have e : ((100 : Int) * (by_type.osr_hits : Int)) = ((100 * by_type.osr_hits : Nat) : Int) := by
    push_cast; rfl
  rw [e, toUInt32_of_lt h]
  by_cases h0 : by_cs.osr_hits = 0 <;> simp [h0]

/-- C11: plan_for_cs multiplies in 32 bits. For a callsite with 42949673 hits
that all fall into one type tuple, the product 100 * 42949673 wraps to 4, so
hit_percent is 0 where the floor of 100 * hits / total is 100; with an
observed-types threshold of 75 percent plan_for_cs plans no observed-types
specialization for the tuple, and one for the same shares at 900 of 900 hits.
A total of 0 gives 0 without a division. -/
theorem hit_percent_wraps :
    hit_percent (ex_by_cs (some ex_cs) 42949673 []) (ex_bucket 42949673 2 []) = 0 ∧
    100 * (ex_bucket 42949673 2 []).hits / (ex_by_cs (some ex_cs) 42949673 []).hits = 100 ∧
    ((plan_for_cs ex_cfg { planned := [] } (ex_plan_sf 1 [])
        (ex_by_cs (some ex_cs) 42949673 [ex_bucket 42949673 2 []]) ex_out).1.planned.map
      fun p => p.kind) = [MVMSpeshPlannedKind.MVM_SPESH_PLANNED_CERTAIN] ∧
    ((plan_for_cs ex_cfg { planned := [] } (ex_plan_sf 1 [])
        (ex_by_cs (some ex_cs) 900 [ex_bucket 900 2 []]) ex_out).1.planned.map
      fun p => p.kind) = [MVMSpeshPlannedKind.MVM_SPESH_PLANNED_OBSERVED_TYPES] ∧
    hit_percent (ex_by_cs (some ex_cs) 0 []) (ex_bucket 7 2 []) = 0 := by
  decide

/-! ## add_planned: the admission filter -/

/-- C12: add_planned returns the plan it was given exactly when the bytecode of
the frame is larger than MVM_SPESH_MAX_BYTECODE_SIZE or the arg guard of the
frame already has an entry for the callsite and the type tuple. Otherwise
num_planned grows by one, the record at the old num_planned carries the given
kind, sf, cs_stats, type_tuple and type_stats, and the records below it are
the ones of the given plan. -/
theorem add_planned_admission (cfg : SpeshConfig) (plan : MVMSpeshPlan)
    (kind : MVMSpeshPlannedKind) (sf : MVMStaticFrame) (cs_stats : MVMSpeshStatsByCallsite)
    (type_tuple : Option (List MVMSpeshStatsType)) (type_stats : List MVMSpeshStatsByType) :
    (add_planned cfg plan kind sf cs_stats type_tuple type_stats = plan ↔
      (sf.bytecode_size > cfg.MVM_SPESH_MAX_BYTECODE_SIZE ∨
        cfg.MVM_spesh_arg_guard_exists sf.spesh_arg_guard cs_stats.cs type_tuple = true)) ∧
    (¬ (sf.bytecode_size > cfg.MVM_SPESH_MAX_BYTECODE_SIZE ∨
        cfg.MVM_spesh_arg_guard_exists sf.spesh_arg_guard cs_stats.cs type_tuple = true) →
      (add_planned cfg plan kind sf cs_stats type_tuple type_stats).num_planned =
        plan.num_planned + 1 ∧
      (∃ p, (add_planned cfg plan kind sf cs_stats type_tuple type_stats).planned[
            plan.num_planned]? = some p ∧
        p.kind = kind ∧ p.sf = sf ∧ p.cs_stats = cs_stats ∧ p.type_tuple = type_tuple ∧
        p.type_stats = type_stats) ∧
      ∀ k, k < plan.num_planned →
        (add_planned cfg plan kind sf cs_stats type_tuple type_stats).planned[k]? =
          plan.planned[k]?) := by
  by_cases h : sf.bytecode_size > cfg.MVM_SPESH_MAX_BYTECODE_SIZE ∨
      cfg.MVM_spesh_arg_guard_exists sf.spesh_arg_guard cs_stats.cs type_tuple = true
  · refine ⟨⟨fun _ => h, fun _ => by simp only [add_planned, if_pos h]⟩, fun hn => absurd h hn⟩
  · have e : add_planned cfg plan kind sf cs_stats type_tuple type_stats =
        { planned := plan.planned ++
            [{ kind := kind
               sf := sf
               cs_stats := cs_stats
               type_tuple := type_tuple
               type_stats := type_stats
               max_depth := planned_max_depth cs_stats type_stats }] } := by
      simp only [add_planned, if_neg h]
    refine ⟨⟨fun heq => ?_, fun hh => absurd hh h⟩, fun _ => ⟨?_, ?_, ?_⟩⟩
    · have hl := congrArg MVMSpeshPlan.num_planned heq
      rw [e] at hl
      simp [MVMSpeshPlan.num_planned] at hl
    · rw [e]; simp [MVMSpeshPlan.num_planned]
    · rw [e]
      refine ⟨{ kind := kind
                sf := sf
                cs_stats := cs_stats
                type_tuple := type_tuple
                type_stats := type_stats
                max_depth := planned_max_depth cs_stats type_stats }, ?_, rfl, rfl, rfl, rfl, rfl⟩
      simp [MVMSpeshPlan.num_planned]
    · intro k hk
      rw [e]
      simp only [MVMSpeshPlan.num_planned] at hk
      simp [List.getElem?_append_left hk]

/-! ## MVM_spesh_plan: the output counters -/

/-- C13: plan_for_cs assigns its own counts to the output cells, so after
MVM_spesh_plan the cells hold the counts of the last call of plan_for_cs. For
one static frame with two callsites that each have 600 and 700 hits and no
type tuples, the plan holds two certain specializations and the cell for
certain specializations holds 1; when the second callsite instead has one type
tuple with 900 of its 1000 hits, the plan holds a certain and an observed-types
specialization and the cell for certain specializations holds 0. -/
theorem spesh_plan_counters_last_call :
    (MVM_spesh_plan ex_cfg
        [ex_plan_sf 1 [ex_by_cs (some ex_cs) 600 [], ex_by_cs none 700 []]] ex_out).map
      (fun r => (r.1.planned.map (·.kind), r.2)) =
      some ([MVMSpeshPlannedKind.MVM_SPESH_PLANNED_CERTAIN,
          MVMSpeshPlannedKind.MVM_SPESH_PLANNED_CERTAIN],
        { in_certain_specialization := some 1
          in_observed_specialization := some 0
          in_osr_specialization := some 0 }) ∧
    (MVM_spesh_plan ex_cfg
        [ex_plan_sf 1 [ex_by_cs (some ex_cs) 600 [],
          ex_by_cs (some ex_cs) 1000 [ex_bucket 900 2 []]]] ex_out).map
      (fun r => (r.1.planned.map (·.kind), r.2)) =
      some ([MVMSpeshPlannedKind.MVM_SPESH_PLANNED_CERTAIN,
          MVMSpeshPlannedKind.MVM_SPESH_PLANNED_OBSERVED_TYPES],
        { in_certain_specialization := some 0
          in_observed_specialization := some 1
          in_osr_specialization := some 0 }) := by
  decide

/-! ## sort_plan: the records are kept, and the recursion ends -/

theorem sort_plan_short (planned : List MVMSpeshPlanned) (h : planned.length ≤ 1) :
    sort_plan planned = some planned := by
  have h2 : ¬ planned.length ≥ 2 := by omega
  simp only [sort_plan, sort_plan_rec, if_neg h2]

theorem sort_plan_pair (a b : MVMSpeshPlanned) (h : a.max_depth = b.max_depth) :
    sort_plan [a, b] = some [b, a] := by
  simp [sort_plan, sort_plan_rec, sort_partition, sort_scan_up, sort_scan_down, h]

/-- C14: sort_plan returns on every array, and the array it leaves is a
permutation of the given one: the same records, each as often as before, hence
the same length. An array of length 0 or 1 is left as it is, and an array of
two records of equal max_depth holds the same two records afterwards (the loop
swaps them). -/
theorem sort_plan_permutation (planned : List MVMSpeshPlanned) :
    ∃ r, sort_plan planned = some r ∧ r.Perm planned ∧ r.length = planned.length ∧
      (∀ p, r.count p = planned.count p) ∧
      (planned.length ≤ 1 → r = planned) ∧
      (∀ a b, planned = [a, b] → a.max_depth = b.max_depth → r = [b, a]) := by
  obtain ⟨r, hr, hperm, _⟩ := sort_plan_spec planned
  refine ⟨r, hr, hperm, hperm.length_eq, fun p => hperm.count_eq p, ?_, ?_⟩
  · intro h
    rw [sort_plan_short planned h] at hr
    exact (Option.some.inj hr).symm
  · intro a b hab hd
    subst hab
    rw [sort_plan_pair a b hd] at hr
    exact (Option.some.inj hr).symm

theorem sort_scan_up_bound (l : List MVMSpeshPlanned) (pv : Nat) :
    ∀ (left i i1 : Nat), sort_scan_up l pv left i = some i1 → i ≤ i1 ∧ i1 < l.length := by
  intro left
  induction left with
  | zero => intro i i1 h; simp [sort_scan_up] at h
  | succ left ih =>
    intro i i1 h
    unfold sort_scan_up at h
    cases hp : l[i]? with
    | none => simp [hp] at h
    | some p =>
      have hi : i < l.length := (List.getElem?_eq_some_iff.1 hp).1
      simp only [hp] at h
      by_cases hd : p.max_depth > pv
      · rw [if_pos hd] at h
        have := ih (i + 1) i1 h
        omega
      · rw [if_neg hd] at h
        have e : i = i1 := Option.some.inj h
        omega

theorem sort_scan_down_bound (l : List MVMSpeshPlanned) (pv : Nat) :
    ∀ (j j1 : Nat), sort_scan_down l pv j = some j1 → j1 ≤ j ∧ j1 < l.length := by
  intro j
  induction j with
  | zero =>
    intro j1 h
    unfold sort_scan_down at h
    cases hp : l[0]? with
    | none => simp [hp] at h
    | some p =>
      have hi : 0 < l.length := (List.getElem?_eq_some_iff.1 hp).1
      simp only [hp] at h
      by_cases hd : p.max_depth < pv
      · simp [hd] at h
      · rw [if_neg hd] at h
        have e : 0 = j1 := Option.some.inj h
        omega
  | succ j ih =>
    intro j1 h
    unfold sort_scan_down at h
    cases hp : l[j + 1]? with
    | none => simp [hp] at h
    | some p =>
      have hi : j + 1 < l.length := (List.getElem?_eq_some_iff.1 hp).1
      simp only [hp] at h
      by_cases hd : p.max_depth < pv
      · rw [if_pos hd] at h
        have := ih j1 h
        omega
      · rw [if_neg hd] at h
        have e : j + 1 = j1 := Option.some.inj h
        omega

/-- C15: sort_plan returns on every array, whatever the depths. For an array of
length n of at least 2, the partition loop, started at i = 0 and j = n - 1 with
the pivot planned[n / 2], ends (no read outside the array, no wrap of j) with
an array of the same length and a split index i with 1 <= i <= n - 1, so that
both recursive calls get shorter arrays. Every index at which one of the two
scans stops is an index of the array, and the scans only move i up and j
down. -/
theorem sort_plan_terminates (planned : List MVMSpeshPlanned) :
    (∃ r, sort_plan planned = some r) ∧
    (planned.length ≥ 2 →
      ∃ pivot parted i, planned[planned.length / 2]? = some pivot ∧
        sort_partition pivot.max_depth planned.length planned 0 (planned.length - 1) =
          some (parted, i) ∧
        parted.length = planned.length ∧ 1 ≤ i ∧ i ≤ planned.length - 1 ∧
        (parted.take i).length < planned.length ∧
        (parted.drop i).length < planned.length) ∧
    (∀ pv left i i1, sort_scan_up planned pv left i = some i1 →
      i ≤ i1 ∧ i1 < planned.length) ∧
    (∀ pv j j1, sort_scan_down planned pv j = some j1 → j1 ≤ j ∧ j1 < planned.length) := by
  refine ⟨?_, ?_, fun pv => sort_scan_up_bound planned pv,
    fun pv => sort_scan_down_bound planned pv⟩
  · obtain ⟨r, hr, _⟩ := sort_plan_spec planned
    exact ⟨r, hr⟩
  · intro h2
    have hmid : planned.length / 2 < planned.length := by omega
    obtain ⟨pivot, hpivot⟩ : ∃ pivot, planned[planned.length / 2]? = some pivot :=
      ⟨_, List.getElem?_eq_getElem hmid⟩
    obtain ⟨l1, s, hpart, hperm, hs1, hslt, _, _, _⟩ :=
      sort_partition_spec pivot.max_depth planned.length planned 0 (planned.length - 1)
        (by omega) (by omega)
        (by intro m p hm; omega)
        (by
          intro m p hm hp
          have := (List.getElem?_eq_some_iff.1 hp).1
          omega)
        ⟨planned.length / 2, pivot, by omega, hpivot, le_refl _⟩
        ⟨planned.length / 2, pivot, by omega, hpivot, le_refl _, by omega⟩
    have hl1 : l1.length = planned.length := hperm.length_eq
    refine ⟨pivot, l1, s, hpivot, hpart, hl1, hs1, by omega, ?_, ?_⟩
    · simp only [List.length_take]; omega
    · simp only [List.length_drop]; omega

/-! ## MVM_spesh_deopt_one: the plain case, the failure, and the direct entry -/

theorem toInt32_of_lt {t : Nat} (h : t < 2147483648) : toInt32 (t : Int) = t := by
  unfold toInt32
  omega

theorem materialize_ok_of_no_point (cand : MVMSpeshCandidate) (deopt_offset : Int)
    (hpea : ∀ dp ∈ cand.deopt_pea_deopt_point, dp.deopt_point_idx ≠ deopt_offset) :
    materialize_replaced_objects cand deopt_offset = .ok () := by
  unfold materialize_replaced_objects
  rw [if_neg]
  simp only [List.any_eq_true, decide_eq_true_eq, not_exists, not_and]
  exact fun dp hdp => hpea dp hdp

/-- MVM_spesh_deopt_one for a current frame whose candidate has no inline table
and no PEA deopt point at the derived offset: the state it returns. -/
theorem deopt_one_plain (tc : MVMThreadContext) (deopt_target : Nat)
    (fr : MVMFrame) (cand : MVMSpeshCandidate)
    (hcur : tc.frames[tc.cur_frame]? = some fr)
    (hcand : fr.spesh_cand = some cand)
    (hinl : cand.inlines = none)
    (hpea : ∀ dp ∈ cand.deopt_pea_deopt_point,
      dp.deopt_point_idx ≠ toInt32 (toUInt32 (tc.interp_cur_op - cand.bytecode))) :
    MVM_spesh_deopt_one tc deopt_target = .ok
      (modifyFrame
        { deopt_named_args_used (clear_dynlex_cache tc tc.cur_frame) tc.cur_frame cand with
          interp_cur_op := fr.static_info.bytecode + toInt32 deopt_target
          interp_bytecode_start := fr.static_info.bytecode }
        tc.cur_frame fun g => { g with effective_spesh_slots := none, spesh_cand := none }) := by
  have h1 := frames_clear_dynlex_cache tc tc.cur_frame fr hcur
  have hcf : (clear_dynlex_cache tc tc.cur_frame).cur_frame = tc.cur_frame := by
    simp [clear_dynlex_cache]
  have hop : (clear_dynlex_cache tc tc.cur_frame).interp_cur_op = tc.interp_cur_op := by
    simp [clear_dynlex_cache]
  have hmat := materialize_ok_of_no_point cand _ hpea
  unfold MVM_spesh_deopt_one
  simp only [getFrame_eq_ok h1, hcand, hcf, hop]
  unfold deopt_frame
  simp only [getFrame_eq_ok h1, hcand, hmat, hinl]
  rfl

/-- C16, as stated, fails: the target is passed to deopt_frame as an MVMint32.
For the frame of ex_tc_plain (no inline table, no PEA deopt point, generic
bytecode at 1000) and the target 2147483648, MVM_spesh_deopt_one leaves
interp_cur_op at 1000 - 2147483648 and not at 1000 + 2147483648. -/
theorem deopt_one_plain_target_counterexample :
    (match MVM_spesh_deopt_one ex_tc_plain 2147483648 with
      | .ok tc1 => some tc1.interp_cur_op
      | .error _ => none) = some (1000 - 2147483648) ∧
    (ex_frame none (some ex_cand_plain) 77).static_info.bytecode + (2147483648 : Nat) ≠
      1000 - 2147483648 := by
  decide

/-- C16, amended: for a current frame whose candidate has no inline table and
no PEA deopt point at the derived offset, and for a target t below 2^31,
MVM_spesh_deopt_one returns, interp_cur_op is the generic bytecode of the
frame plus t, interp_bytecode_start is the generic bytecode, the frame has
neither candidate nor spesh slots, its return_address, caller and registers
are as before, cur_frame is as before, and every other frame is as before. -/
theorem deopt_one_plain_target (tc : MVMThreadContext) (t : Nat)
    (fr : MVMFrame) (cand : MVMSpeshCandidate)
    (hcur : tc.frames[tc.cur_frame]? = some fr)
    (hcand : fr.spesh_cand = some cand)
    (hinl : cand.inlines = none)
    (hpea : ∀ dp ∈ cand.deopt_pea_deopt_point,
      dp.deopt_point_idx ≠ toInt32 (toUInt32 (tc.interp_cur_op - cand.bytecode)))
    (ht : t < 2147483648) :
    ∃ tc1, MVM_spesh_deopt_one tc t = .ok tc1 ∧
      tc1.interp_cur_op = fr.static_info.bytecode + t ∧
      tc1.interp_bytecode_start = fr.static_info.bytecode ∧
      tc1.cur_frame = tc.cur_frame ∧
      tc1.frames.length = tc.frames.length ∧
      (∃ g, tc1.frames[tc.cur_frame]? = some g ∧ g.spesh_cand = none ∧
        g.effective_spesh_slots = none ∧ g.return_address = fr.return_address ∧
        g.caller = fr.caller ∧ g.work = fr.work ∧ g.env = fr.env ∧
        g.static_info = fr.static_info) ∧
      (∀ i, i ≠ tc.cur_frame → tc1.frames[i]? = tc.frames[i]?) := by
  refine ⟨_, deopt_one_plain tc t fr cand hcur hcand hinl hpea, ?_, ?_, ?_, ?_, ?_, ?_⟩
  · simp [toInt32_of_lt ht]
  · simp
  · simp [deopt_named_args_used, clear_dynlex_cache]
  · simp [deopt_named_args_used, clear_dynlex_cache, length_modifyFrame]
  · simp [frames_modifyFrame, deopt_named_args_used, clear_dynlex_cache, hcur]
  · intro i hi
    simp [frames_modifyFrame, deopt_named_args_used, clear_dynlex_cache, hi]

/-- Witness for C16, amended: deopt table (10, 40), (30, 80), the interpreter
at specialized offset 80, target 10. -/
theorem deopt_one_plain_target_witness :
    ∃ tc1, MVM_spesh_deopt_one ex_tc_plain 10 = .ok tc1 ∧
      tc1.interp_cur_op = (ex_frame none (some ex_cand_plain) 77).static_info.bytecode +
        (10 : Nat) ∧
      tc1.interp_bytecode_start = (ex_frame none (some ex_cand_plain) 77).static_info.bytecode ∧
      tc1.cur_frame = ex_tc_plain.cur_frame ∧
      tc1.frames.length = ex_tc_plain.frames.length ∧
      (∃ g, tc1.frames[ex_tc_plain.cur_frame]? = some g ∧ g.spesh_cand = none ∧
        g.effective_spesh_slots = none ∧
        g.return_address = (ex_frame none (some ex_cand_plain) 77).return_address ∧
        g.caller = (ex_frame none (some ex_cand_plain) 77).caller ∧
        g.work = (ex_frame none (some ex_cand_plain) 77).work ∧
        g.env = (ex_frame none (some ex_cand_plain) 77).env ∧
        g.static_info = (ex_frame none (some ex_cand_plain) 77).static_info) ∧
      (∀ i, i ≠ ex_tc_plain.cur_frame → tc1.frames[i]? = ex_tc_plain.frames[i]?) :=
  deopt_one_plain_target ex_tc_plain 10 (ex_frame none (some ex_cand_plain) 77) ex_cand_plain
    rfl rfl rfl (fun dp hdp => by simp [ex_cand_plain] at hdp) (by decide)

theorem getFrame_error {tc : MVMThreadContext} {p : Nat} {e : DeoptError}
    (h : getFrame tc p = .error e) : e = .fault := by
  unfold getFrame at h
  split at h
  · cases h
  · cases h; rfl

theorem uninline_iter_error {f : Nat} {cand : MVMSpeshCandidate} {offset deopt_offset : Int}
    {callee : Option Nat} {st : MVMThreadContext × Option UninlineLast} {inl : MVMSpeshInline}
    {e : DeoptError}
    (h : uninline_iter f cand offset deopt_offset callee st inl = .error e) :
    ∀ s, e ≠ .oops_deopt_one_failed s := by
  unfold uninline_iter at h
  by_cases hm : inline_matches offset inl = true
  · simp only [hm, if_true] at h
    cases hg : getFrame st.1 f with
    | error e1 =>
      simp only [hg] at h
      cases h
      rw [getFrame_error hg]
      exact fun _ h => DeoptError.noConfusion h
    | ok fr =>
      simp only [hg] at h
      cases hw : fr.work inl.code_ref_reg with
      | i64 v =>
        simp only [hw] at h
        cases h
        exact fun _ h => DeoptError.noConfusion h
      | o ucode =>
        simp only [hw] at h
        by_cases hr : ucode.repr_id ≠ REPRId.MVM_REPR_ID_MVMCode
        · rw [if_pos hr] at h
          cases h
          exact fun _ h => DeoptError.noConfusion h
        · rw [if_neg hr] at h
          cases hl : st.2 with
          | some last =>
            simp only [hl] at h
            cases h
          | none =>
            simp only [hl] at h
            cases callee with
            | some c =>
              simp only at h
              by_cases hv : fr.return_type = MVMReturnType.MVM_RETURN_VOID
              · rw [if_pos hv] at h
                cases h
              · rw [if_neg hv] at h
                cases hrv : fr.return_value with
                | none =>
                  simp only [hrv] at h
                  cases h
                  exact fun _ h => DeoptError.noConfusion h
                | some r =>
                  simp only [hrv] at h
                  cases h
            | none =>
              simp only at h
              split at h
              · rename_i e1 hg2
                cases h
                rw [getFrame_error hg2]
                exact fun _ h => DeoptError.noConfusion h
              · cases h
  · simp only [hm] at h
    cases h

theorem uninline_loop_error {f : Nat} {cand : MVMSpeshCandidate} {offset deopt_offset : Int}
    {callee : Option Nat} {e : DeoptError} :
    ∀ (tbl : List MVMSpeshInline) (st : MVMThreadContext × Option UninlineLast),
      uninline_loop f cand offset deopt_offset callee tbl st = .error e →
      ∀ s, e ≠ .oops_deopt_one_failed s := by
  intro tbl
  induction tbl with
  | nil =>
    intro st h
    simp [uninline_loop] at h
  | cons inl rest ih =>
    intro st h
    unfold uninline_loop at h
    cases hi : uninline_iter f cand offset deopt_offset callee st inl with
    | error e1 =>
      simp only [hi] at h
      cases h
      exact uninline_iter_error hi
    | ok st1 =>
      simp only [hi] at h
      exact ih st1 h

theorem uninline_error {tc : MVMThreadContext} {f : Nat} {cand : MVMSpeshCandidate}
    {offset deopt_offset : Int} {callee : Option Nat} {e : DeoptError}
    (h : uninline tc f cand offset deopt_offset callee = .error e) :
    ∀ s, e ≠ .oops_deopt_one_failed s := by
  unfold uninline at h
  cases hl : uninline_loop f cand offset deopt_offset callee (cand.inlines.getD []) (tc, none) with
  | error e1 =>
    simp only [hl] at h
    cases h
    exact uninline_loop_error _ _ hl
  | ok st =>
    simp only [hl] at h
    unfold uninline_finish at h
    cases hs : st.2 with
    | some last =>
      simp only [hs] at h
      cases h
    | none =>
      simp only [hs] at h
      cases callee with
      | some c =>
        simp only at h
        cases h
      | none =>
        simp only at h
        split at h
        · rename_i e1 hg
          cases h
          rw [getFrame_error hg]
          exact fun _ h => DeoptError.noConfusion h
        · cases h

theorem deopt_frame_error {tc : MVMThreadContext} {f : Nat} {deopt_offset deopt_target : Int}
    {e : DeoptError} (h : deopt_frame tc f deopt_offset deopt_target = .error e) :
    ∀ s, e ≠ .oops_deopt_one_failed s := by
  unfold deopt_frame at h
  cases hg : getFrame tc f with
  | error e1 =>
    simp only [hg] at h
    cases h
    rw [getFrame_error hg]
    exact fun _ h => DeoptError.noConfusion h
  | ok fr =>
    simp only [hg] at h
    cases hc : fr.spesh_cand with
    | none =>
      simp only [hc] at h
      cases h
      exact fun _ h => DeoptError.noConfusion h
    | some cand =>
      simp only [hc] at h
      cases hmat : materialize_replaced_objects cand deopt_offset with
      | error e1 =>
        simp only [hmat] at h
        cases h
        unfold materialize_replaced_objects at hmat
        split at hmat
        · cases hmat; exact fun _ h => DeoptError.noConfusion h
        · cases hmat
      | ok u =>
        simp only [hmat] at h
        by_cases hin : cand.inlines.isSome = true
        · simp only [hin, if_true] at h
          cases hu : uninline (deopt_named_args_used tc f cand) f cand deopt_offset deopt_target
              none with
          | error e1 =>
            simp only [hu] at h
            cases h
            exact uninline_error hu
          | ok tc2 =>
            simp only [hu] at h
            cases h
        · simp only [hin] at h
          cases h

/-- C17: MVM_spesh_deopt_one ends in the oops 'deopt_one failed' exactly when
the current frame has no candidate. In the state in which it then halts, the
interpreter slots (cur_op, bytecode_start, reg_base, cu), cur_frame and the
number of frames are those of the given state, and every frame has the
return_address, caller, candidate, spesh slots and registers it had (the
dynlex cache of the current frame has been cleared). -/
theorem deopt_one_oops_iff (tc : MVMThreadContext) (deopt_target : Nat) :
    ((∃ s, MVM_spesh_deopt_one tc deopt_target = .error (.oops_deopt_one_failed s)) ↔
      ∃ fr, tc.frames[tc.cur_frame]? = some fr ∧ fr.spesh_cand = none) ∧
    ∀ s, MVM_spesh_deopt_one tc deopt_target = .error (.oops_deopt_one_failed s) →
      s.interp_cur_op = tc.interp_cur_op ∧
      s.interp_bytecode_start = tc.interp_bytecode_start ∧
      s.interp_reg_base = tc.interp_reg_base ∧
      s.interp_cu = tc.interp_cu ∧
      s.cur_frame = tc.cur_frame ∧
      s.current_frame_nr = tc.current_frame_nr ∧
      s.frames.length = tc.frames.length ∧
      ∀ (i : Nat) (g : MVMFrame), tc.frames[i]? = some g →
        ∃ g1, s.frames[i]? = some g1 ∧
          g1.return_address = g.return_address ∧ g1.caller = g.caller ∧
          g1.spesh_cand = g.spesh_cand ∧
          g1.effective_spesh_slots = g.effective_spesh_slots ∧
          g1.return_type = g.return_type ∧ g1.return_value = g.return_value ∧
          g1.work = g.work ∧ g1.env = g.env := by
  have hstate : ∀ s, MVM_spesh_deopt_one tc deopt_target = .error (.oops_deopt_one_failed s) →
      (∃ fr, tc.frames[tc.cur_frame]? = some fr ∧ fr.spesh_cand = none) ∧
      s = clear_dynlex_cache tc tc.cur_frame := by
    intro s h
    cases hcur : tc.frames[tc.cur_frame]? with
    | none =>
      have hg : getFrame (clear_dynlex_cache tc tc.cur_frame) tc.cur_frame = .error .fault := by
        simp [getFrame, clear_dynlex_cache, modifyFrame, hcur]
      unfold MVM_spesh_deopt_one at h
      simp only [hg] at h
      cases h
    | some fr =>
      have h1 := frames_clear_dynlex_cache tc tc.cur_frame fr hcur
      unfold MVM_spesh_deopt_one at h
      cases hc : fr.spesh_cand with
      | none =>
        simp only [getFrame_eq_ok h1, hc] at h
        cases h
        exact ⟨⟨fr, rfl, hc⟩, rfl⟩
      | some cand =>
        exfalso
        simp only [getFrame_eq_ok h1, hc] at h
        exact deopt_frame_error h s rfl
  refine ⟨⟨fun ⟨s, h⟩ => (hstate s h).1, ?_⟩, ?_⟩
  · rintro ⟨fr, hcur, hc⟩
    have h1 := frames_clear_dynlex_cache tc tc.cur_frame fr hcur
    refine ⟨clear_dynlex_cache tc tc.cur_frame, ?_⟩
    unfold MVM_spesh_deopt_one
    simp only [getFrame_eq_ok h1, hc]
  · intro s h
    obtain ⟨_, hs⟩ := hstate s h
    subst hs
    refine ⟨?_, ?_, ?_, ?_, ?_, ?_, ?_, ?_⟩
    · simp [clear_dynlex_cache]
    · simp [clear_dynlex_cache]
    · simp [clear_dynlex_cache]
    · simp [clear_dynlex_cache]
    · simp [clear_dynlex_cache]
    · simp [clear_dynlex_cache]
    · simp [clear_dynlex_cache, length_modifyFrame]
    · intro i g hg
      by_cases hi : i = tc.cur_frame
      · subst hi
        exact ⟨_, frames_clear_dynlex_cache tc tc.cur_frame g hg, rfl, rfl, rfl, rfl, rfl, rfl,
          rfl, rfl⟩
      · refine ⟨g, ?_, rfl, rfl, rfl, rfl, rfl, rfl, rfl, rfl⟩
        simp [clear_dynlex_cache, frames_modifyFrame, hi, hg]

/-- Witness for C17: the current frame of ex_tc_stack has no candidate;
MVM_spesh_deopt_one halts in the oops, in a state with the interpreter slots
and frame links of ex_tc_stack. -/
theorem deopt_one_oops_iff_witness :
    ∃ s, MVM_spesh_deopt_one ex_tc_stack 10 = .error (.oops_deopt_one_failed s) ∧
      s.interp_cur_op = ex_tc_stack.interp_cur_op ∧
      s.interp_bytecode_start = ex_tc_stack.interp_bytecode_start ∧
      s.interp_reg_base = ex_tc_stack.interp_reg_base ∧
      s.interp_cu = ex_tc_stack.interp_cu ∧
      s.cur_frame = ex_tc_stack.cur_frame ∧
      s.current_frame_nr = ex_tc_stack.current_frame_nr ∧
      s.frames.length = ex_tc_stack.frames.length ∧
      ∀ (i : Nat) (g : MVMFrame), ex_tc_stack.frames[i]? = some g →
        ∃ g1, s.frames[i]? = some g1 ∧
          g1.return_address = g.return_address ∧ g1.caller = g.caller ∧
          g1.spesh_cand = g.spesh_cand ∧
          g1.effective_spesh_slots = g.effective_spesh_slots ∧
          g1.return_type = g.return_type ∧ g1.return_value = g.return_value ∧
          g1.work = g.work ∧ g1.env = g.env :=
  ((deopt_one_oops_iff ex_tc_stack 10).1.2 ⟨ex_frame (some 1) none 0, rfl, rfl⟩).imp
    fun s h => ⟨h, (deopt_one_oops_iff ex_tc_stack 10).2 s h⟩

/-- C18: when the current frame has a candidate, MVM_spesh_deopt_one gives the
result (state or error) of MVM_spesh_deopt_one_direct called with the offset
interp_cur_op - candidate.bytecode as its MVMuint32 argument and with the same
target. -/
theorem deopt_one_eq_direct (tc : MVMThreadContext) (deopt_target : Nat)
    (fr : MVMFrame) (cand : MVMSpeshCandidate)
    (hcur : tc.frames[tc.cur_frame]? = some fr)
    (hcand : fr.spesh_cand = some cand) :
    MVM_spesh_deopt_one tc deopt_target =
      MVM_spesh_deopt_one_direct tc (toUInt32 (tc.interp_cur_op - cand.bytecode))
        deopt_target := by
  have h1 := frames_clear_dynlex_cache tc tc.cur_frame fr hcur
  have hop : (clear_dynlex_cache tc tc.cur_frame).interp_cur_op = tc.interp_cur_op := by
    simp [clear_dynlex_cache]
  unfold MVM_spesh_deopt_one MVM_spesh_deopt_one_direct
  simp only [getFrame_eq_ok h1, hcand, hop]

/-- Witness for C18: the two-level inline scenario (specialized offset 120),
deopt target 10; both entries return. -/
theorem deopt_one_eq_direct_witness :
    MVM_spesh_deopt_one ex_tc 10 =
      MVM_spesh_deopt_one_direct ex_tc (toUInt32 (ex_tc.interp_cur_op - ex_cand.bytecode)) 10 ∧
    toUInt32 (ex_tc.interp_cur_op - ex_cand.bytecode) = 120 ∧
    (match MVM_spesh_deopt_one_direct ex_tc 120 10 with
      | .ok tc1 => some (tc1.cur_frame, tc1.interp_cur_op, tc1.frames.length)
      | .error _ => none) = some (1, 2010, 3) :=
  ⟨deopt_one_eq_direct ex_tc 10 ex_outer ex_cand rfl rfl, by decide, by decide⟩

/-! ## MVM_spesh_deopt_find_inactive_frame_deopt_idx -/

theorem find?_range_spec (p : Nat → Bool) :
    ∀ n : Nat,
      ((List.range n).find? p = none ∧ ∀ j, j < n → p j = false) ∨
      ∃ k, (List.range n).find? p = some k ∧ k < n ∧ p k = true ∧ ∀ j, j < k → p j = false := by
  intro n
  induction n with
  | zero => exact Or.inl ⟨by simp, fun j hj => by omega⟩
  | succ n ih =>
    rw [List.range_succ, List.find?_append]
    rcases ih with ⟨hnone, hall⟩ | ⟨k, hk, hlt, hpk, hbefore⟩
    · rw [hnone]
      by_cases hp : p n = true
      · refine Or.inr ⟨n, by simp [hp], by omega, hp, fun j hj => hall j hj⟩
      · refine Or.inl ⟨by simp [hp], fun j hj => ?_⟩
        by_cases hjn : j = n
        · subst hjn; simpa using hp
        · exact hall j (by omega)
    · rw [hk]
      exact Or.inr ⟨k, by simp, by omega, hpk, hbefore⟩

theorem find_deopt_idx_loop_spec (cand : MVMSpeshCandidate) (ret_offset : Int) (pairs : Nat) :
    (find_deopt_idx_loop cand ret_offset pairs = -1 ∧
      ∀ j, j < pairs → cand.deopts (2 * j + 1) ≠ ret_offset) ∨
    ∃ k : Nat, find_deopt_idx_loop cand ret_offset pairs = (k : Int) ∧ k < pairs ∧
      cand.deopts (2 * k + 1) = ret_offset ∧
      ∀ j, j < k → cand.deopts (2 * j + 1) ≠ ret_offset := by
  unfold find_deopt_idx_loop
  rcases find?_range_spec (fun k => decide (cand.deopts (2 * k + 1) = ret_offset)) pairs with
    ⟨hnone, hall⟩ | ⟨k, hk, hlt, hpk, hbefore⟩
  · left
    rw [hnone]
    exact ⟨rfl, fun j hj => of_decide_eq_false (hall j hj)⟩
  · right
    rw [hk]
    exact ⟨k, rfl, hlt, of_decide_eq_true hpk, fun j hj => of_decide_eq_false (hbefore j hj)⟩

/-- The scan of the deopt table: the number of pairs it visits, and what it
returns. -/
theorem find_deopt_idx_spec (cand : MVMSpeshCandidate) (ret_offset : Int) :
    (find_deopt_idx cand ret_offset = -1 ∧
      ∀ j, j < ((toInt32 ((cand.num_deopts : Int) * 2)).toNat + 1) / 2 →
        cand.deopts (2 * j + 1) ≠ ret_offset) ∨
    ∃ k : Nat, find_deopt_idx cand ret_offset = (k : Int) ∧
      k < ((toInt32 ((cand.num_deopts : Int) * 2)).toNat + 1) / 2 ∧
      cand.deopts (2 * k + 1) = ret_offset ∧
      ∀ j, j < k → cand.deopts (2 * j + 1) ≠ ret_offset :=
  find_deopt_idx_loop_spec cand ret_offset
    (((toInt32 ((cand.num_deopts : Int) * 2)).toNat + 1) / 2)

theorem deopt_pairs_of_small {n : Nat} (h : n < 1073741824) :
    ((toInt32 ((n : Int) * 2)).toNat + 1) / 2 = n := by
  have e : toInt32 ((n : Int) * 2) = ((2 * n : Nat) : Int) := by
    unfold toInt32
    omega
  rw [e, Int.toNat_ofNat]
  omega

theorem toInt32_of_range {x : Int} (hlo : -2147483648 ≤ x) (hhi : x < 2147483648) :
    toInt32 x = x := by
  unfold toInt32
  omega

/-- The result of MVM_spesh_deopt_find_inactive_frame_deopt_idx for a candidate
without JIT code whose deopt table has fewer than 2^30 pairs, when the offset
of the return address in the specialized bytecode is an MVMint32. -/
theorem find_inactive_idx_spec (jit_idx : MVMJitCode → MVMFrame → Nat) (fr : MVMFrame)
    (cand : MVMSpeshCandidate) (hjit : cand.jitcode = none)
    (hn : cand.num_deopts < 1073741824)
    (hlo : -2147483648 ≤ fr.return_address - cand.bytecode)
    (hhi : fr.return_address - cand.bytecode < 2147483648) :
    (MVM_spesh_deopt_find_inactive_frame_deopt_idx jit_idx fr cand = -1 ∧
      ∀ j, j < cand.num_deopts →
        cand.deopts (2 * j + 1) ≠ fr.return_address - cand.bytecode) ∨
    ∃ k : Nat, MVM_spesh_deopt_find_inactive_frame_deopt_idx jit_idx fr cand = (k : Int) ∧
      k < cand.num_deopts ∧
      cand.deopts (2 * k + 1) = fr.return_address - cand.bytecode ∧
      ∀ j, j < k → cand.deopts (2 * j + 1) ≠ fr.return_address - cand.bytecode := by
  have h := find_deopt_idx_spec cand (toInt32 (fr.return_address - cand.bytecode))
  rw [deopt_pairs_of_small hn, toInt32_of_range hlo hhi] at h
  unfold MVM_spesh_deopt_find_inactive_frame_deopt_idx
  simp only [hjit]
  rw [toInt32_of_range hlo hhi]
  exact h

/-- C19, as stated, fails: the locals ret_offset and n of the scan are
MVMint32. A frame of ex_cand_plain whose return address is 2^32 + 80 bytes
behind the specialized bytecode gets index 1, though no entry of the table
(10, 40), (30, 80) equals that offset; and for the same table with num_deopts =
2^30 and a return address at offset 80 the result is -1, though entry 1
matches. -/
theorem find_inactive_frame_deopt_idx_first_counterexample :
    (MVM_spesh_deopt_find_inactive_frame_deopt_idx (fun _ _ => 0)
        (ex_frame none (some ex_cand_plain) (5000 + 4294967296 + 80)) ex_cand_plain = 1 ∧
      ex_cand_plain.jitcode = none ∧
      ∀ i, i < ex_cand_plain.num_deopts → ex_cand_plain.deopts (2 * i + 1) ≠
        (ex_frame none (some ex_cand_plain) (5000 + 4294967296 + 80)).return_address -
          ex_cand_plain.bytecode) ∧
    (MVM_spesh_deopt_find_inactive_frame_deopt_idx (fun _ _ => 0)
        (ex_frame none (some ex_cand_huge) 5080) ex_cand_huge = -1 ∧
      ex_cand_huge.jitcode = none ∧ 1 < ex_cand_huge.num_deopts ∧
      ex_cand_huge.deopts (2 * 1 + 1) =
        (ex_frame none (some ex_cand_huge) 5080).return_address - ex_cand_huge.bytecode) :=
  ⟨⟨by decide, rfl, by decide⟩, by decide, rfl, by decide, by decide⟩

/-- C19, amended: for a frame whose candidate has no JIT code, whose deopt
table has fewer than 2^30 pairs, and whose return address has an offset in the
specialized bytecode within the range of MVMint32,
MVM_spesh_deopt_find_inactive_frame_deopt_idx returns -1 or an index below
num_deopts; it returns i exactly when i is the smallest index below num_deopts
with deopts[2i+1] = return_address - candidate.bytecode, and -1 exactly when
there is no such index. -/
theorem find_inactive_frame_deopt_idx_first (jit_idx : MVMJitCode → MVMFrame → Nat)
    (fr : MVMFrame) (cand : MVMSpeshCandidate) (hjit : cand.jitcode = none)
    (hn : cand.num_deopts < 1073741824)
    (hlo : -2147483648 ≤ fr.return_address - cand.bytecode)
    (hhi : fr.return_address - cand.bytecode < 2147483648) :
    (MVM_spesh_deopt_find_inactive_frame_deopt_idx jit_idx fr cand = -1 ∨
      ∃ k : Nat, MVM_spesh_deopt_find_inactive_frame_deopt_idx jit_idx fr cand = (k : Int) ∧
        k < cand.num_deopts) ∧
    (∀ i : Nat, MVM_spesh_deopt_find_inactive_frame_deopt_idx jit_idx fr cand = (i : Int) ↔
      (i < cand.num_deopts ∧ cand.deopts (2 * i + 1) = fr.return_address - cand.bytecode ∧
        ∀ j, j < i → cand.deopts (2 * j + 1) ≠ fr.return_address - cand.bytecode)) ∧
    (MVM_spesh_deopt_find_inactive_frame_deopt_idx jit_idx fr cand = -1 ↔
      ∀ i, i < cand.num_deopts →
        cand.deopts (2 * i + 1) ≠ fr.return_address - cand.bytecode) := by
  rcases find_inactive_idx_spec jit_idx fr cand hjit hn hlo hhi with
    ⟨hr, hall⟩ | ⟨k, hr, hk, hm, hbefore⟩
  · refine ⟨Or.inl hr, fun i => ⟨fun h => ?_, fun h => ?_⟩, ⟨fun _ => hall, fun _ => hr⟩⟩
    · rw [hr] at h; omega
    · exact absurd h.2.1 (hall i h.1)
  · refine ⟨Or.inr ⟨k, hr, hk⟩, fun i => ⟨fun h => ?_, fun h => ?_⟩, ⟨fun h => ?_, fun h => ?_⟩⟩
    · rw [hr] at h
      have e : k = i := by omega
      subst e
      exact ⟨hk, hm, hbefore⟩
    · rw [hr]
      have e : k = i := by
        rcases Nat.lt_trichotomy k i with hlt | heq | hgt
        · exact absurd hm (h.2.2 k hlt)
        · exact heq
        · exact absurd h.2.1 (hbefore i hgt)
      rw [e]
    · rw [hr] at h; omega
    · exact absurd hm (h k hk)

/-- Witness for C19: the deopt table (10, 40), (30, 80) and a return address at
specialized offset 80. -/
theorem find_inactive_frame_deopt_idx_first_witness :
    MVM_spesh_deopt_find_inactive_frame_deopt_idx (fun _ _ => 0)
        (ex_frame none (some ex_cand_plain) 5080) ex_cand_plain = (1 : Nat) ∧
    ((MVM_spesh_deopt_find_inactive_frame_deopt_idx (fun _ _ => 0)
        (ex_frame none (some ex_cand_plain) 5080) ex_cand_plain = -1 ∨
      ∃ k : Nat, MVM_spesh_deopt_find_inactive_frame_deopt_idx (fun _ _ => 0)
        (ex_frame none (some ex_cand_plain) 5080) ex_cand_plain = (k : Int) ∧
        k < ex_cand_plain.num_deopts) ∧
    (∀ i : Nat, MVM_spesh_deopt_find_inactive_frame_deopt_idx (fun _ _ => 0)
        (ex_frame none (some ex_cand_plain) 5080) ex_cand_plain = (i : Int) ↔
      (i < ex_cand_plain.num_deopts ∧
        ex_cand_plain.deopts (2 * i + 1) =
          (ex_frame none (some ex_cand_plain) 5080).return_address - ex_cand_plain.bytecode ∧
        ∀ j, j < i → ex_cand_plain.deopts (2 * j + 1) ≠
          (ex_frame none (some ex_cand_plain) 5080).return_address - ex_cand_plain.bytecode)) ∧
    (MVM_spesh_deopt_find_inactive_frame_deopt_idx (fun _ _ => 0)
        (ex_frame none (some ex_cand_plain) 5080) ex_cand_plain = -1 ↔
      ∀ i, i < ex_cand_plain.num_deopts →
        ex_cand_plain.deopts (2 * i + 1) ≠
          (ex_frame none (some ex_cand_plain) 5080).return_address - ex_cand_plain.bytecode)) :=
  ⟨by decide,
    find_inactive_frame_deopt_idx_first (fun _ _ => 0) (ex_frame none (some ex_cand_plain) 5080)
      ex_cand_plain rfl (by decide) (by decide) (by decide)⟩

/-! ## MVM_spesh_deopt_all on a chain without JIT code and inline tables -/

/-- The body of the loop of MVM_spesh_deopt_all for a frame whose candidate, if
any, has neither JIT code nor an inline table: only the frame itself changes,
and the walk goes on. -/
theorem deopt_all_body_plain (jit_idx : MVMJitCode → MVMFrame → Nat) (tc : MVMThreadContext)
    (l f : Nat) (fr : MVMFrame)
    (hf : tc.frames[f]? = some fr)
    (hplain : ∀ cand, fr.spesh_cand = some cand → cand.jitcode = none ∧ cand.inlines = none) :
    ∃ tcA, deopt_all_body jit_idx tc l f = .ok (tcA, WalkNext.continue_walk) ∧
      tcA.frames.length = tc.frames.length ∧
      (∀ i, i ≠ f → tcA.frames[i]? = tc.frames[i]?) ∧
      ∃ fA, tcA.frames[f]? = some fA ∧ PlainDeopted jit_idx fr fA := by
  have hc : (clear_dynlex_cache tc f).frames[f]? = some (dynlex_cleared fr) :=
    frames_clear_dynlex_cache tc f fr hf
  have hcc : (dynlex_cleared fr).spesh_cand = fr.spesh_cand := rfl
  have hcother : ∀ i, i ≠ f → (clear_dynlex_cache tc f).frames[i]? = tc.frames[i]? := by
    intro i hi
    simp [clear_dynlex_cache, frames_modifyFrame, hi]
  unfold deopt_all_body
  simp only [getFrame_eq_ok hc]
  cases hcand : fr.spesh_cand with
  | none =>
    rw [hcand] at hcc
    simp only [hcc]
    refine ⟨_, rfl, by simp, hcother, _, hc, rfl, rfl, ?_, ?_⟩
    · intro cand h
      rw [hcand] at h
      cases h
    · intro _; exact ⟨rfl, rfl, rfl⟩
  | some cand =>
    rw [hcand] at hcc
    simp only [hcc]
    obtain ⟨hjit, hinl⟩ := hplain cand hcand
    by_cases hidx : MVM_spesh_deopt_find_inactive_frame_deopt_idx jit_idx
        (dynlex_cleared fr) cand ≥ 0
    · simp only [hidx, if_true, hinl, hjit, Option.isSome_none, Bool.false_eq_true, if_false]
      refine ⟨_, rfl, by simp [length_modifyFrame, deopt_named_args_used], ?_, ?_⟩
      · intro i hif
        simp [frames_modifyFrame, deopt_named_args_used, hif, hcother i hif]
      · refine ⟨_, frames_modifyFrame_self _ (frames_modifyFrame_self _
          (frames_modifyFrame_self _ (frames_modifyFrame_self _ hc))), rfl, rfl, ?_, ?_⟩
        · intro cand1 h1 _
          rw [hcand] at h1
          cases h1
          exact ⟨rfl, rfl, rfl⟩
        · rintro (h | ⟨cand1, h1, h2⟩)
          · rw [hcand] at h
            cases h
          · rw [hcand] at h1
            cases h1
            exact absurd hidx h2
    · simp only [hidx, if_false]
      refine ⟨_, rfl, by simp, hcother, _, hc, rfl, rfl, ?_, ?_⟩
      · intro cand1 h1 h2
        rw [hcand] at h1
        cases h1
        exact absurd h2 hidx
      · intro _; exact ⟨rfl, rfl, rfl⟩

/-- The loop of MVM_spesh_deopt_all along a caller chain on which no candidate
has JIT code or an inline table: it returns, no frame is added, frames outside
the chain are not changed, and every frame of the chain is changed as the body
of the loop changes it. -/
theorem deopt_all_loop_plain (jit_idx : MVMJitCode → MVMFrame → Nat) (tc0 : MVMThreadContext) :
    ∀ (rest : List Nat) (fuel : Nat) (tc : MVMThreadContext) (l : Nat) (fo : Option Nat),
      rest.length ≤ fuel →
      is_caller_chain tc0.frames fo rest = true →
      (∀ f ∈ rest, tc.frames[f]? = tc0.frames[f]?) →
      rest.Nodup →
      (∀ f ∈ rest, ∀ fr cand, tc0.frames[f]? = some fr → fr.spesh_cand = some cand →
        cand.jitcode = none ∧ cand.inlines = none) →
      ∃ tc1, deopt_all_loop jit_idx fuel tc l fo = .ok tc1 ∧
        tc1.frames.length = tc.frames.length ∧
        (∀ i, i ∉ rest → tc1.frames[i]? = tc.frames[i]?) ∧
        ∀ f ∈ rest, ∀ fr, tc0.frames[f]? = some fr →
          ∃ fA, tc1.frames[f]? = some fA ∧ PlainDeopted jit_idx fr fA := by
  intro rest
  induction rest with
  | nil =>
    intro fuel tc l fo _ hchain _ _ _
    have hfo := caller_chain_nil hchain
    subst hfo
    refine ⟨tc, by cases fuel <;> rfl, rfl, fun _ _ => rfl, ?_⟩
    intro f hf
    simp at hf
  | cons f rest ih =>
    intro fuel tc l fo hfuel hchain hframe hnodup hplain
    have hfo := caller_chain_start hchain
    subst hfo
    obtain ⟨_, fr, hfr0, hrest⟩ := caller_chain_cons.1 hchain
    have hfr : tc.frames[f]? = some fr := by
      rw [hframe f (List.mem_cons_self _ _)]; exact hfr0
    have hfnot : f ∉ rest := (List.nodup_cons.1 hnodup).1
    obtain ⟨fuel1, hfuel1⟩ : ∃ fuel1, fuel = fuel1 + 1 := by
      cases fuel with
      | zero => simp at hfuel
      | succ n => exact ⟨n, rfl⟩
    subst hfuel1
    obtain ⟨tcA, hbody, hlenA, holdA, fA, hfA, hPA⟩ :=
      deopt_all_body_plain jit_idx tc l f fr hfr
        (fun cand hc => hplain f (List.mem_cons_self _ _) fr cand hfr0 hc)
    have hrestA : ∀ g ∈ rest, tcA.frames[g]? = tc0.frames[g]? := by
      intro g hg
      rw [holdA g (fun e => hfnot (by rw [← e]; exact hg))]
      exact hframe g (List.mem_cons_of_mem _ hg)
    have hchainA : is_caller_chain tc0.frames fA.caller rest = true := by
      rw [hPA.1]; exact hrest
    obtain ⟨tc1, hloop, hlen1, hold1, hR⟩ :=
      ih fuel1 tcA f fA.caller (by simpa using hfuel) hchainA hrestA
        (List.nodup_cons.1 hnodup).2
        (fun g hg => hplain g (List.mem_cons_of_mem _ hg))
    refine ⟨tc1, ?_, by rw [hlen1, hlenA], ?_, ?_⟩
    · unfold deopt_all_loop
      simp only [hbody, getFrame_eq_ok hfA]
      exact hloop
    · intro i hi
      have hif : i ≠ f := fun e => hi (by rw [e]; exact List.mem_cons_self _ _)
      have hir : i ∉ rest := fun h => hi (List.mem_cons_of_mem _ h)
      rw [hold1 i hir, holdA i hif]
    · intro g hg gr hgr
      rcases List.mem_cons.1 hg with e | hg2
      · subst e
        rw [hfr0] at hgr
        cases hgr
        exact ⟨fA, by rw [hold1 g hfnot]; exact hfA, hPA⟩
      · exact hR g hg2 gr hgr

/-- C20, as stated, fails: the lookup of the deopt index works on MVMint32
values. The caller of the current frame of ex_tc_far runs ex_cand_plain and
will return to an address 2^32 + 80 bytes behind the specialized bytecode; no
entry of the deopt table (10, 40), (30, 80) equals that offset, and yet
MVM_spesh_deopt_all takes its candidate away and sets its return address to
generic offset 30. -/
theorem deopt_all_plain_chain_counterexample :
    (match MVM_spesh_deopt_all (fun _ _ => 0) 1 ex_tc_far with
      | .ok tc1 => tc1.frames.map fun fr => (fr.spesh_cand.isSome, fr.return_address)
      | .error _ => []) = [(false, 77), (false, 1030)] ∧
    ex_tc_far.frames.map (fun fr => (fr.caller, fr.spesh_cand.isSome, fr.return_address)) =
      [(some 1, false, 77), (none, true, 4294972376)] ∧
    ex_cand_plain.jitcode = none ∧ ex_cand_plain.inlines = none ∧
    ∀ i, i < ex_cand_plain.num_deopts →
      ex_cand_plain.deopts (2 * i + 1) ≠ 4294972376 - ex_cand_plain.bytecode :=
  ⟨by decide, by decide, rfl, rfl, by decide⟩

/-- C20, amended: let chain be the caller chain from the caller of the current
frame, on which no candidate has JIT code or an inline table, every deopt table
has fewer than 2^30 pairs and every return address has an offset in the
specialized bytecode within the range of MVMint32, and let the walk have fuel
for it. Then MVM_spesh_deopt_all returns and the current frame is as before. A
frame of the chain keeps its caller; when it has a candidate and i is the first
index with deopts[2i+1] = return_address - candidate.bytecode, it ends without
candidate and spesh slots and with return_address = generic bytecode +
deopts[2i]; when it has no candidate, or a candidate without such an index, it
keeps candidate and return address; and this holds for every frame of the
chain, whatever the frames before it on the chain were. -/
theorem deopt_all_plain_chain (jit_idx : MVMJitCode → MVMFrame → Nat) (fuel : Nat)
    (tc : MVMThreadContext) (cur : MVMFrame) (chain : List Nat)
    (hcur : tc.frames[tc.cur_frame]? = some cur)
    (hchain : is_caller_chain tc.frames cur.caller chain = true)
    (hfuel : chain.length ≤ fuel)
    (hplain : ∀ f ∈ chain, ∀ fr cand, tc.frames[f]? = some fr → fr.spesh_cand = some cand →
      cand.jitcode = none ∧ cand.inlines = none ∧ cand.num_deopts < 1073741824 ∧
      -2147483648 ≤ fr.return_address - cand.bytecode ∧
      fr.return_address - cand.bytecode < 2147483648) :
    ∃ tc1, MVM_spesh_deopt_all jit_idx fuel tc = .ok tc1 ∧
      tc1.frames[tc.cur_frame]? = some cur ∧
      ∀ f ∈ chain, ∀ fr, tc.frames[f]? = some fr →
        ∃ fr1, tc1.frames[f]? = some fr1 ∧ fr1.caller = fr.caller ∧
          (∀ cand i, fr.spesh_cand = some cand → i < cand.num_deopts →
            cand.deopts (2 * i + 1) = fr.return_address - cand.bytecode →
            (∀ j, j < i → cand.deopts (2 * j + 1) ≠ fr.return_address - cand.bytecode) →
            fr1.spesh_cand = none ∧ fr1.effective_spesh_slots = none ∧
            fr1.return_address = fr.static_info.bytecode + cand.deopts (2 * i)) ∧
          (fr.spesh_cand = none →
            fr1.spesh_cand = none ∧ fr1.return_address = fr.return_address) ∧
          (∀ cand, fr.spesh_cand = some cand →
            (∀ i, i < cand.num_deopts →
              cand.deopts (2 * i + 1) ≠ fr.return_address - cand.bytecode) →
            fr1.spesh_cand = some cand ∧ fr1.return_address = fr.return_address) := by
  have hfull : is_caller_chain tc.frames (some tc.cur_frame) (tc.cur_frame :: chain) = true :=
    caller_chain_cons.2 ⟨rfl, cur, hcur, hchain⟩
  have hnot : tc.cur_frame ∉ chain := caller_chain_not_mem hfull
  obtain ⟨tc1, hloop, _, hold, hR⟩ :=
    deopt_all_loop_plain jit_idx tc chain fuel tc tc.cur_frame cur.caller hfuel hchain
      (fun _ _ => rfl) (caller_chain_nodup tc.frames chain cur.caller hchain)
      (fun f hf fr cand hfr hc => ⟨(hplain f hf fr cand hfr hc).1, (hplain f hf fr cand hfr hc).2.1⟩)
  refine ⟨tc1, ?_, by rw [hold _ hnot]; exact hcur, ?_⟩
  · simp only [MVM_spesh_deopt_all, getFrame_eq_ok hcur]
    exact hloop
  · intro f hf fr hfr
    obtain ⟨fA, hfA, hcaller, _, hres, hkeep⟩ := hR f hf fr hfr
    refine ⟨fA, hfA, hcaller, ?_, ?_, ?_⟩
    · intro cand i hc hi hm hfirst
      obtain ⟨hjit, _, hn, hlo, hhi⟩ := hplain f hf fr cand hfr hc
      rcases find_inactive_idx_spec jit_idx (dynlex_cleared fr) cand hjit hn hlo hhi with
        ⟨_, hall⟩ | ⟨k, hr, hk, hmk, hbefore⟩
      · exact absurd hm (hall i hi)
      · have e : k = i := by
          rcases Nat.lt_trichotomy k i with hlt | heq | hgt
          · exact absurd hmk (hfirst k hlt)
          · exact heq
          · exact absurd hm (hbefore i hgt)
        subst e
        have h := hres cand hc (by rw [hr]; omega)
        rw [hr, Int.toNat_ofNat] at h
        exact h
    · intro hc
      have h := hkeep (Or.inl hc)
      exact ⟨by rw [h.1, hc], h.2.1⟩
    · intro cand hc hall
      obtain ⟨hjit, _, hn, hlo, hhi⟩ := hplain f hf fr cand hfr hc
      rcases find_inactive_idx_spec jit_idx (dynlex_cleared fr) cand hjit hn hlo hhi with
        ⟨hr, _⟩ | ⟨k, _, hk, hmk, _⟩
      · have h := hkeep (Or.inr ⟨cand, hc, by rw [hr]; omega⟩)
        exact ⟨by rw [h.1, hc], h.2.1⟩
      · exact absurd hmk (hall k hk)

theorem ex_tc_walk_plain :
    ∀ f ∈ [1, 2, 3], ∀ fr cand, ex_tc_walk.frames[f]? = some fr → fr.spesh_cand = some cand →
      cand.jitcode = none ∧ cand.inlines = none ∧ cand.num_deopts < 1073741824 ∧
      -2147483648 ≤ fr.return_address - cand.bytecode ∧
      fr.return_address - cand.bytecode < 2147483648 := by
  intro f hf fr cand hfr hc
  have hf3 : f = 1 ∨ f = 2 ∨ f = 3 := by simpa using hf
  rcases hf3 with e | e | e <;> subst e <;>
    simp only [ex_tc_walk, List.getElem?_cons_succ, List.getElem?_cons_zero,
      Option.some.injEq] at hfr <;>
    subst hfr <;>
    simp only [ex_frame, Option.some.injEq] at hc <;>
    first
    | (subst hc; exact ⟨rfl, rfl, by decide, by decide, by decide⟩)
    | exact absurd hc (by simp)

/-- Witness for C20: the call stack 0 -> 1 -> 2 -> 3 of ex_tc_walk. Frame 1
returns to specialized offset 80, the second entry of the deopt table (30,
80), and ends without candidate at generic offset 30; frame 2 has no
candidate; frame 3 returns to offset 60, which is not in the table, and keeps
its candidate; the frames behind frame 2 and frame 3 are still visited. -/
theorem deopt_all_plain_chain_witness :
    (match MVM_spesh_deopt_all (fun _ _ => 0) 3 ex_tc_walk with
      | .ok tc1 => tc1.frames.map fun fr => (fr.spesh_cand.isSome, fr.return_address)
      | .error _ => []) = [(true, 77), (false, 1030), (false, 1234), (true, 5060)] ∧
    ∃ tc1, MVM_spesh_deopt_all (fun _ _ => 0) 3 ex_tc_walk = .ok tc1 ∧
      tc1.frames[ex_tc_walk.cur_frame]? = some (ex_frame (some 1) (some ex_cand_plain) 77) ∧
      ∀ f ∈ [1, 2, 3], ∀ fr, ex_tc_walk.frames[f]? = some fr →
        ∃ fr1, tc1.frames[f]? = some fr1 ∧ fr1.caller = fr.caller ∧
          (∀ cand i, fr.spesh_cand = some cand → i < cand.num_deopts →
            cand.deopts (2 * i + 1) = fr.return_address - cand.bytecode →
            (∀ j, j < i → cand.deopts (2 * j + 1) ≠ fr.return_address - cand.bytecode) →
            fr1.spesh_cand = none ∧ fr1.effective_spesh_slots = none ∧
            fr1.return_address = fr.static_info.bytecode + cand.deopts (2 * i)) ∧
          (fr.spesh_cand = none →
            fr1.spesh_cand = none ∧ fr1.return_address = fr.return_address) ∧
          (∀ cand, fr.spesh_cand = some cand →
            (∀ i, i < cand.num_deopts →
              cand.deopts (2 * i + 1) ≠ fr.return_address - cand.bytecode) →
            fr1.spesh_cand = some cand ∧ fr1.return_address = fr.return_address) :=
  ⟨by decide,
    deopt_all_plain_chain (fun _ _ => 0) 3 ex_tc_walk (ex_frame (some 1) (some ex_cand_plain) 77)
      [1, 2, 3] rfl (by decide) (by decide) ex_tc_walk_plain⟩

/-! ## add_planned: the max_depth of an admitted record -/

theorem foldl_max_depth_spec :
    ∀ (rest : List MVMSpeshStatsByType) (d : Nat),
      d ≤ rest.foldl (fun d ts => if ts.max_depth > d then ts.max_depth else d) d ∧
      (∀ ts ∈ rest, ts.max_depth ≤
        rest.foldl (fun d ts => if ts.max_depth > d then ts.max_depth else d) d) ∧
      (rest.foldl (fun d ts => if ts.max_depth > d then ts.max_depth else d) d = d ∨
        ∃ ts ∈ rest, ts.max_depth =
          rest.foldl (fun d ts => if ts.max_depth > d then ts.max_depth else d) d) := by
  intro rest
  induction rest with
  | nil => intro d; exact ⟨le_refl _, fun ts h => by simp at h, Or.inl rfl⟩
  | cons a t ih =>
    intro d
    simp only [List.foldl_cons]
    obtain ⟨h1, h2, h3⟩ := ih (if a.max_depth > d then a.max_depth else d)
    have hd : d ≤ (if a.max_depth > d then a.max_depth else d) := by split <;> omega
    have ha : a.max_depth ≤ (if a.max_depth > d then a.max_depth else d) := by split <;> omega
    refine ⟨le_trans hd h1, ?_, ?_⟩
    · intro ts hts
      rcases List.mem_cons.1 hts with e | hmem
      · subst e; exact le_trans ha h1
      · exact h2 ts hmem
    · rcases h3 with h | ⟨ts, hts, hm⟩
      · by_cases hgt : a.max_depth > d
        · right
          refine ⟨a, List.mem_cons_self _ _, ?_⟩
          rw [h, if_pos hgt]
        · left
          rw [h, if_neg hgt]
      · exact Or.inr ⟨ts, List.mem_cons_of_mem _ hts, hm⟩

/-- The max_depth that add_planned computes: the depth of the callsite when
there is no evidence, and otherwise the largest max_depth of the evidence. -/
theorem planned_max_depth_spec (cs_stats : MVMSpeshStatsByCallsite)
    (type_stats : List MVMSpeshStatsByType) :
    (type_stats = [] → planned_max_depth cs_stats type_stats = cs_stats.max_depth) ∧
    (type_stats ≠ [] →
      (∀ ts ∈ type_stats, ts.max_depth ≤ planned_max_depth cs_stats type_stats) ∧
      ∃ ts ∈ type_stats, ts.max_depth = planned_max_depth cs_stats type_stats) := by
  cases type_stats with
  | nil => exact ⟨fun _ => rfl, fun h => absurd rfl h⟩
  | cons first rest =>
    refine ⟨fun h => List.noConfusion h, fun _ => ?_⟩
    obtain ⟨h1, h2, h3⟩ := foldl_max_depth_spec rest first.max_depth
    constructor
    · intro ts hts
      rcases List.mem_cons.1 hts with e | hmem
      · subst e; exact h1
      · exact h2 ts hmem
    · rcases h3 with h | ⟨ts, hts, hm⟩
      · exact ⟨first, List.mem_cons_self _ _, h.symm⟩
      · exact ⟨ts, List.mem_cons_of_mem _ hts, hm⟩

/-- C21: when add_planned admits the record (the bytecode is not too large and
no arg guard exists for the callsite and type tuple), the record it stores at
the old num_planned has the given evidence and, when there is no evidence, the
max_depth of cs_stats; when there is evidence, its max_depth is the max_depth
of one of the evidence buckets and none of them has a larger one. -/
theorem add_planned_max_depth (cfg : SpeshConfig) (plan : MVMSpeshPlan)
    (kind : MVMSpeshPlannedKind) (sf : MVMStaticFrame) (cs_stats : MVMSpeshStatsByCallsite)
    (type_tuple : Option (List MVMSpeshStatsType)) (type_stats : List MVMSpeshStatsByType)
    (hacc : ¬ (sf.bytecode_size > cfg.MVM_SPESH_MAX_BYTECODE_SIZE ∨
      cfg.MVM_spesh_arg_guard_exists sf.spesh_arg_guard cs_stats.cs type_tuple = true)) :
    ∃ p, (add_planned cfg plan kind sf cs_stats type_tuple type_stats).planned[
        plan.num_planned]? = some p ∧
      p.type_stats = type_stats ∧ p.cs_stats = cs_stats ∧
      (type_stats = [] → p.max_depth = cs_stats.max_depth) ∧
      (type_stats ≠ [] →
        (∀ ts ∈ type_stats, ts.max_depth ≤ p.max_depth) ∧
        ∃ ts ∈ type_stats, ts.max_depth = p.max_depth) := by
  refine ⟨{ kind := kind
            sf := sf
            cs_stats := cs_stats
            type_tuple := type_tuple
            type_stats := type_stats
            max_depth := planned_max_depth cs_stats type_stats }, ?_, rfl, rfl,
    (planned_max_depth_spec cs_stats type_stats).1,
    (planned_max_depth_spec cs_stats type_stats).2⟩
  simp only [add_planned, if_neg hacc]
  simp [MVMSpeshPlan.num_planned]

/-- Witness for C21: an observed-types record with evidence of depths 2, 5 and
3 gets max_depth 5, and a certain record without evidence gets the depth 3 of
the callsite. -/
theorem add_planned_max_depth_witness :
    (∃ p, (add_planned ex_cfg { planned := [] } .MVM_SPESH_PLANNED_OBSERVED_TYPES (ex_plan_sf 1 [])
        (ex_by_cs (some ex_cs) 1000 []) (some [])
        [ex_bucket 10 2 [], ex_bucket 10 5 [], ex_bucket 10 3 []]).planned[
          ({ planned := [] } : MVMSpeshPlan).num_planned]? = some p ∧
      p.type_stats = [ex_bucket 10 2 [], ex_bucket 10 5 [], ex_bucket 10 3 []] ∧
      p.cs_stats = ex_by_cs (some ex_cs) 1000 [] ∧
      ([ex_bucket 10 2 [], ex_bucket 10 5 [], ex_bucket 10 3 []] = [] →
        p.max_depth = (ex_by_cs (some ex_cs) 1000 []).max_depth) ∧
      ([ex_bucket 10 2 [], ex_bucket 10 5 [], ex_bucket 10 3 []] ≠ [] →
        (∀ ts ∈ [ex_bucket 10 2 [], ex_bucket 10 5 [], ex_bucket 10 3 []],
          ts.max_depth ≤ p.max_depth) ∧
        ∃ ts ∈ [ex_bucket 10 2 [], ex_bucket 10 5 [], ex_bucket 10 3 []],
          ts.max_depth = p.max_depth)) ∧
    ((add_planned ex_cfg { planned := [] } .MVM_SPESH_PLANNED_OBSERVED_TYPES (ex_plan_sf 1 [])
        (ex_by_cs (some ex_cs) 1000 []) (some [])
        [ex_bucket 10 2 [], ex_bucket 10 5 [], ex_bucket 10 3 []]).planned.map
      fun p => p.max_depth) = [5] ∧
    ((add_planned ex_cfg { planned := [] } .MVM_SPESH_PLANNED_CERTAIN (ex_plan_sf 1 [])
        (ex_by_cs (some ex_cs) 1000 []) none []).planned.map fun p => p.max_depth) = [3] :=
  ⟨add_planned_max_depth ex_cfg { planned := [] } .MVM_SPESH_PLANNED_OBSERVED_TYPES
      (ex_plan_sf 1 []) (ex_by_cs (some ex_cs) 1000 []) (some [])
      [ex_bucket 10 2 [], ex_bucket 10 5 [], ex_bucket 10 3 []] (by decide),
    by decide, by decide⟩

/-! ## twiddle_stack_depths and sort_plan on a plan of two records -/

theorem planned_of_shape {q q1 : MVMSpeshPlanned} {d : Nat}
    (h : planned_shape q1 = planned_shape q) (hd : q1.max_depth = d) :
    q1 = { q with max_depth := d } := by
  cases q1
  cases q
  simp only [planned_shape, MVMSpeshPlanned.mk.injEq] at h
  simp only at hd
  simp only [MVMSpeshPlanned.mk.injEq]
  exact ⟨h.1, h.2.1, h.2.2.1, h.2.2.2.1, h.2.2.2.2.1, hd⟩

theorem list_pair_eq {α : Type} {l : List α} {a b : α} (hl : l.length = 2)
    (h0 : l[0]? = some a) (h1 : l[1]? = some b) : l = [a, b] := by
  match l, hl with
  | [x, y], _ =>
    simp only [List.getElem?_cons_zero, List.getElem?_cons_succ, Option.some.injEq] at h0 h1
    rw [h0, h1]

/-- The loops of twiddle_stack_depths for the record at index i, when the
evidence of that record invokes neither of the two static frames of the plan
[a, b]: the plan is left as it is. -/
theorem twiddle_planned_pair_none (a b p : MVMSpeshPlanned) (i : Nat)
    (hp : [a, b][i]? = some p)
    (ha : a.sf.addr ∉ invoked_sfs p) (hb : b.sf.addr ∉ invoked_sfs p) :
    twiddle_planned [a, b] i = [a, b] := by
  rw [twiddle_planned_eq]
  simp only [hp]
  obtain ⟨hlen, hel⟩ := twiddle_events_general i (invoked_sfs p) [a, b]
  obtain ⟨q0, hq0, _, hsame0⟩ := hel 0 a rfl
  obtain ⟨q1, hq1, _, hsame1⟩ := hel 1 b rfl
  rw [hsame0 ha] at hq0
  rw [hsame1 hb] at hq1
  exact list_pair_eq hlen hq0 hq1

/-- The loops of twiddle_stack_depths for the record at index i of a plan of
two records, when the evidence of that record invokes the static frame of the
other record and not its own: the other record gets the max_depth of the
record plus one, as an MVMuint32. -/
theorem twiddle_planned_pair_boost (x0 x1 p q : MVMSpeshPlanned) (i j : Nat)
    (hp : [x0, x1][i]? = some p) (hq : [x0, x1][j]? = some q)
    (hpp : p.sf.addr ∉ invoked_sfs p) (hpq : q.sf.addr ∈ invoked_sfs p) :
    (twiddle_planned [x0, x1] i)[i]? = some p ∧
    (twiddle_planned [x0, x1] i)[j]? =
      some { q with max_depth := toUInt32 ((p.max_depth : Int) + 1) } ∧
    (twiddle_planned [x0, x1] i).length = 2 := by
  rw [twiddle_planned_eq]
  simp only [hp]
  obtain ⟨hlen, hel⟩ := twiddle_events_general i (invoked_sfs p) [x0, x1]
  obtain ⟨p1, hp1, _, hsame⟩ := hel i p hp
  obtain ⟨q1, hq1, hshape, _⟩ := hel j q hq
  obtain ⟨q2, hq2, hdepth⟩ :=
    twiddle_events_strong i q.sf.addr p (invoked_sfs p) [x0, x1] hp hpp j q hq rfl (Or.inl hpq)
  rw [hq1] at hq2
  cases hq2
  rw [hsame hpp] at hp1
  exact ⟨hp1, by rw [hq1, planned_of_shape hshape hdepth], by simpa using hlen⟩

theorem invoked_sfs_with_depth (q : MVMSpeshPlanned) (d : Nat) :
    invoked_sfs { q with max_depth := d } = invoked_sfs q := rfl

theorem sort_plan_pair_gt (a b : MVMSpeshPlanned) (h : a.max_depth > b.max_depth) :
    sort_plan [a, b] = some [a, b] ∧ sort_plan [b, a] = some [a, b] := by
  have h1 : ¬ a.max_depth < b.max_depth := by omega
  have h2 : ¬ b.max_depth > a.max_depth := by omega
  constructor
  · simp [sort_plan, sort_plan_rec, sort_partition, sort_scan_up, sort_scan_down, h]
  · simp [sort_plan, sort_plan_rec, sort_partition, sort_scan_up, sort_scan_down, h1, h2]

/-- C22, as stated, fails: max_depth is an MVMuint32. With A.max_depth = 2^32 - 1
the record of B gets max_depth 0 from twiddle_stack_depths, and sort_plan
returns A before B. -/
theorem twiddle_sort_pair_counterexample :
    (ex_planned 2 1 []).sf.addr ∈ invoked_sfs (ex_planned 1 4294967295 [2]) ∧
    (ex_planned 1 4294967295 [2]).sf.addr ∉ invoked_sfs (ex_planned 1 4294967295 [2]) ∧
    (ex_planned 1 4294967295 [2]).sf.addr ∉ invoked_sfs (ex_planned 2 1 []) ∧
    (ex_planned 2 1 []).sf.addr ∉ invoked_sfs (ex_planned 2 1 []) ∧
    (twiddle_stack_depths [ex_planned 1 4294967295 [2], ex_planned 2 1 []]).map
      (fun p => (p.sf.addr, p.max_depth)) = [(1, 4294967295), (2, 0)] ∧
    (sort_plan (twiddle_stack_depths [ex_planned 1 4294967295 [2], ex_planned 2 1 []])).map
      (fun pl => pl.map fun p => (p.sf.addr, p.max_depth)) = some [(1, 4294967295), (2, 0)] ∧
    (sort_plan (twiddle_stack_depths [ex_planned 2 1 [], ex_planned 1 4294967295 [2]])).map
      (fun pl => pl.map fun p => (p.sf.addr, p.max_depth)) = some [(1, 4294967295), (2, 0)] := by
  decide

/-- C22, amended: let A and B be two planned specializations such that the
evidence of A records an invoke of the static frame of B, and neither the
evidence of A nor that of B records an invoke of the static frame of A, and
that of B none of the static frame of B (so the two static frames are
distinct). For the plan of the two records, in either order,
twiddle_stack_depths leaves A as it is and gives B the max_depth of A plus one
as an MVMuint32; when A.max_depth is below 2^32 - 1 this is A.max_depth + 1, and
sort_plan then returns the plan with B before A. -/
theorem twiddle_sort_pair (A B : MVMSpeshPlanned)
    (hAB : B.sf.addr ∈ invoked_sfs A) (hAA : A.sf.addr ∉ invoked_sfs A)
    (hBA : A.sf.addr ∉ invoked_sfs B) (hBB : B.sf.addr ∉ invoked_sfs B) :
    A.sf.addr ≠ B.sf.addr ∧
    twiddle_stack_depths [A, B] =
      [A, { B with max_depth := toUInt32 ((A.max_depth : Int) + 1) }] ∧
    twiddle_stack_depths [B, A] =
      [{ B with max_depth := toUInt32 ((A.max_depth : Int) + 1) }, A] ∧
    (A.max_depth < 4294967295 →
      twiddle_stack_depths [A, B] = [A, { B with max_depth := A.max_depth + 1 }] ∧
      twiddle_stack_depths [B, A] = [{ B with max_depth := A.max_depth + 1 }, A] ∧
      sort_plan (twiddle_stack_depths [A, B]) =
        some [{ B with max_depth := A.max_depth + 1 }, A] ∧
      sort_plan (twiddle_stack_depths [B, A]) =
        some [{ B with max_depth := A.max_depth + 1 }, A]) := by
  have hne : A.sf.addr ≠ B.sf.addr := fun e => hAA (by rw [e]; exact hAB)
  have hr : List.range 2 = [0, 1] := rfl
  have h1 : twiddle_stack_depths [A, B] =
      [A, { B with max_depth := toUInt32 ((A.max_depth : Int) + 1) }] := by
    have hlen : ¬ [A, B].length < 2 := by simp
    simp only [twiddle_stack_depths, if_neg hlen]
    show (List.range 2).foldl twiddle_planned [A, B] = _
    rw [hr]
    simp only [List.foldl_cons, List.foldl_nil]
    obtain ⟨h0, h1, hl⟩ := twiddle_planned_pair_boost A B A B 0 1 rfl rfl hAA hAB
    rw [list_pair_eq hl h0 h1]
    exact twiddle_planned_pair_none A { B with max_depth := toUInt32 ((A.max_depth : Int) + 1) }
      { B with max_depth := toUInt32 ((A.max_depth : Int) + 1) } 1 rfl hBA hBB
  have h2 : twiddle_stack_depths [B, A] =
      [{ B with max_depth := toUInt32 ((A.max_depth : Int) + 1) }, A] := by
    have hlen : ¬ [B, A].length < 2 := by simp
    simp only [twiddle_stack_depths, if_neg hlen]
    show (List.range 2).foldl twiddle_planned [B, A] = _
    rw [hr]
    simp only [List.foldl_cons, List.foldl_nil]
    rw [twiddle_planned_pair_none B A B 0 rfl hBB hBA]
    obtain ⟨h1, h0, hl⟩ := twiddle_planned_pair_boost B A A B 1 0 rfl rfl hAA hAB
    exact list_pair_eq hl h0 h1
  refine ⟨hne, h1, h2, fun hd => ?_⟩
  have hs := sort_plan_pair_gt { B with max_depth := A.max_depth + 1 } A
    (show A.max_depth + 1 > A.max_depth by omega)
  rw [h1, h2, toUInt32_succ hd]
  exact ⟨rfl, rfl, hs.2, hs.1⟩

/-- Witness for C22: A has max_depth 3 and invokes the static frame of B, which
has max_depth 1; B gets max_depth 4 and comes before A. -/
theorem twiddle_sort_pair_witness :
    ((ex_planned 1 3 [2]).max_depth = 3 ∧ (ex_planned 2 1 []).max_depth = 1 ∧
      (sort_plan (twiddle_stack_depths [ex_planned 1 3 [2], ex_planned 2 1 []])).map
        (fun pl => pl.map fun p => (p.sf.addr, p.max_depth)) = some [(2, 4), (1, 3)]) ∧
    (ex_planned 1 3 [2]).sf.addr ≠ (ex_planned 2 1 []).sf.addr ∧
    twiddle_stack_depths [ex_planned 1 3 [2], ex_planned 2 1 []] =
      [ex_planned 1 3 [2],
        { ex_planned 2 1 [] with max_depth := (ex_planned 1 3 [2]).max_depth + 1 }] ∧
    twiddle_stack_depths [ex_planned 2 1 [], ex_planned 1 3 [2]] =
      [{ ex_planned 2 1 [] with max_depth := (ex_planned 1 3 [2]).max_depth + 1 },
        ex_planned 1 3 [2]] ∧
    sort_plan (twiddle_stack_depths [ex_planned 1 3 [2], ex_planned 2 1 []]) =
      some [{ ex_planned 2 1 [] with max_depth := (ex_planned 1 3 [2]).max_depth + 1 },
        ex_planned 1 3 [2]] ∧
    sort_plan (twiddle_stack_depths [ex_planned 2 1 [], ex_planned 1 3 [2]]) =
      some [{ ex_planned 2 1 [] with max_depth := (ex_planned 1 3 [2]).max_depth + 1 },
        ex_planned 1 3 [2]] :=
  ⟨by decide,
    (twiddle_sort_pair (ex_planned 1 3 [2]) (ex_planned 2 1 []) (by decide) (by decide)
      (by decide) (by decide)).1,
    (twiddle_sort_pair (ex_planned 1 3 [2]) (ex_planned 2 1 []) (by decide) (by decide)
      (by decide) (by decide)).2.2.2 (by decide)⟩

/-! ## uninline: the outer frame and the frame of the last matching entry -/

theorem toUInt32_double {r : Nat} (h : r < 2147483648) : toUInt32 (2 * (r : Int)) = 2 * r := by
  unfold toUInt32
  omega

/-- C23, as stated, fails: the index 2 * return_deopt_idx is computed in 32
bits. The last matching entry of ex_cand_wrap has return_deopt_idx = 2^31; the
outer frame gets the return address 1010 = generic bytecode + deopts[0], while
generic bytecode + deopts[2 * 2^31] is 2777. -/
theorem uninline_outer_return_counterexample :
    ((ex_cand_wrap.inlines.getD []).filter (inline_matches 120)).getLast?.map
      (fun d => d.return_deopt_idx) = some 2147483648 ∧
    (match uninline ex_tc_wrap 0 ex_cand_wrap 120 10 (some 1) with
      | .ok tc1 => (tc1.frames.length, (tc1.frames[0]?).map fun g => g.return_address)
      | .error _ => (0, none)) = (4, some 1010) ∧
    ex_outer_wrap.static_info.bytecode + ex_cand_wrap.deopts 0 = 1010 ∧
    ex_outer_wrap.static_info.bytecode + ex_cand_wrap.deopts (2 * 2147483648) = 2777 := by
  decide

/-- C23, amended: when uninline returns (UninlinePre) and dl is the last inline
table entry in table order with start < offset <= end, the outer frame f
afterwards has return_address = its generic bytecode + deopts[2 *
dl.return_deopt_idx], the index taken as an MVMuint32 (it is 2 *
dl.return_deopt_idx when dl.return_deopt_idx is below 2^31), return_type =
dl.res_type and return_value NULL for the type VOID and otherwise its own
register dl.res_reg; its registers and static frame are as before; and the
frame created for dl, the last one created, has the static frame of dl and the
outer frame as its caller. -/
theorem uninline_outer_return (tc : MVMThreadContext) (f : Nat) (fr : MVMFrame)
    (cand : MVMSpeshCandidate) (offset deopt_offset : Int) (callee : Option Nat)
    (dl : MVMSpeshInline)
    (hf : tc.frames[f]? = some fr)
    (hcallee : ∀ c, callee = some c → c < tc.frames.length)
    (hpre : UninlinePre fr offset callee (cand.inlines.getD []))
    (hlast : ((cand.inlines.getD []).filter (inline_matches offset)).getLast? = some dl) :
    ∃ tc1 outer1 ulast, uninline tc f cand offset deopt_offset callee = .ok tc1 ∧
      tc1.frames[f]? = some outer1 ∧
      outer1.return_address =
        fr.static_info.bytecode + cand.deopts (toUInt32 (2 * (dl.return_deopt_idx : Int))) ∧
      (dl.return_deopt_idx < 2147483648 →
        outer1.return_address =
          fr.static_info.bytecode + cand.deopts (2 * dl.return_deopt_idx)) ∧
      outer1.return_type = dl.res_type ∧
      outer1.return_value =
        (if dl.res_type = MVMReturnType.MVM_RETURN_VOID then none else some dl.res_reg) ∧
      outer1.work = fr.work ∧ outer1.static_info = fr.static_info ∧
      tc1.frames.length = tc.frames.length +
        ((cand.inlines.getD []).filter (inline_matches offset)).length ∧
      tc1.frames[tc1.frames.length - 1]? = some ulast ∧
      ulast.static_info = dl.sf ∧ ulast.caller = some f := by
  obtain ⟨tc1, hok, hspec⟩ := uninline_spec tc f fr cand offset deopt_offset callee hf hcallee hpre
  have hflt : f < tc.frames.length := (List.getElem?_eq_some_iff.1 hf).1
  generalize hms : (cand.inlines.getD []).filter (inline_matches offset) = ms at hspec hlast
  have hne : ms ≠ [] := by
    intro e; rw [e] at hlast; simp at hlast
  have hpos : 0 < ms.length := List.length_pos.2 hne
  have hidx : ms[ms.length - 1]? = some dl := by
    rw [← hlast, List.getLast?_eq_getElem?]
  have hold := hspec.old f hflt
  rw [hf] at hold
  simp only [if_true, Option.map_some'] at hold
  obtain ⟨uc, _, hnew⟩ := hspec.new (ms.length - 1) dl hidx
  have hj : ¬ (ms.length - 1 + 1 < ms.length) := by omega
  rw [if_neg hj] at hnew
  have hlen : tc1.frames.length - 1 = tc.frames.length + (ms.length - 1) := by
    rw [hspec.len]; omega
  refine ⟨tc1, _, _, hok, hold, ?_, fun hr => ?_, ?_, ?_, ?_, ?_, hspec.len,
    by rw [hlen]; exact hnew, rfl, rfl⟩
  · simp only [outer_after, hlast]
    try (split <;> rfl)
  · rw [← toUInt32_double hr]
    simp only [outer_after, hlast]
    try (split <;> rfl)
  all_goals
    simp only [outer_after, hlast]
    try (split <;> rfl)

/-- Witness for C23: the two-level inline scenario on the deopt_all path; the
last matching entry is D1, with return_deopt_idx 1, and the outer frame gets
the return address 1030 = generic bytecode + deopts[2]. -/
theorem uninline_outer_return_witness :
    (ex_D1.return_deopt_idx = 1 ∧ ex_outer.static_info.bytecode + ex_cand.deopts 2 = 1030) ∧
    ∃ tc1 outer1 ulast, uninline ex_tc_callee 0 ex_cand 120 10 (some 1) = .ok tc1 ∧
      tc1.frames[0]? = some outer1 ∧
      outer1.return_address =
        ex_outer.static_info.bytecode +
          ex_cand.deopts (toUInt32 (2 * (ex_D1.return_deopt_idx : Int))) ∧
      (ex_D1.return_deopt_idx < 2147483648 →
        outer1.return_address =
          ex_outer.static_info.bytecode + ex_cand.deopts (2 * ex_D1.return_deopt_idx)) ∧
      outer1.return_type = ex_D1.res_type ∧
      outer1.return_value =
        (if ex_D1.res_type = MVMReturnType.MVM_RETURN_VOID then none else some ex_D1.res_reg) ∧
      outer1.work = ex_outer.work ∧ outer1.static_info = ex_outer.static_info ∧
      tc1.frames.length = ex_tc_callee.frames.length +
        ((ex_cand.inlines.getD []).filter (inline_matches 120)).length ∧
      tc1.frames[tc1.frames.length - 1]? = some ulast ∧
      ulast.static_info = ex_D1.sf ∧ ulast.caller = some 0 :=
  ⟨by decide,
    uninline_outer_return ex_tc_callee 0 ex_outer ex_cand 120 10 (some 1) ex_D1 rfl
      (fun c h => by cases h; decide) (ex_uninline_pre (some 1)) (by decide)⟩

/-! ## uninline on the deopt_all path: the frame uninlined first -/

theorem toUInt16_sub_of_range {r s n : Nat} (hlo : s ≤ r) (hhi : r < s + n) (hr : r < 65536) :
    toUInt16 ((toUInt16 (r : Int) : Int) - (s : Int)) = r - s ∧ r - s < n := by
  have e : toUInt16 (r : Int) = r := by
    unfold toUInt16
    omega
  rw [e]
  constructor
  · unfold toUInt16
    omega
  · omega

/-- C24, as stated, fails: uninline does not check where the return value
register of the outer frame lies. The outer frame of ex_tc_ret 1 waits for an
integer in its register 1 and the only matching inline entry D1 has its two
locals from register 2; the frame uninlined for D1 gets return_value register
65535 (1 - 2 as an MVMuint16), which is not below its num_locals = 2. -/
theorem uninline_first_frame_callee_counterexample :
    (match uninline (ex_tc_ret 1) 0 ex_cand_inner 120 10 (some 1) with
      | .ok tc1 => (tc1.frames[2]?).map fun u => (u.return_value, u.static_info.num_locals)
      | .error _ => none) = some (some 65535, 2) := by
  decide

/-- C24, amended: on the deopt_all path (callee c given), when uninline returns
(UninlinePre) and d0 is the first inline table entry with start < offset <=
end, the frame u created for d0 is the caller of c afterwards, its
return_address is the generic bytecode of its own static frame plus the deopt
target, and its return_type is that of the outer frame; for the type VOID its
return_value is NULL; otherwise the outer frame has a return value register r
and the return_value of u is its own register toUInt16 r - locals_start as an
MVMuint16, which is r - locals_start and lies below num_locals when
locals_start <= r < locals_start + num_locals and r < 65536. -/
theorem uninline_first_frame_callee (tc : MVMThreadContext) (f c : Nat) (fr : MVMFrame)
    (cand : MVMSpeshCandidate) (offset deopt_offset : Int) (d0 : MVMSpeshInline)
    (hf : tc.frames[f]? = some fr)
    (hc : c < tc.frames.length)
    (hpre : UninlinePre fr offset (some c) (cand.inlines.getD []))
    (hfirst : ((cand.inlines.getD []).filter (inline_matches offset))[0]? = some d0) :
    ∃ tc1 u cf, uninline tc f cand offset deopt_offset (some c) = .ok tc1 ∧
      tc1.frames[tc.frames.length]? = some u ∧ u.static_info = d0.sf ∧
      tc1.frames[c]? = some cf ∧ cf.caller = some tc.frames.length ∧
      u.return_address = d0.sf.bytecode + deopt_offset ∧
      u.return_type = fr.return_type ∧
      (fr.return_type = MVMReturnType.MVM_RETURN_VOID → u.return_value = none) ∧
      (fr.return_type ≠ MVMReturnType.MVM_RETURN_VOID →
        ∃ r, fr.return_value = some r ∧
          u.return_value = some (toUInt16 ((toUInt16 (r : Int) : Int) - d0.locals_start)) ∧
          (d0.locals_start ≤ r → r < d0.locals_start + d0.sf.num_locals → r < 65536 →
            u.return_value = some (r - d0.locals_start) ∧
            r - d0.locals_start < d0.sf.num_locals)) := by
  obtain ⟨tc1, hok, hspec⟩ :=
    uninline_spec tc f fr cand offset deopt_offset (some c) hf (by intro c1 h; cases h; exact hc)
      hpre
  have hmem : d0 ∈ (cand.inlines.getD []).filter (inline_matches offset) :=
    List.mem_iff_getElem?.2 ⟨0, hfirst⟩
  have hd0 : d0 ∈ cand.inlines.getD [] ∧ inline_matches offset d0 = true :=
    List.mem_filter.1 hmem
  generalize hms : (cand.inlines.getD []).filter (inline_matches offset) = ms at hspec hfirst
  have hne : ms ≠ [] := by
    intro e; rw [e] at hfirst; simp at hfirst
  obtain ⟨uc, _, hnew⟩ := hspec.new 0 d0 hfirst
  rw [Nat.add_zero] at hnew
  obtain ⟨cf0, hcf0⟩ : ∃ cf0, tc.frames[c]? = some cf0 := ⟨_, List.getElem?_eq_getElem hc⟩
  have hold := hspec.old c hc
  rw [hcf0] at hold
  simp only [Option.map_some'] at hold
  refine ⟨tc1, _, _, hok, hnew, rfl, hold, ?_, rfl, rfl, ?_, ?_⟩
  · by_cases hcf : c = f
    · simp only [hcf, if_true, hne, ne_eq, not_false_eq_true, and_self, outer_after]
      split <;> rfl
    · simp only [hcf, if_false, hne, ne_eq, not_false_eq_true, and_self, if_true]
  · intro hv
    simp [uninlined_frame, hv]
  · intro hv
    have hsome := hpre.2 rfl ⟨d0, hd0.1, hd0.2⟩ hv
    obtain ⟨r, hr⟩ := Option.isSome_iff_exists.1 hsome
    refine ⟨r, hr, by simp [uninlined_frame, hv, hr], ?_⟩
    intro hlo hhi hr16
    obtain ⟨e1, e2⟩ := toUInt16_sub_of_range hlo hhi hr16
    exact ⟨by simp [uninlined_frame, hv, hr, e1], e2⟩

theorem ex_ret_pre (r : Nat) :
    UninlinePre (ex_outer_ret r) 120 (some 1) (ex_cand_inner.inlines.getD []) := by
  refine ⟨?_, fun _ _ _ => rfl⟩
  intro d hd _
  have hd1 : d = ex_D1 := by simpa [ex_cand_inner] using hd
  subst hd1
  exact ⟨ex_code, rfl, rfl⟩

/-- Witness for C24, amended: the outer frame waits for an integer in its
register 3, one of the two registers of D1 (from register 2); the frame
uninlined for D1 gets its own register 1. -/
theorem uninline_first_frame_callee_witness :
    ∃ tc1 u cf, uninline (ex_tc_ret 3) 0 ex_cand_inner 120 10 (some 1) = .ok tc1 ∧
      tc1.frames[(ex_tc_ret 3).frames.length]? = some u ∧ u.static_info = ex_D1.sf ∧
      tc1.frames[1]? = some cf ∧ cf.caller = some (ex_tc_ret 3).frames.length ∧
      u.return_address = ex_D1.sf.bytecode + 10 ∧
      u.return_type = (ex_outer_ret 3).return_type ∧
      ((ex_outer_ret 3).return_type = MVMReturnType.MVM_RETURN_VOID → u.return_value = none) ∧
      ((ex_outer_ret 3).return_type ≠ MVMReturnType.MVM_RETURN_VOID →
        ∃ r, (ex_outer_ret 3).return_value = some r ∧
          u.return_value =
            some (toUInt16 ((toUInt16 (r : Int) : Int) - ex_D1.locals_start)) ∧
          (ex_D1.locals_start ≤ r → r < ex_D1.locals_start + ex_D1.sf.num_locals → r < 65536 →
            u.return_value = some (r - ex_D1.locals_start) ∧
            r - ex_D1.locals_start < ex_D1.sf.num_locals)) :=
  uninline_first_frame_callee (ex_tc_ret 3) 0 1 (ex_outer_ret 3) ex_cand_inner 120 10 ex_D1 rfl
    (by decide) (ex_ret_pre 3) (by decide)

/-! ## MVM_spesh_deopt_all: the walk stops at a frame with JIT code -/

/-- When the body of the loop of MVM_spesh_deopt_all ends in the break, the
frame it worked on has no candidate, no spesh slots and no JIT entry label. -/
theorem deopt_all_body_break {jit_idx : MVMJitCode → MVMFrame → Nat} {tc tcA : MVMThreadContext}
    {l f : Nat} (h : deopt_all_body jit_idx tc l f = .ok (tcA, WalkNext.break_walk)) :
    ∀ fA, tcA.frames[f]? = some fA →
      fA.spesh_cand = none ∧ fA.effective_spesh_slots = none ∧ fA.jit_entry_label = none := by
  unfold deopt_all_body at h
  cases hg : getFrame (clear_dynlex_cache tc f) f with
  | error e =>
    simp only [hg] at h
    cases h
  | ok fr =>
    simp only [hg] at h
    cases hc : fr.spesh_cand with
    | none =>
      simp only [hc] at h
      cases h
    | some cand =>
      simp only [hc] at h
      by_cases hidx : MVM_spesh_deopt_find_inactive_frame_deopt_idx jit_idx fr cand ≥ 0
      · simp only [hidx, if_true] at h
        generalize (if cand.inlines.isSome = true then
            uninline (clear_dynlex_cache tc f) f cand
              (cand.deopts (2 * (MVM_spesh_deopt_find_inactive_frame_deopt_idx jit_idx fr
                cand).toNat + 1))
              (cand.deopts (2 * (MVM_spesh_deopt_find_inactive_frame_deopt_idx jit_idx fr
                cand).toNat)) (some l)
          else Except.ok (modifyFrame (clear_dynlex_cache tc f) f fun g =>
            { g with return_address := g.static_info.bytecode +
                cand.deopts (2 * (MVM_spesh_deopt_find_inactive_frame_deopt_idx jit_idx fr
                  cand).toNat) })) = r at h
        cases r with
        | error e =>
          simp only at h
          cases h
        | ok tc2 =>
          simp only at h
          by_cases hjit : cand.jitcode.isSome = true
          · simp only [hjit, if_true] at h
            cases h
            intro fA hfA
            rw [frames_modifyFrame, frames_modifyFrame] at hfA
            simp only [if_true] at hfA
            cases hy : (deopt_named_args_used tc2 f cand).frames[f]? with
            | none => simp [hy] at hfA
            | some y =>
              simp only [hy, Option.map_some', Option.some.injEq] at hfA
              subst hfA
              exact ⟨rfl, rfl, rfl⟩
          · simp only [hjit] at h
            cases h
      · simp only [hidx, if_false] at h
        cases h

/-- The loop of MVM_spesh_deopt_all along a caller chain pre ++ f :: post on
which f is the first frame at which the walk stops: the loop returns, the
frames of post are as they were, and f has no candidate, no spesh slots and no
JIT entry label. -/
theorem deopt_all_loop_stop (jit_idx : MVMJitCode → MVMFrame → Nat) (tc0 : MVMThreadContext)
    (f : Nat) (post : List Nat) :
    ∀ (pre : List Nat) (fuel : Nat) (tc : MVMThreadContext) (l : Nat) (fo : Option Nat),
      pre.length + 1 ≤ fuel →
      is_caller_chain tc0.frames fo (pre ++ f :: post) = true →
      (∀ g ∈ pre ++ f :: post, tc.frames[g]? = tc0.frames[g]?) →
      l < tc.frames.length → l ∉ pre ++ f :: post → (pre ++ f :: post).Nodup →
      (∀ g ∈ pre, ∀ gr, tc0.frames[g]? = some gr → walk_stops_at jit_idx gr = false) →
      (∀ fr, tc0.frames[f]? = some fr → walk_stops_at jit_idx fr = true) →
      (∀ g ∈ pre ++ [f], ∀ gr, tc0.frames[g]? = some gr → DeoptAllPre jit_idx gr) →
      ∃ tc1, deopt_all_loop jit_idx fuel tc l fo = .ok tc1 ∧
        (∀ g ∈ post, tc1.frames[g]? = tc0.frames[g]?) ∧
        ∃ fA, tc1.frames[f]? = some fA ∧ fA.spesh_cand = none ∧
          fA.effective_spesh_slots = none ∧ fA.jit_entry_label = none := by
  intro pre
  induction pre with
  | nil =>
    intro fuel tc l fo hfuel hchain hframe hl hlnot hnodup _ hstop hpre
    simp only [List.nil_append] at hchain hframe hlnot hnodup
    have hfo := caller_chain_start hchain
    subst hfo
    obtain ⟨_, fr, hfr0, hrest⟩ := caller_chain_cons.1 hchain
    have hfr : tc.frames[f]? = some fr := by
      rw [hframe f (List.mem_cons_self _ _)]; exact hfr0
    have hlf : l ≠ f := fun e => hlnot (by rw [e]; exact List.mem_cons_self _ _)
    have hfnot : f ∉ post := (List.nodup_cons.1 hnodup).1
    obtain ⟨fuel1, hfuel1⟩ : ∃ fuel1, fuel = fuel1 + 1 := by
      cases fuel with
      | zero => simp at hfuel
      | succ n => exact ⟨n, rfl⟩
    subst hfuel1
    obtain ⟨tcA, nxt, hbody, hnxt, _, holdA, _, fA, hfA, _, _⟩ :=
      deopt_all_body_spec jit_idx tc l f fr hfr hl hlf (hpre f (by simp) fr hfr0)
    rw [if_pos (hstop fr hfr0)] at hnxt
    subst hnxt
    refine ⟨tcA, by simp only [deopt_all_loop, hbody], ?_, fA, hfA,
      deopt_all_body_break hbody fA hfA⟩
    intro g hg
    obtain ⟨gr, hgr⟩ := caller_chain_mem tc0.frames post fr.caller hrest g hg
    have hg2 : tc.frames[g]? = some gr := by
      rw [hframe g (List.mem_cons_of_mem _ hg)]; exact hgr
    rw [holdA g (List.getElem?_eq_some_iff.1 hg2).1 (fun e => hfnot (by rw [← e]; exact hg))
      (fun e => hlnot (by rw [← e]; exact List.mem_cons_of_mem _ hg))]
    exact hframe g (List.mem_cons_of_mem _ hg)
  | cons g pre ih =>
    intro fuel tc l fo hfuel hchain hframe hl hlnot hnodup hgo hstop hpre
    simp only [List.cons_append] at hchain hframe hlnot hnodup
    have hfo := caller_chain_start hchain
    subst hfo
    obtain ⟨_, gr, hgr0, hrest⟩ := caller_chain_cons.1 hchain
    have hgr : tc.frames[g]? = some gr := by
      rw [hframe g (List.mem_cons_self _ _)]; exact hgr0
    have hlg : l ≠ g := fun e => hlnot (by rw [e]; exact List.mem_cons_self _ _)
    have hgnot : g ∉ pre ++ f :: post := (List.nodup_cons.1 hnodup).1
    obtain ⟨fuel1, hfuel1⟩ : ∃ fuel1, fuel = fuel1 + 1 := by
      cases fuel with
      | zero => simp at hfuel
      | succ n => exact ⟨n, rfl⟩
    subst hfuel1
    obtain ⟨tcA, nxt, hbody, hnxt, _, holdA, _, gA, hgA, hgAc, _⟩ :=
      deopt_all_body_spec jit_idx tc l g gr hgr hl hlg
        (hpre g (by simp) gr hgr0)
    have hns : ¬ walk_stops_at jit_idx gr = true := by
      rw [hgo g (List.mem_cons_self _ _) gr hgr0]; simp
    rw [if_neg hns] at hnxt
    subst hnxt
    have hrestA : ∀ h ∈ pre ++ f :: post, tcA.frames[h]? = tc0.frames[h]? := by
      intro h hh
      obtain ⟨hr, hhr⟩ := caller_chain_mem tc0.frames (pre ++ f :: post) gr.caller hrest h hh
      have hh2 : tc.frames[h]? = some hr := by
        rw [hframe h (List.mem_cons_of_mem _ hh)]; exact hhr
      rw [holdA h (List.getElem?_eq_some_iff.1 hh2).1 (fun e => hgnot (by rw [← e]; exact hh))
        (fun e => hlnot (by rw [← e]; exact List.mem_cons_of_mem _ hh))]
      exact hframe h (List.mem_cons_of_mem _ hh)
    obtain ⟨tc1, hloop, hpost, hfin⟩ :=
      ih fuel1 tcA g gr.caller (by simp at hfuel; omega) hrest hrestA
        (List.getElem?_eq_some_iff.1 hgA).1 hgnot (List.nodup_cons.1 hnodup).2
        (fun h hh => hgo h (List.mem_cons_of_mem _ hh)) hstop
        (fun h hh => hpre h (by simp at hh ⊢; tauto))
    refine ⟨tc1, ?_, hpost, hfin⟩
    simp only [deopt_all_loop, hbody, getFrame_eq_ok hgA, hgAc]
    exact hloop

/-- C25: let pre ++ f :: post be the caller chain from the caller of the current
frame, where the candidate of f has JIT code and the deopt index of f resolves,
where the walk stops at no frame of pre, and where uninline returns for the
frames of pre and for f (DeoptAllPre); let the walk have fuel for pre and f.
Then MVM_spesh_deopt_all returns, f has no candidate, no spesh slots and no JIT
entry label, and every frame of post, the frames further up the chain, is
exactly as it was, whatever candidates these frames have. -/
theorem deopt_all_stops_at_jit (jit_idx : MVMJitCode → MVMFrame → Nat) (fuel : Nat)
    (tc : MVMThreadContext) (cur fr : MVMFrame) (cand : MVMSpeshCandidate)
    (pre post : List Nat) (f : Nat)
    (hcur : tc.frames[tc.cur_frame]? = some cur)
    (hchain : is_caller_chain tc.frames cur.caller (pre ++ f :: post) = true)
    (hfuel : pre.length + 1 ≤ fuel)
    (hfr : tc.frames[f]? = some fr)
    (hcand : fr.spesh_cand = some cand)
    (hjit : cand.jitcode.isSome = true)
    (hidx : MVM_spesh_deopt_find_inactive_frame_deopt_idx jit_idx (dynlex_cleared fr) cand ≥ 0)
    (hgo : ∀ g ∈ pre, ∀ gr, tc.frames[g]? = some gr → walk_stops_at jit_idx gr = false)
    (hpre : ∀ g ∈ pre ++ [f], ∀ gr, tc.frames[g]? = some gr → DeoptAllPre jit_idx gr) :
    ∃ tc1 fA, MVM_spesh_deopt_all jit_idx fuel tc = .ok tc1 ∧
      tc1.frames[f]? = some fA ∧ fA.spesh_cand = none ∧
      fA.effective_spesh_slots = none ∧ fA.jit_entry_label = none ∧
      ∀ g ∈ post, tc1.frames[g]? = tc.frames[g]? := by
  have hfull : is_caller_chain tc.frames (some tc.cur_frame)
      (tc.cur_frame :: (pre ++ f :: post)) = true :=
    caller_chain_cons.2 ⟨rfl, cur, hcur, hchain⟩
  have hstop : ∀ fr1, tc.frames[f]? = some fr1 → walk_stops_at jit_idx fr1 = true := by
    intro fr1 h1
    rw [hfr] at h1
    cases h1
    simp only [walk_stops_at, deopt_idx_resolves, hcand, hjit, Bool.and_true, decide_eq_true_eq]
    exact hidx
  obtain ⟨tc1, hloop, hpost, fA, hfA, h1, h2, h3⟩ :=
    deopt_all_loop_stop jit_idx tc f post pre fuel tc tc.cur_frame cur.caller hfuel hchain
      (fun _ _ => rfl) (List.getElem?_eq_some_iff.1 hcur).1 (caller_chain_not_mem hfull)
      (caller_chain_nodup tc.frames _ cur.caller hchain) hgo hstop hpre
  refine ⟨tc1, fA, ?_, hfA, h1, h2, h3, hpost⟩
  simp only [MVM_spesh_deopt_all, getFrame_eq_ok hcur]
  exact hloop

/-- Witness for C25: the call stack 0 -> 1 -> 2 of ex_tc_jit. Frame 1 has JIT
code and its deopt index resolves; frame 2 keeps its candidate, its spesh
slots and its return address, although its return address is in the deopt
table. -/
theorem deopt_all_stops_at_jit_witness :
    (match MVM_spesh_deopt_all (fun _ _ => 0) 1 ex_tc_jit with
      | .ok tc1 => tc1.frames.map fun fr =>
          (fr.spesh_cand.isSome, fr.effective_spesh_slots, fr.return_address)
      | .error _ => []) = [(false, none, 0), (false, none, 1010), (true, some 1, 5080)] ∧
    ∃ tc1 fA, MVM_spesh_deopt_all (fun _ _ => 0) 1 ex_tc_jit = .ok tc1 ∧
      tc1.frames[1]? = some fA ∧ fA.spesh_cand = none ∧
      fA.effective_spesh_slots = none ∧ fA.jit_entry_label = none ∧
      ∀ g ∈ [2], tc1.frames[g]? = ex_tc_jit.frames[g]? :=
  ⟨by decide,
    deopt_all_stops_at_jit (fun _ _ => 0) 1 ex_tc_jit (ex_frame (some 1) none 0)
      (ex_frame (some 2) (some ex_cand_jit) 5040) ex_cand_jit [] [2] 1 rfl (by decide)
      (by decide) rfl rfl rfl (by decide) (fun g hg => by simp at hg)
      (fun g hg gr hgr cand hc _ hin => by
        have hg1 : g = 1 := by simpa using hg
        subst hg1
        simp only [ex_tc_jit, List.getElem?_cons_succ, List.getElem?_cons_zero,
          Option.some.injEq] at hgr
        subst hgr
        simp only [ex_frame, Option.some.injEq] at hc
        subst hc
        simp [ex_cand_jit, ex_cand_plain] at hin)⟩

end MoarVM
